import Mathlib

/-!
# openapi-codegen: the `transform` adaptor (`src/adaptor.js`)

A shallow embedding of `transform`, the function that turns a parsed OpenAPI 3
document into the flat context handed to the template engine, followed by
theorems about the operation records and models it produces.

Conventions of the embedding

* A JavaScript object whose keys are iterated (`for ... in`, `Object.values`) is
  an association list in iteration order; an absent member (`undefined`) is
  `none`.
* Objects that the source shares between several arrays and later mutates (the
  parameter objects of an operation) live in an explicit store, and the arrays
  hold indices into it, so that aliasing is visible.
* A JavaScript exception is the `Except.error` result.
* The module-level variable `typeMap` is threaded through `transform` as an
  explicit input and output.
-/

namespace Adaptor

/-! ## JavaScript values and strings -/

/-- JavaScript values, as they occur in the caller's options and in the scalar
keys of the context. -/
inductive JVal where
  | undefined : JVal
  | null : JVal
  | bool (b : Bool) : JVal
  | num (n : Int) : JVal
  | str (s : String) : JVal
  | arr (xs : List JVal) : JVal
  | obj (kvs : List (String × JVal)) : JVal

/-- An object with scalar members, keys in insertion order. -/
abbrev Obj := List (String × JVal)

/-- JavaScript truthiness (`if (v)`, `!v`, `v || w`). -/
def JVal.truthy : JVal → Bool
  | .undefined => false
  | .null => false
  | .bool b => b
  | .num n => n != 0
  | .str s => s != ""
  | .arr _ => true
  | .obj _ => true

/-- Truthiness of an optional boolean member such as `required`. -/
def truthyB : Option Bool → Bool
  | some true => true
  | _ => false

/-- Truthiness of an optional string member: present and not empty. -/
def truthyS : Option String → Bool
  | some s => s != ""
  | none => false

/-- The string a member turns into under `+`: `undefined` when absent. -/
def jsStr : Option String → String
  | some s => s
  | none => "undefined"

/-- An optional string member as a value. -/
def JVal.ofStr : Option String → JVal
  | some s => .str s
  | none => .undefined

/-- The expression `a || b` on optional strings. -/
def orElseS (a b : Option String) : Option String :=
  if truthyS a then a else b

/-- Member read `o[k]`; `undefined` when the key is absent. -/
def Obj.get (o : Obj) (k : String) : JVal :=
  match o.find? (fun kv => kv.1 == k) with
  | some kv => kv.2
  | none => .undefined

/-- Tests whether `k` is an own key of `o`. -/
def Obj.has (o : Obj) (k : String) : Bool :=
  o.any (fun kv => kv.1 == k)

/-- Assignment `o[k] = v`: an existing key keeps its place, a new key goes last. -/
def Obj.set : Obj → String → JVal → Obj
  | [], k, v => [(k, v)]
  | (k', v') :: rest, k, v =>
    if k' == k then (k', v) :: rest else (k', v') :: Obj.set rest k v

/-- The call `Object.assign(target, source)`. -/
def Obj.assign (target source : Obj) : Obj :=
  source.foldl (fun acc kv => Obj.set acc kv.1 kv.2) target

/-- The method `String.prototype.toLowerCase`, on the ASCII letters. -/
def toLowerCase (s : String) : String :=
  String.mk (s.data.map Char.toLower)

/-- The method `String.prototype.startsWith`. -/
def startsWith (s pre : String) : Bool :=
  pre.data.isPrefixOf s.data

/-- The segments of `s.split(sep)` for a one-character separator. -/
def splitChars (sep : Char) : List Char → List (List Char)
  | [] => [[]]
  | c :: cs =>
    if c = sep then [] :: splitChars sep cs
    else
      match splitChars sep cs with
      | seg :: rest => (c :: seg) :: rest
      | [] => [[c]]

/-- The expression `s.split(sep)[i]`. -/
def splitAt (s : String) (sep : Char) (i : Nat) : Option String :=
  ((splitChars sep s.data).get? i).map String.mk

/-- The expression `s.split(a).join(b)` for one-character `a` and `b`. -/
def replaceChar (s : String) (a b : Char) : String :=
  String.mk (s.data.map (fun c => if c = a then b else c))

/-- The replacement loop of `toCamelCase`: a separator out of `-_ /.` followed
by a character (any but a line terminator) is replaced by that character in
upper case. -/
def camelizeChars : List Char → List Char
  | [] => []
  | [c] => [c]
  | c :: d :: rest =>
    if (c = '-' ∨ c = '_' ∨ c = ' ' ∨ c = '/' ∨ c = '.') ∧
        ¬ (d = '\n' ∨ d = '\r' ∨ d = Char.ofNat 0x2028 ∨ d = Char.ofNat 0x2029) then
      d.toUpper :: camelizeChars rest
    else c :: camelizeChars (d :: rest)

/-- The method `String.prototype.toCamelCase` that the module installs (source
lines 13-17); the case conversions are those of the ASCII letters. -/
def toCamelCase (s : String) : String :=
  String.mk (camelizeChars (toLowerCase s).data)

/-! ## The input document -/

/-- A schema object of the dereferenced document. `xOldref` is the member
`x-oldref` that dereferencing leaves on a node that was a `$ref`. -/
inductive Schema where
  | mk (name title description type format default : Option String)
       (required : Option (List String)) (xOldref : Option String)
       (items additionalProperties : Option Schema)
       (properties : Option (List (String × Schema))) : Schema

namespace Schema

/-- The member `name` of a schema object. -/
def name : Schema → Option String
  | mk v _ _ _ _ _ _ _ _ _ _ => v

/-- The member `title` of a schema object. -/
def title : Schema → Option String
  | mk _ v _ _ _ _ _ _ _ _ _ => v

/-- The member `description` of a schema object. -/
def description : Schema → Option String
  | mk _ _ v _ _ _ _ _ _ _ _ => v

/-- The member `type` of a schema object. -/
def type : Schema → Option String
  | mk _ _ _ v _ _ _ _ _ _ _ => v

/-- The member `format` of a schema object. -/
def format : Schema → Option String
  | mk _ _ _ _ v _ _ _ _ _ _ => v

/-- The member `default` of a schema object. -/
def default : Schema → Option String
  | mk _ _ _ _ _ v _ _ _ _ _ => v

/-- The member `required` of a schema object. -/
def required : Schema → Option (List String)
  | mk _ _ _ _ _ _ v _ _ _ _ => v

/-- The member `x-oldref` of a schema object. -/
def xOldref : Schema → Option String
  | mk _ _ _ _ _ _ _ v _ _ _ => v

/-- The member `items` of a schema object. -/
def items : Schema → Option Schema
  | mk _ _ _ _ _ _ _ _ v _ _ => v

/-- The member `additionalProperties` of a schema object. -/
def additionalProperties : Schema → Option Schema
  | mk _ _ _ _ _ _ _ _ _ v _ => v

/-- The member `properties` of a schema object. -/
def properties : Schema → Option (List (String × Schema))
  | mk _ _ _ _ _ _ _ _ _ _ v => v

/-- The object literal `{}`. -/
def empty : Schema :=
  mk none none none none none none none none none none none

/-- The schema `{type: t}`. -/
def ofType (t : String) : Schema :=
  mk none none none (some t) none none none none none none none

/-- The schema `{type: 'array', items: it}`. -/
def arrayOf (it : Schema) : Schema :=
  mk none none none (some "array") none none none none (some it) none none

/-- The schema `{type: 'object', properties: ps}`. -/
def objectOf (ps : List (String × Schema)) : Schema :=
  mk none none none (some "object") none none none none none none (some ps)

/-- The schema `s` with its `title` set to `t`. -/
def withTitle (t : String) : Schema → Schema
  | mk n _ ds ty f d r x i a p => mk n (some t) ds ty f d r x i a p

/-- The schema `s` with its `name` set to `n`. -/
def withName (n : String) : Schema → Schema
  | mk _ t ds ty f d r x i a p => mk (some n) t ds ty f d r x i a p

end Schema

/-- A parameter object of an operation. -/
structure Param where
  name : Option String := none
  «in» : Option String := none
  required : Option Bool := none
  description : Option String := none
  default : Option String := none
  schema : Option Schema := none

/-- A media type object, a value of a `content` map. -/
structure MediaType where
  schema : Option Schema := none

/-- A request body object. -/
structure RequestBody where
  description : Option String := none
  required : Option Bool := none
  content : Option (List (String × MediaType)) := none

/-- A response object. -/
structure Response where
  description : Option String := none
  content : Option (List (String × MediaType)) := none

/-- The value `pathItem[o]` read as an operation object. For a key that holds
something else (`servers`, say) every member read below is absent. -/
structure Op where
  operationId : Option String := none
  summary : Option String := none
  description : Option String := none
  tags : Option (List String) := none
  parameters : Option (List Param) := none
  requestBody : Option RequestBody := none
  responses : Option (List (String × Response)) := none

/-- A path item: its keys in iteration order. -/
abbrev PathItem := List (String × Op)

structure Contact where
  email : Option String := none
  url : Option String := none

structure License where
  name : Option String := none
  url : Option String := none

structure Info where
  title : Option String := none
  version : Option String := none
  description : Option String := none
  contact : Option Contact := none
  license : Option License := none

structure Server where
  url : Option String := none

/-- One flow of an OAuth2 security scheme. -/
structure Flow where
  authorizationUrl : Option String := none
  tokenUrl : Option String := none

structure SecurityScheme where
  type : Option String := none
  name : Option String := none
  «in» : Option String := none
  flows : Option (List (String × Flow)) := none

structure Components where
  securitySchemes : Option (List (String × SecurityScheme)) := none
  schemas : Option (List (String × Schema)) := none

/-- The parsed API description. -/
structure Document where
  openapi : Option String := none
  info : Option Info := none
  servers : Option (List Server) := none
  paths : Option (List (String × PathItem)) := none
  components : Option Components := none

/-! ## Type mappings -/

/-- The keys of the registry `typeMaps`; the module variable `typeMap` always
holds one of its members. -/
inductive TypeMapName where
  | nop | java | javascript | typescript
  deriving DecidableEq, Repr

/-- The registry `typeMaps`, applied: `typeMaps m type required schema` is the
call `typeMaps[m](type, required, schema)`, where `required` stands for the
truthiness of the argument. The recursive call of the `typescript` entry goes
through the module variable `typeMap`, which holds `typeMaps.typescript`
whenever that entry runs. -/
def typeMaps : TypeMapName → Option String → Bool → Schema → Option String
  | .nop, type, _, _ => type
  | .java, type, required, _ =>
    if !required then some (jsStr type ++ "?") else type
  | .javascript, type, _, _ =>
    if type = some "integer" then some "number" else type
  | .typescript, type, _, .mk _ _ _ _ _ _ _ _ items _ _ =>
    let result := if type = some "integer" then some "number" else type
    if result = some "array" then
      match items with
      | some it =>
        if truthyS it.type then
          some ("Array" ++ ("<" ++ jsStr (typeMaps .typescript it.type false it) ++ ">"))
        else some "Array"
      | none => some "Array"
    else result

/-- The lookup `typeMaps[lang]` of the language selection, on the four own keys
of the registry. The registry is an object literal, so that the read is truthy
at two more lower-case strings, the inherited keys `constructor` and
`__proto__`, where the source assigns `Object` and `Object.prototype` to the
variable `typeMap`; these two values are no type mapping of the registry and
the embedding leaves them out: a call whose language lower-cases to one of them
is not described by `transform` below, and the statements about an unknown
language exclude them through `truthyRegistryKeys`. -/
def lookupTypeMap (lang : String) : Option TypeMapName :=
  if lang = "nop" then some .nop
  else if lang = "java" then some .java
  else if lang = "javascript" then some .javascript
  else if lang = "typescript" then some .typescript
  else none

/-- The lower-case strings at which the read `typeMaps[lang]` of source line 112
is truthy: the four own keys of the registry, and `constructor` and `__proto__`,
the two keys in lower case that the object literal inherits from
`Object.prototype`. -/
def truthyRegistryKeys : List String :=
  ["nop", "java", "javascript", "typescript", "constructor", "__proto__"]

/-! ## Operation records -/

/-- A parameter object built by `transform`, either for a declared parameter or
for the request body (`isBodyParam`). A flag the source leaves unset is
`false`. -/
structure Parameter where
  paramName : Option String := none
  baseName : Option String := none
  required : Option Bool := none
  dataType : Option String := none
  dataFormat : Option String := none
  description : Option String := none
  unescapedDescription : Option String := none
  defaultValue : Option String := none
  hasMore : Bool := true
  isPathParam : Bool := false
  isQueryParam : Bool := false
  isHeaderParam : Bool := false
  isFormParam : Bool := false
  isBodyParam : Bool := false
  isEnum : Option Bool := none
  type : Option String := none
  schema : Option Schema := none

/-- An entry of `operation.responses`. -/
structure ResponseEntry where
  code : String
  nickname : String
  message : Option String
  simpleType : Bool
  schema : Schema
  dataType : Option String

/-- An operation record. `store` holds the parameter objects created for the
operation, in creation order; `allParams`, `pathParams`, `queryParams`,
`headerParams`, `formParams`, `bodyParams` and `bodyParam` hold references
(indices into `store`), since the source puts one and the same object into
several of them. -/
structure Operation where
  nickname : Option String
  httpMethod : String
  path : String
  operationId : Option String
  store : List Parameter := []
  allParams : List Nat := []
  pathParams : List Nat := []
  queryParams : List Nat := []
  headerParams : List Nat := []
  formParams : List Nat := []
  summary : Option String
  notes : Option String
  hasProduces : Bool := true
  hasMore : Bool := true
  isResponseBinary : Bool := false
  baseName : String := "Default"
  hasParams : Bool := false
  hasPathParams : Bool := false
  hasQueryParams : Bool := false
  hasHeaderParams : Bool := false
  hasFormParams : Bool := false
  hasBodyParam : Bool := false
  bodyParam : Option Nat := none
  bodyParams : Option (List Nat) := none
  tags : Option (List String) := none
  imports : Option (List String) := none
  responses : List ResponseEntry := []

/-- An element of `obj.operations`. -/
structure OperationContainer where
  baseName : Option String
  classname : Option String
  operation : Operation

/-- The parameter object behind a reference. -/
def Operation.param (op : Operation) (r : Nat) : Option Parameter :=
  op.store.get? r

/-- The object built for a declared parameter whose schema is `schema`
(source lines 306-315 and the location flags of lines 317-336). -/
def mkParameter (typeMap : TypeMapName) (param : Param) (schema : Schema) : Parameter :=
  { paramName := param.name
    baseName := param.name
    required := param.required
    dataType := typeMaps typeMap schema.type (truthyB param.required) schema
    dataFormat := schema.format
    description := param.description
    unescapedDescription := param.description
    defaultValue := param.default
    hasMore := true
    isPathParam := param.in == some "path"
    isQueryParam := param.in == some "query"
    isHeaderParam := param.in == some "header"
    isFormParam := param.in == some "form" }

/-- One turn of the loop over `op.parameters` (source lines 303-337). Reading
`param.schema.type` raises a TypeError when the parameter has no `schema`. -/
def addParameter (typeMap : TypeMapName) (operation : Operation) (param : Param) :
    Except String Operation :=
  match param.schema with
  | none => .error "TypeError: Cannot read property 'type' of undefined"
  | some schema =>
    let r := operation.store.length
    let inPath := param.in == some "path"
    let inQuery := param.in == some "query"
    let inHeader := param.in == some "header"
    let inForm := param.in == some "form"
    .ok { operation with
      hasParams := true
      store := operation.store ++ [mkParameter typeMap param schema]
      allParams := operation.allParams ++ [r]
      pathParams := if inPath then operation.pathParams ++ [r] else operation.pathParams
      hasPathParams := if inPath then true else operation.hasPathParams
      queryParams := if inQuery then operation.queryParams ++ [r] else operation.queryParams
      hasQueryParams := if inQuery then true else operation.hasQueryParams
      headerParams := if inHeader then operation.headerParams ++ [r] else operation.headerParams
      hasHeaderParams := if inHeader then true else operation.hasHeaderParams
      formParams := if inForm then operation.formParams ++ [r] else operation.formParams
      hasFormParams := if inForm then true else operation.hasFormParams }

/-- The loop `for (let pa in op.parameters)`. -/
def addParameters (typeMap : TypeMapName) : Operation → List Param → Except String Operation
  | operation, [] => .ok operation
  | operation, param :: rest =>
    match addParameter typeMap operation param with
    | .error e => .error e
    | .ok operation' => addParameters typeMap operation' rest

/-- The body parameter object of source lines 340-349 and 360, before the
request body's content is looked at. -/
def mkBodyParam (requestBody : RequestBody) : Parameter :=
  { isBodyParam := true
    baseName := some "body"
    paramName := some "body"
    dataType := some "object"
    description := requestBody.description
    schema := some Schema.empty
    isEnum := some false
    required := requestBody.required
    hasMore := true }

/-- The body parameter synthesis (source lines 338-362). `Object.values(content)[0]`
is `undefined` for an empty `content`, and reading `.schema` of it, or `.type` of
an absent `schema`, raises a TypeError. -/
def addBodyParam (operation : Operation) : Option RequestBody → Except String Operation
  | none => .ok operation
  | some requestBody =>
    let bodyParam := mkBodyParam requestBody
    let filled : Except String Parameter :=
      match requestBody.content with
      | none => .ok bodyParam
      | some [] => .error "TypeError: Cannot read property 'schema' of undefined"
      | some ((_, contentType) :: _) =>
        match contentType.schema with
        | none => .error "TypeError: Cannot read property 'type' of undefined"
        | some schema =>
          .ok { bodyParam with
            schema := some schema
            type := if truthyS schema.type then schema.type else none }
    match filled with
    | .error e => .error e
    | .ok bodyParam =>
      let r := operation.store.length
      .ok { operation with
        hasBodyParam := true
        store := operation.store ++ [bodyParam]
        bodyParam := some r
        bodyParams := some [r]
        allParams := operation.allParams ++ [r] }

/-- The expression `s.replace(pat, '')` for a non-empty string `pat`: the first
occurrence of `pat` is removed. -/
def removeFirst (pat : List Char) : List Char → List Char
  | [] => []
  | c :: cs =>
    if pat.isPrefixOf (c :: cs) then (c :: cs).drop pat.length
    else c :: removeFirst pat cs

/-- One turn of the loop over `op.responses` (source lines 369-390). -/
def mkResponse (r : String) (response : Response) : Except String ResponseEntry :=
  let entry : ResponseEntry :=
    { code := r
      nickname := "response" ++ r
      message := response.description
      simpleType := true
      schema := Schema.empty
      dataType := none }
  match response.content with
  | none => .ok entry
  | some [] => .error "TypeError: Cannot read property 'schema' of undefined"
  | some ((_, contentType) :: _) =>
    match contentType.schema with
    | none => .ok { entry with dataType := some "object" }
    | some schema =>
      .ok { entry with
        schema := schema
        dataType :=
          if truthyS schema.xOldref then
            some (String.mk (removeFirst "#/components/schemas/".data (jsStr schema.xOldref).data))
          else schema.type }

/-- The loop `for (let r in op.responses)`. -/
def mkResponses : List (String × Response) → Except String (List ResponseEntry)
  | [] => .ok []
  | (r, response) :: rest =>
    match mkResponse r response with
    | .error e => .error e
    | .ok entry =>
      match mkResponses rest with
      | .error e => .error e
      | .ok entries => .ok (entry :: entries)

/-- The comparator handed to `allParams.sort` (source lines 394-398). -/
def compareRequired (a b : Option Bool) : Int :=
  if truthyB a && !truthyB b then -1
  else if truthyB b && !truthyB a then 1
  else 0

/-- Insertion of `x` in front of the first element it does not come after. -/
def insertSorted {α : Type} (cmp : α → α → Int) (x : α) : List α → List α
  | [] => [x]
  | y :: ys => if cmp x y ≤ 0 then x :: y :: ys else y :: insertSorted cmp x ys

/-- The call `Array.prototype.sort(cmp)`. The language standard makes the sort
stable, and for a consistent comparator every stable sort returns the same
array; it is embedded as insertion sort, elements that compare equal keeping
their order. -/
def jsSort {α : Type} (cmp : α → α → Int) : List α → List α
  | [] => []
  | x :: xs => insertSorted cmp x (jsSort cmp xs)

/-- The member `required` of the parameter object behind a reference. -/
def requiredOf (store : List Parameter) (r : Nat) : Option Bool :=
  match store.get? r with
  | some p => p.required
  | none => none

/-- The assignment `store[r].hasMore = false`. -/
def setHasMoreFalse : List Parameter → Nat → List Parameter
  | [], _ => []
  | p :: ps, 0 => { p with hasMore := false } :: ps
  | p :: ps, r + 1 => p :: setHasMoreFalse ps r

/-- The sort of `allParams` and the reset of the last element's `hasMore`
(source lines 393-402). -/
def sortAndMarkLast (sortParamsByRequiredFlag : Bool) (operation : Operation) : Operation :=
  let allParams :=
    if sortParamsByRequiredFlag then
      jsSort (fun a b => compareRequired (requiredOf operation.store a)
        (requiredOf operation.store b)) operation.allParams
    else operation.allParams
  { operation with
    allParams := allParams
    store :=
      match allParams.getLast? with
      | none => operation.store
      | some last => setHasMoreFalse operation.store last }

/-- The operation record of source lines 281-302, before its parameters are
read. -/
def newOperation (p o : String) (op : Op) : Operation :=
  { nickname := op.operationId
    httpMethod := o
    path := p
    operationId := op.operationId
    summary := op.summary
    notes := op.description
    baseName :=
      match op.tags with
      | some (tag :: _) => tag
      | _ => "Default" }

/-- The body of the loop over the keys of a path item, for a key `o` that is
not skipped (source lines 281-408). -/
def buildOperation (typeMap : TypeMapName) (sortParamsByRequiredFlag : Bool)
    (p o : String) (op : Op) : Except String OperationContainer :=
  match addParameters typeMap (newOperation p o op) (op.parameters.getD []) with
  | .error e => .error e
  | .ok withParams =>
    match addBodyParam withParams op.requestBody with
    | .error e => .error e
    | .ok withBody =>
      match mkResponses (op.responses.getD []) with
      | .error e => .error e
      | .ok responses =>
        let operation := sortAndMarkLast sortParamsByRequiredFlag
          { withBody with tags := op.tags, imports := op.tags, responses := responses }
        .ok { baseName := operation.nickname
              classname := operation.nickname
              operation := operation }

/-- The keys of a path item that the loop passes over (source lines 270-279). -/
def isSkippedKey (o : String) : Bool :=
  o == "description" || o == "summary" || o == "parameters" || o == "$ref" ||
    startsWith o "x-"

/-- The loop `for (let o in pathItem)` (source lines 269-410); `operations` is
`obj.operations` so far. -/
def pathItemLoop (typeMap : TypeMapName) (sortParamsByRequiredFlag : Bool) (p : String) :
    List (String × Op) → List OperationContainer → Except String (List OperationContainer)
  | [], operations => .ok operations
  | (o, op) :: rest, operations =>
    if isSkippedKey o then
      pathItemLoop typeMap sortParamsByRequiredFlag p rest operations
    else
      match buildOperation typeMap sortParamsByRequiredFlag p o op with
      | .error e => .error e
      | .ok container =>
        pathItemLoop typeMap sortParamsByRequiredFlag p rest (operations ++ [container])

/-- The loop `for (let p in api.paths)` (source lines 267-411). -/
def pathsLoop (typeMap : TypeMapName) (sortParamsByRequiredFlag : Bool) :
    List (String × PathItem) → List OperationContainer →
      Except String (List OperationContainer)
  | [], operations => .ok operations
  | (p, pathItem) :: rest, operations =>
    match pathItemLoop typeMap sortParamsByRequiredFlag p pathItem operations with
    | .error e => .error e
    | .ok operations' => pathsLoop typeMap sortParamsByRequiredFlag rest operations'

/-- The assignment `container.operation.hasMore = false`. -/
def OperationContainer.markLast (c : OperationContainer) : OperationContainer :=
  { c with operation := { c.operation with hasMore := false } }

/-- The reset of the last operation (source lines 413-415). The guard
`if (obj.operations)` holds for every array, the empty one included, and
`obj.operations[-1]` is `undefined`, so that an empty list raises a TypeError. -/
def markLastOperation (operations : List OperationContainer) :
    Except String (List OperationContainer) :=
  match operations.getLast? with
  | none => .error "TypeError: Cannot read property 'operation' of undefined"
  | some last => .ok (operations.dropLast ++ [last.markLast])

/-! ## Models -/

/-- A call of the `walkSchema` callback: the node, its parent, and the members
`depth` and `property` of the walker's state at the time of the call. -/
structure Visit where
  schema : Schema
  parent : Schema
  depth : Nat
  property : Option String

mutual

/-- Modelled from the spec: `walkSchema` of the package swagger2openapi, which
`src/` imports and does not contain. The walk calls the callback on a node and
then walks the node's `items`, its `additionalProperties` and each of its
`properties` in turn, one level deeper, after setting `state.property` to
`items`, `additionalProperties` or `properties/<key>`. `walkAt depth property
parent schema` lists the calls of the callback in the order they are made. -/
def walkAt : Nat → Option String → Schema → Schema → List Visit
  | depth, property, parent, .mk n t ds ty f d r x items additionalProperties properties =>
    let schema := Schema.mk n t ds ty f d r x items additionalProperties properties
    { schema := schema, parent := parent, depth := depth, property := property } ::
      (walkOption (depth + 1) "items" schema items ++
        (walkOption (depth + 1) "additionalProperties" schema additionalProperties ++
          walkProperties (depth + 1) schema properties))
termination_by structural _ _ _ schema => schema

/-- Modelled from the spec: the walk of an optional subschema (`items`,
`additionalProperties`), part of `walkAt`. -/
def walkOption : Nat → String → Schema → Option Schema → List Visit
  | _, _, _, none => []
  | depth, property, parent, some schema => walkAt depth (some property) parent schema
termination_by structural _ _ _ schema => schema

/-- Modelled from the spec: the walk of the `properties` member, part of
`walkAt`. -/
def walkProperties : Nat → Schema → Option (List (String × Schema)) → List Visit
  | _, _, none => []
  | depth, parent, some properties => walkPropertyList depth parent properties
termination_by structural _ _ properties => properties

/-- Modelled from the spec: the loop over the keys of `properties`, part of
`walkAt`. -/
def walkPropertyList : Nat → Schema → List (String × Schema) → List Visit
  | _, _, [] => []
  | depth, parent, (prop, subSchema) :: rest =>
    walkAt depth (some ("properties/" ++ prop)) parent subSchema ++
      walkPropertyList depth parent rest
termination_by structural _ _ properties => properties

end

/-- Modelled from the spec: the call `walkSchema(schema, {}, wsGetState, callback)`
of source line 436, as the list of callback calls it makes: the walk starts at
depth 0 with `state.property` unset and the parent `{}`. -/
def walkSchema (schema : Schema) : List Visit :=
  walkAt 0 none Schema.empty schema

/-- An element of `model.vars`. -/
structure Variable where
  name : Option String
  baseName : String
  getter : String
  setter : String
  type : Option String
  required : Option Bool
  datatype : Option String
  datatypeWithEnum : Option String
  hasMore : Bool
  isPrimitiveType : Bool
  isNotContainer : Bool
  dataFormat : Option String
  defaultValue : Option String
  isEnum : Bool

/-- The name of an entry (source lines 438-442). -/
def entryName (schema : Schema) (property : Option String) : Option String :=
  let name := orElseS schema.name schema.title
  if !truthyS name && truthyS property &&
      (startsWith (jsStr property) "properties" ||
        startsWith (jsStr property) "additionalProperties") then
    splitAt (jsStr property) '/' 1
  else name

/-- The value `parent.required && parent.required.indexOf(entry.name) >= 0`. -/
def entryRequired (parent : Schema) (name : Option String) : Option Bool :=
  match parent.required with
  | none => none
  | some required =>
    match name with
    | none => some false
    | some n => some (required.contains n)

/-- The test of source line 454; when it holds the line reads `.replace` of a
schema object, which is not a function, and raises a TypeError. -/
def readsOldrefOfProperties (schema : Schema) : Bool :=
  schema.type == some "object" &&
    match schema.properties with
    | none => false
    | some properties => properties.any (fun kv => kv.1 == "x-oldref")

/-- The test `entry.name && state.depth<=1` of source line 461. -/
def isRetained (v : Visit) : Bool :=
  truthyS (entryName v.schema v.property) && decide (v.depth ≤ 1)

/-- The entry the callback builds at a visit (source lines 437-462). -/
def mkVariable (typeMap : TypeMapName) (v : Visit) : Variable :=
  let name := entryName v.schema v.property
  let required := entryRequired v.parent name
  let type := typeMaps typeMap v.schema.type (truthyB required) v.schema
  let isPrimitiveType := v.schema.type != some "object" && v.schema.type != some "array"
  { name := name
    baseName := toLowerCase (jsStr name)
    getter := toCamelCase ("get_" ++ jsStr name)
    setter := toCamelCase ("set_" ++ jsStr name)
    type := type
    required := required
    datatype := type
    datatypeWithEnum := type
    hasMore := true
    isPrimitiveType := isPrimitiveType
    isNotContainer := isPrimitiveType
    dataFormat := v.schema.format
    defaultValue := v.schema.default
    isEnum := false }

/-- The callback handed to `walkSchema` (source lines 436-465): the entry it
pushes to `model.vars`, if any. -/
def callback (typeMap : TypeMapName) (v : Visit) : Except String (Option Variable) :=
  if readsOldrefOfProperties v.schema then
    .error "TypeError: schema.properties.x-oldref.replace is not a function"
  else if isRetained v then .ok (some (mkVariable typeMap v))
  else .ok none

/-- The entries pushed to `model.vars` over a sequence of callback calls. -/
def collectVars (typeMap : TypeMapName) : List Visit → Except String (List Variable)
  | [] => .ok []
  | v :: rest =>
    match callback typeMap v with
    | .error e => .error e
    | .ok entry =>
      match collectVars typeMap rest with
      | .error e => .error e
      | .ok vars => .ok (entry.toList ++ vars)

/-- A model (source lines 428-435). -/
structure Model where
  name : String
  classname : String
  classVarName : String
  title : Option String
  unescapedDescription : Option String
  vars : List Variable

/-- An element of `obj.models`. -/
structure ModelContainer where
  model : Model

/-- The body of the loop over `api.components.schemas` (source lines 426-467). -/
def buildModel (typeMap : TypeMapName) (s : String) (schema : Schema) :
    Except String ModelContainer :=
  match collectVars typeMap (walkSchema schema) with
  | .error e => .error e
  | .ok vars =>
    .ok { model :=
      { name := s
        classname := s
        classVarName := s
        title := schema.title
        unescapedDescription := schema.description
        vars := vars } }

/-- The loop `for (let s in api.components.schemas)`. -/
def buildModels (typeMap : TypeMapName) : List (String × Schema) →
    Except String (List ModelContainer)
  | [] => .ok []
  | (s, schema) :: rest =>
    match buildModel typeMap s schema with
    | .error e => .error e
    | .ok container =>
      match buildModels typeMap rest with
      | .error e => .error e
      | .ok containers => .ok (container :: containers)

/-! ## The context builder -/

/-- The defaults table `getBase()` (source lines 57-105). -/
def getBase : Obj :=
  [ ("supportingFiles", .arr []), ("modelTests", .arr []), ("modelDocs", .arr []),
    ("apiTests", .arr []), ("apiDocs", .arr []),
    ("allowUnicodeIdentifiers", .bool false),
    ("licenseName", .str "Unlicense"),
    ("licenseUrl", .str "https://unlicense.org"),
    ("localVariablePrefix", .str ""),
    ("serializableModel", .bool true),
    ("bigDecimalAsString", .bool false),
    ("sortParamsByRequiredFlag", .bool true),
    ("useDateTimeOffset", .num 0),
    ("ensureUniqueParams", .bool false),
    ("optionalMethodArgument", .bool false),
    ("optionalAssemblyInfo", .bool false),
    ("netCoreProjectFile", .bool true),
    ("useCollection", .bool false),
    ("interfacePrefix", .str ""),
    ("returnICollection", .bool false),
    ("optionalProjectFile", .bool false),
    ("modelPropertyNaming", .str "original"),
    ("targetFramework", .num 4),
    ("modelNamePrefix", .str ""),
    ("modelNameSuffix", .str ""),
    ("releaseNote", .str "Minor update"),
    ("supportsES6", .bool true),
    ("supportsAsync", .bool true),
    ("excludeTests", .bool false),
    ("generateApiDocs", .bool true),
    ("generateApiTests", .bool true),
    ("generateModelDocs", .bool true),
    ("generateModelTests", .bool true),
    ("hideGenerationTimestamp", .bool false),
    ("generatePropertyChanged", .bool true),
    ("nonPublicApi", .bool false),
    ("validatable", .bool true),
    ("ignoreFileOverride", .str ".swagger-codegen-ignore"),
    ("removeOperationIdPrefix", .bool false) ]

/-- An element of `obj.authMethods`; a flag the source leaves unset is `false`. -/
structure AuthMethod where
  name : String
  isBasic : Bool := false
  isOAuth : Bool := false
  isApiKey : Bool := false
  authorizationUrl : Option String := none
  tokenUrl : Option String := none
  keyParamName : Option String := none
  isKeyInQuery : Option Bool := none
  isKeyInHeader : Option Bool := none
  isKeyInCookie : Option Bool := none

/-- The body of the loop over `api.components.securitySchemes` (source lines
207-231). `Object.values(scheme.flows)[0]` is `undefined` for an empty `flows`. -/
def mkAuthMethod (s : String) (scheme : SecurityScheme) : Except String AuthMethod :=
  let entry : AuthMethod := { name := s }
  if scheme.type = some "http" then .ok { entry with isBasic := true }
  else if scheme.type = some "oauth2" then
    match scheme.flows with
    | none => .ok { entry with isOAuth := true }
    | some [] => .error "TypeError: Cannot read property 'authorizationUrl' of undefined"
    | some ((_, flow) :: _) =>
      .ok { entry with
        isOAuth := true
        authorizationUrl := flow.authorizationUrl
        tokenUrl := flow.tokenUrl }
  else if scheme.type = some "apiKey" then
    .ok { entry with
      isApiKey := true
      keyParamName := scheme.name
      isKeyInQuery := some (scheme.in == some "query")
      isKeyInHeader := some (scheme.in == some "header")
      isKeyInCookie := some (scheme.in == some "cookie") }
  else .ok entry

/-- The loop `for (let s in api.components.securitySchemes)`. -/
def mkAuthMethods : List (String × SecurityScheme) → Except String (List AuthMethod)
  | [] => .ok []
  | (s, scheme) :: rest =>
    match mkAuthMethod s scheme with
    | .error e => .error e
    | .ok entry =>
      match mkAuthMethods rest with
      | .error e => .error e
      | .ok entries => .ok (entry :: entries)

/-- An element of `obj.messages`. -/
structure Message where
  level : String
  elementType : String
  elementId : Option String
  message : String

/-- The outcome of the validator: it returns, or it raises an error with text
`message`, leaving its context frames in `vOptions.context`. -/
inductive Validation where
  | valid : Validation
  | invalid (context : List String) (message : String) : Validation

/-- The message of the validation step (source lines 239-257). -/
def mkMessage : Validation → Message
  | .valid =>
    { level := "Valid", elementType := "Context", elementId := some "None",
      message := "No validation errors detected" }
  | .invalid context message =>
    { level := "Error", elementType := "Context", elementId := context.getLast?,
      message := message }

/-- What `transform` takes from its surroundings: the `version` of
`package.json`, the clock, and the functions it imports (`dereference`,
`validateSync` with the caller's `lint`, and `url.parse`, of whose result it
reads `host` and `path`). -/
structure Collaborators where
  packageVersion : String
  date : String
  deref : Document → Document
  validator : Document → JVal → Validation
  urlParse : String → JVal × JVal

mutual

/-- The string a value turns into under `+`: an array is joined with commas
(`Array.prototype.join`), an object is named `[object Object]`. -/
def JVal.toStr : JVal → String
  | .undefined => "undefined"
  | .null => "null"
  | .bool b => if b then "true" else "false"
  | .num n => toString n
  | .str s => s
  | .arr xs => JVal.join xs
  | .obj _ => "[object Object]"

/-- The call `xs.join(',')`: an element that is `undefined` or `null` is left
empty. -/
def JVal.join : List JVal → String
  | [] => ""
  | x :: rest =>
    (match x with
      | .undefined => ""
      | .null => ""
      | v => JVal.toStr v) ++ (if rest.isEmpty then "" else "," ++ JVal.join rest)

end

/-- The value of `(defaults.language||'').toLowerCase()`; a truthy `language`
that is not a string has no `toLowerCase` and raises a TypeError. -/
def languageOf (defaults : Obj) : Except String String :=
  match defaults.get "language" with
  | .str s => .ok (toLowerCase s)
  | v =>
    if v.truthy then .error "TypeError: (defaults.language || \"\").toLowerCase is not a function"
    else .ok ""

/-- The scalar keys that source lines 119-159 and 180 assign to `obj`, in
order, for a document whose `info` is `info` and whose `info.title` is the
string `title`. -/
def metadata (env : Collaborators) (api : Document) (info : Info) (title : String)
    (defaults : Obj) : Obj :=
  let version := JVal.ofStr info.version
  let classname := JVal.str (replaceChar (replaceChar (toLowerCase title) ' ' '_') '-' '_')
  let configName := (defaults.get "configName").toStr
  [ ("projectName", .str title),
    ("appVersion", version), ("apiVersion", version), ("packageVersion", version),
    ("version", version),
    ("swaggerVersion", JVal.ofStr api.openapi),
    ("swaggerCodegenVersion", .str ("openapi-codegen-v" ++ env.packageVersion)),
    ("appDescription",
      if truthyS info.description then JVal.ofStr info.description else .str "No description"),
    ("classname", classname),
    ("classVarName", .str "default"),
    ("exportedName", classname),
    ("infoEmail", match info.contact with | some c => JVal.ofStr c.email | none => .null),
    ("infoUrl", match info.contact with | some c => JVal.ofStr c.url | none => .null),
    ("licenseInfo", match info.license with | some l => JVal.ofStr l.name | none => .null),
    ("licenseUrl", match info.license with | some l => JVal.ofStr l.url | none => .null),
    ("appName", .str title),
    ("host", .str ""),
    ("basePath", .str "/"),
    ("contextPath", .str "/"),
    ("packageName", .str "IO.OpenAPI"),
    ("apiPackage", .str "IO.OpenAPI"),
    ("generatorPackage", .str "IO.OpenAPI"),
    ("invokerPackage", .str "IO.OpenAPI"),
    ("hasImport", .bool true),
    ("modelPackage", .str "IO.OpenAPI"),
    ("package", .str "IO.OpenAPI.Api"),
    ("phpInvokerPackage", .str "IO.OpenAPI"),
    ("perlModuleName", .str "IO.OpenAPI"),
    ("pythonPackageName", .str "IO.OpenAPI"),
    ("clientPackage", .str "IO.OpenAPI.Client"),
    ("importPath", .str "IO.OpenAPI.Api.Default"),
    ("hasMore", .bool true),
    ("generatedDate", .str env.date),
    ("generatorClass", defaults.get "configName"),
    ("imports", .arr [.obj [("import", .str "IO.OpenAPI.Model.Default")]]),
    ("name", classname),
    ("classFilename", classname),
    ("jsModuleName", classname),
    ("jsProjectName", classname),
    ("sourceFolder", .str ("./out/" ++ configName)),
    ("templateDir", .str ("./templates/" ++ configName)),
    ("httpUserAgent", .str ("OpenAPI-Codegen/" ++ version.toStr ++ "/" ++ configName)) ]

/-- The object `obj` after source lines 108-180: the defaults, the caller's
options over them, and then the assignments of `metadata`. Reading
`api.info.title` of a document without `info`, or `toLowerCase` of an absent
title, raises a TypeError. -/
def contextObj (env : Collaborators) (api : Document) (defaults : Obj) : Except String Obj :=
  match api.info with
  | none => .error "TypeError: Cannot read property 'title' of undefined"
  | some info =>
    match info.title with
    | none => .error "TypeError: Cannot read property 'toLowerCase' of undefined"
    | some title =>
      .ok (Obj.assign (Obj.assign (Obj.assign [] getBase) defaults)
        (metadata env api info title defaults))

/-- The security schemes block (source lines 203-234): the value of
`obj.authMethods`, unset when the document declares no security schemes. -/
def authStage (api : Document) : Except String (Option (List AuthMethod)) :=
  match api.components with
  | none => .ok none
  | some components =>
    match components.securitySchemes with
    | none => .ok none
    | some schemes =>
      match mkAuthMethods schemes with
      | .error e => .error e
      | .ok entries => .ok (some entries)

/-- The servers block (source lines 259-264); `url.parse` raises a TypeError on
a `url` that is not a string. -/
def serverStage (env : Collaborators) (api : Document) (obj : Obj) : Except String Obj :=
  match api.servers with
  | some (server :: _) =>
    match server.url with
    | none => .error "TypeError: The \"url\" argument must be of type string"
    | some u =>
      .ok (Obj.set (Obj.set obj "host" (env.urlParse u).1) "basePath" (env.urlParse u).2)
  | _ => .ok obj

/-- The value of `obj.operations` (source lines 266-415). -/
def operationsStage (typeMap : TypeMapName) (sortParamsByRequiredFlag : Bool)
    (api : Document) : Except String (List OperationContainer) :=
  match pathsLoop typeMap sortParamsByRequiredFlag (api.paths.getD []) [] with
  | .error e => .error e
  | .ok operations => markLastOperation operations

/-- The value of `obj.models` (source lines 423-469). -/
def modelsStage (typeMap : TypeMapName) (api : Document) : Except String (List ModelContainer) :=
  match api.components with
  | none => .ok []
  | some components => buildModels typeMap (components.schemas.getD [])

/-- The context `transform` returns. `obj` holds its scalar keys; the keys
`authMethods`, `messages`, `operations` and `models` are kept apart, each with
the shape of its value. The serialised documents (`swagger-yaml`,
`swagger-json`, `openapi-yaml`, `openapi-json`, `debugOperations`,
`debugModels`), the echoed parts of the document (`swagger`, `tags`,
`externalDocs`, `servers`) and `apiInfo`, a second holder of `operations`, are
left out. -/
structure Context where
  obj : Obj
  authMethods : Option (List AuthMethod)
  messages : List Message
  operations : List OperationContainer
  models : List ModelContainer

/-- The body of `transform` from source line 114 on, run with the type mapping
`typeMap` that the language selection left in the module variable. -/
def buildContext (env : Collaborators) (typeMap : TypeMapName) (api : Document)
    (defaults : Obj) : Except String Context :=
  match contextObj env api defaults with
  | .error e => .error e
  | .ok obj =>
    match authStage api with
    | .error e => .error e
    | .ok authMethods =>
      let obj := if authMethods.isSome then Obj.set obj "hasAuthMethods" (.bool true) else obj
      let api := env.deref api
      let message := mkMessage (env.validator api (defaults.get "lint"))
      match serverStage env api obj with
      | .error e => .error e
      | .ok obj =>
        match operationsStage typeMap (obj.get "sortParamsByRequiredFlag").truthy api with
        | .error e => .error e
        | .ok operations =>
          match modelsStage typeMap api with
          | .error e => .error e
          | .ok models =>
            .ok { obj := obj
                  authMethods := authMethods
                  messages := [message]
                  operations := operations
                  models := models }

/-- The function `transform(api, defaults)` (source lines 107-474).
`typeMap` is the value of the module variable `typeMap` when the call starts;
the result pairs what the call returns or raises with the value that the
module variable has when the call ends. -/
def transform (env : Collaborators) (typeMap : TypeMapName) (api : Document)
    (defaults : Obj) : Except String Context × TypeMapName :=
  match languageOf defaults with
  | .error e => (.error e, typeMap)
  | .ok lang =>
    let typeMap := (lookupTypeMap lang).getD typeMap
    (buildContext env typeMap api defaults, typeMap)

/-! ## Vocabulary of the statements -/

/-- The references, counted from `s`, of the declared parameters whose location
`in` is `loc`. -/
def refsIn (loc : String) : Nat → List Param → List Nat
  | _, [] => []
  | s, param :: rest =>
    (if param.in == some loc then [s] else []) ++ refsIn loc (s + 1) rest

/-- The named schemas of a document: the entries of `components.schemas`, none
when `components` or `schemas` is absent. -/
def declaredSchemas (api : Document) : List (String × Schema) :=
  match api.components with
  | none => []
  | some components => components.schemas.getD []

/-! ## Sample inputs -/

/-- Collaborators of the sample runs: the sample document has no reference, so
dereferencing returns it as it is, and validation succeeds. -/
def sampleEnv : Collaborators :=
  { packageVersion := "1.0.0"
    date := "Thu Jan 01 1970 00:00:00 GMT+0000"
    deref := fun api => api
    validator := fun _ _ => .valid
    urlParse := fun u => (.str u, .str "/") }

/-- The operation `get /pets/{id}` of the sample document: an optional query
parameter, a required path parameter, an optional cookie parameter and a
required request body. -/
def sampleGet : Op :=
  { operationId := some "getPet"
    parameters := some
      [ { name := some "limit", «in» := some "query", schema := some (Schema.ofType "integer") },
        { name := some "id", «in» := some "path", required := some true,
          schema := some (Schema.ofType "string") },
        { name := some "session", «in» := some "cookie",
          schema := some (Schema.ofType "string") } ]
    requestBody := some
      { required := some true
        content := some [("application/json", { schema := some (Schema.ofType "object") })] }
    responses := some [("200", { description := some "OK" })] }

/-- The operation `delete /pets/{id}` of the sample document, with a query
parameter that is an array of integers. -/
def sampleDelete : Op :=
  { operationId := some "deletePet"
    parameters := some
      [ { name := some "id", «in» := some "path", required := some true,
          schema := some (Schema.ofType "string") },
        { name := some "ids", «in» := some "query",
          schema := some (Schema.arrayOf (Schema.ofType "integer")) } ] }

/-- The schema `Pet` of the sample document: a titled object with the
properties `id`, `tags` (an array of titled strings) and `owner` (an object
with a named property of its own). -/
def samplePet : Schema :=
  (Schema.objectOf
    [ ("id", Schema.ofType "integer"),
      ("tags", Schema.arrayOf ((Schema.ofType "string").withTitle "Tag")),
      ("owner", Schema.objectOf [("name", (Schema.ofType "string").withName "ownerName")]) ]
    ).withTitle "Pet"

/-- The sample document. -/
def sampleDoc : Document :=
  { openapi := some "3.0.0"
    info := some { title := some "Pet Store", version := some "1.0.0" }
    paths := some [("/pets/{id}", [("get", sampleGet), ("delete", sampleDelete)])]
    components := some { schemas := some [("Pet", samplePet)] } }

/-- The context of `transform` on the sample document with no options. -/
def sampleContext : Context :=
  match (transform sampleEnv .nop sampleDoc []).1 with
  | .ok ctx => ctx
  | .error _ => { obj := [], authMethods := none, messages := [], operations := [], models := [] }

/-- The first operation record of the sample context, for `get /pets/{id}`. -/
def sampleRecord : OperationContainer :=
  match sampleContext.operations with
  | c :: _ => c
  | [] => { baseName := none, classname := none, operation := newOperation "" "" {} }

/-- The context of `transform` on the sample document with the option
`language: TypeScript`. -/
def sampleContextTs : Context :=
  match (transform sampleEnv .nop sampleDoc [("language", .str "TypeScript")]).1 with
  | .ok ctx => ctx
  | .error _ => { obj := [], authMethods := none, messages := [], operations := [], models := [] }

/-- The last operation record of the sample context, for `delete /pets/{id}`. -/
def sampleLastRecord : OperationContainer :=
  match sampleContext.operations with
  | _ :: c :: _ => c
  | _ => { baseName := none, classname := none, operation := newOperation "" "" {} }

/-- The model of the sample context, for the schema `Pet`. -/
def sampleModel : ModelContainer :=
  match sampleContext.models with
  | m :: _ => m
  | [] =>
    { model :=
      { name := "", classname := "", classVarName := "", title := none,
        unescapedDescription := none, vars := [] } }

/-- The keys that `metadata` assigns (source lines 119-159 and 180). -/
def metadataKeys : List String :=
  [ "projectName", "appVersion", "apiVersion", "packageVersion", "version",
    "swaggerVersion", "swaggerCodegenVersion", "appDescription", "classname",
    "classVarName", "exportedName", "infoEmail", "infoUrl", "licenseInfo", "licenseUrl",
    "appName", "host", "basePath", "contextPath", "packageName", "apiPackage",
    "generatorPackage", "invokerPackage", "hasImport", "modelPackage", "package",
    "phpInvokerPackage", "perlModuleName", "pythonPackageName", "clientPackage",
    "importPath", "hasMore", "generatedDate", "generatorClass", "imports", "name",
    "classFilename", "jsModuleName", "jsProjectName", "sourceFolder", "templateDir",
    "httpUserAgent" ]

/-- The keys of `obj` that `transform` assigns somewhere after the merge of
source line 109, whether always or under a condition. -/
def assignedKeys : List String :=
  ["swagger-yaml", "swagger-json", "openapi-yaml", "openapi-json"] ++ metadataKeys ++
    ["swagger", "tags", "externalDocs", "servers", "hasAuthMethods", "authMethods",
      "messages", "operations", "apiInfo", "debugOperations", "models", "debugModels"]

/-- Caller options that name keys which `transform` assigns itself (`version`,
`packageName`, `licenseUrl`, `host`, `hasMore`), a key of the defaults table
(`modelPropertyNaming`) and a key of the caller's own (`myKey`). -/
def sampleOverrides : Obj :=
  [ ("version", .str "9.9.9"), ("packageName", .str "my.pkg"),
    ("licenseUrl", .str "https://example.org/licence"), ("host", .str "api.example.org"),
    ("hasMore", .bool false), ("modelPropertyNaming", .str "camelCase"),
    ("myKey", .str "mine") ]

/-- The context of `transform` on the sample document with `sampleOverrides`. -/
def sampleContextOverridden : Context :=
  match (transform sampleEnv .nop sampleDoc sampleOverrides).1 with
  | .ok ctx => ctx
  | .error _ => { obj := [], authMethods := none, messages := [], operations := [], models := [] }

/-- The operations of a paths map in iteration order: the triples (path, key,
value) over the keys of each path item that the loop does not pass over. -/
def operationEntries (paths : List (String × PathItem)) : List (String × String × Op) :=
  paths.flatMap (fun pathEntry =>
    (pathEntry.2.filter (fun kv => !isSkippedKey kv.1)).map
      (fun kv => (pathEntry.1, kv.1, kv.2)))

/-- The schema `s` with its `x-oldref` set to `r`, as dereferencing leaves a
node that was the reference `r`. -/
def Schema.withOldref (r : String) : Schema → Schema
  | .mk n t ds ty f d rq _ i a p => .mk n t ds ty f d rq (some r) i a p

/-- The operation `get /pets` of the second sample document: two tags, and
three responses, of which `200` has a schema that was a reference to the
component `Pet`, `404` has no content and `default` has a plain string
schema. -/
def sampleList : Op :=
  { operationId := some "listPets"
    tags := some ["pets", "admin"]
    parameters := some
      [ { name := some "limit", «in» := some "query", schema := some (Schema.ofType "integer") },
        { name := some "tenant", «in» := some "header", required := some true,
          schema := some (Schema.ofType "integer") } ]
    responses := some
      [ ("200", { description := some "OK"
                  content := some [("application/json",
                    { schema := some ((Schema.ofType "object").withOldref
                        "#/components/schemas/Pet") })] }),
        ("404", { description := some "Not found" }),
        ("default", { description := some "Error"
                      content := some [("text/plain",
                        { schema := some (Schema.ofType "string") })] }) ] }

/-- The operation `post /pets` of the second sample document, with an empty
list of tags. -/
def sampleCreate : Op :=
  { operationId := some "createPet", tags := some [] }

/-- The operation `get /pets/{id}` of the second sample document, without
tags. -/
def sampleShow : Op :=
  { operationId := some "showPet" }

/-- The schema `Thing` of the second sample document: an object with a
required property `plain` and a property whose key is `a/b`. -/
def sampleThing : Schema :=
  .mk none none none (some "object") none none (some ["plain"]) none none none
    (some [("a/b", Schema.ofType "string"), ("plain", Schema.ofType "integer")])

/-- The second sample document: path items with keys that are no operations, a
license, four security schemes (one of a type that `transform` does not know)
and the schema `Thing`. -/
def sampleStoreDoc : Document :=
  { openapi := some "3.0.0"
    info := some
      { title := some "Pet Store", version := some "1.0.0"
        license := some { name := some "MIT", url := some "https://example.org/mit" } }
    paths := some
      [ ("/pets", [("summary", {}), ("get", sampleList), ("x-internal", {}),
          ("parameters", {}), ("post", sampleCreate)]),
        ("/pets/{id}", [("description", {}), ("$ref", {}), ("get", sampleShow)]) ]
    components := some
      { securitySchemes := some
          [ ("basic", { type := some "http" }),
            ("oauth", { type := some "oauth2"
                        flows := some [("implicit",
                          { authorizationUrl := some "https://example.org/auth" })] }),
            ("key", { type := some "apiKey", name := some "X-Key", «in» := some "header" }),
            ("oidc", { type := some "openIdConnect" }) ]
        schemas := some [("Thing", sampleThing)] } }

/-- The context of `transform` on the second sample document with no options,
in a module whose type mapping is still the initial one. -/
def sampleStoreContext : Context :=
  match (transform sampleEnv .nop sampleStoreDoc []).1 with
  | .ok ctx => ctx
  | .error _ => { obj := [], authMethods := none, messages := [], operations := [], models := [] }

/-- The first operation record of the second sample context, for `get /pets`. -/
def sampleListRecord : OperationContainer :=
  match sampleStoreContext.operations with
  | c :: _ => c
  | [] => { baseName := none, classname := none, operation := newOperation "" "" {} }

/-- The context of `transform` on the second sample document with the option
`language: java`. -/
def sampleStoreContextJava : Context :=
  match (transform sampleEnv .nop sampleStoreDoc [("language", .str "java")]).1 with
  | .ok ctx => ctx
  | .error _ => { obj := [], authMethods := none, messages := [], operations := [], models := [] }

/-- The context of a call of `transform` on the second sample document with no
options that follows a call with the option `language: java`: the module
variable `typeMap` is what the first call left. -/
def sampleStoreContextAfterJava : Context :=
  match (transform sampleEnv
      (transform sampleEnv .nop sampleStoreDoc [("language", .str "java")]).2
      sampleStoreDoc []).1 with
  | .ok ctx => ctx
  | .error _ => { obj := [], authMethods := none, messages := [], operations := [], models := [] }

/-- Collaborators whose validator rejects every document. -/
def sampleEnvInvalid : Collaborators :=
  { sampleEnv with
    validator := fun _ _ => .invalid ["#/paths", "#/paths/~1pets/get"] "expected responses" }

/-- The context of `transform` on the second sample document when validation
fails. -/
def sampleStoreContextInvalid : Context :=
  match (transform sampleEnvInvalid .nop sampleStoreDoc []).1 with
  | .ok ctx => ctx
  | .error _ => { obj := [], authMethods := none, messages := [], operations := [], models := [] }

/-- A document with `info` whose only path item holds nothing but skipped keys,
so that the loop over the paths builds no operation record. -/
def sampleBareDoc : Document :=
  { openapi := some "3.0.0"
    info := some { title := some "Bare", version := some "1.0.0" }
    paths := some [("/pets", [("summary", {}), ("x-internal", {}), ("parameters", {})])] }

/-- The operation `post /numbers` of the upload document: an optional request
body whose first content type has an array of integers as its schema. -/
def sampleUpload : Op :=
  { operationId := some "upload"
    requestBody := some
      { description := some "numbers"
        content := some
          [ ("application/json",
              { schema := some (Schema.arrayOf (Schema.ofType "integer")) }),
            ("text/plain", { schema := some (Schema.ofType "string") }) ] } }

/-- The operation `put /raw` of the upload document: a request body without
`content`. -/
def sampleRaw : Op :=
  { operationId := some "raw", requestBody := some { required := some true } }

/-- The upload document: two operations that declare a request body. -/
def sampleUploadDoc : Document :=
  { openapi := some "3.0.0"
    info := some { title := some "Upload", version := some "1.0.0" }
    paths := some [("/numbers", [("post", sampleUpload)]), ("/raw", [("put", sampleRaw)])] }

/-- The context of `transform` on the upload document with the option
`language: typescript`. -/
def sampleUploadContext : Context :=
  match (transform sampleEnv .nop sampleUploadDoc [("language", .str "typescript")]).1 with
  | .ok ctx => ctx
  | .error _ => { obj := [], authMethods := none, messages := [], operations := [], models := [] }

/-- The first operation record of the upload context, for `post /numbers`. -/
def sampleUploadRecord : OperationContainer :=
  match sampleUploadContext.operations with
  | c :: _ => c
  | [] => { baseName := none, classname := none, operation := newOperation "" "" {} }

/-- The operation `get /search`: its second declared parameter is described
through `content` and has no `schema`. -/
def sampleSearch : Op :=
  { operationId := some "search"
    parameters := some
      [ { name := some "limit", «in» := some "query", schema := some (Schema.ofType "integer") },
        { name := some "filter", «in» := some "query" } ] }

/-- A document whose only operation is `get /search`. -/
def sampleContentParamDoc : Document :=
  { openapi := some "3.0.0"
    info := some { title := some "Content", version := some "1.0.0" }
    paths := some [("/search", [("get", sampleSearch)])] }

/-- The operation `post /load`: the first content type of its request body has
no `schema`. -/
def sampleLoad : Op :=
  { operationId := some "load"
    requestBody := some { content := some [("application/octet-stream", {})] } }

/-- A document whose only operation is `post /load`. -/
def sampleContentBodyDoc : Document :=
  { openapi := some "3.0.0"
    info := some { title := some "Content", version := some "1.0.0" }
    paths := some [("/load", [("post", sampleLoad)])] }

/-! ## Lemmas -/


theorem insertSorted_of_required {α : Type} (req : α → Option Bool) (x : α) (l : List α)
    (hx : truthyB (req x) = true) :
    insertSorted (fun a b => compareRequired (req a) (req b)) x l = x :: l := by
  cases l with
  | nil => rfl
  | cons y ys =>
    by_cases hy : truthyB (req y) = true <;> simp [insertSorted, compareRequired, hx, hy]

theorem insertSorted_of_optional {α : Type} (req : α → Option Bool) (x : α) (A B : List α)
    (hx : truthyB (req x) = false) (hA : ∀ a ∈ A, truthyB (req a) = true)
    (hB : ∀ b ∈ B, truthyB (req b) = false) :
    insertSorted (fun a b => compareRequired (req a) (req b)) x (A ++ B) = A ++ x :: B := by
  induction A with
  | nil =>
    cases B with
    | nil => rfl
    | cons b bs =>
      have hb := hB b (List.mem_cons_self _ _)
      simp [insertSorted, compareRequired, hx, hb]
  | cons a as ih =>
    have ha := hA a (List.mem_cons_self _ _)
    have ih' := ih (fun a' h => hA a' (List.mem_cons_of_mem _ h))
    have hc : compareRequired (req x) (req a) = 1 := by simp [compareRequired, hx, ha]
    simp only [List.cons_append, insertSorted, hc]
    rw [if_neg (by decide)]
    exact congrArg (List.cons a) ih'

theorem jsSort_required {α : Type} (req : α → Option Bool) (l : List α) :
    jsSort (fun a b => compareRequired (req a) (req b)) l =
      l.filter (fun a => truthyB (req a)) ++ l.filter (fun a => !truthyB (req a)) := by
  induction l with
  | nil => rfl
  | cons x xs ih =>
    simp only [jsSort, ih]
    by_cases hx : truthyB (req x) = true
    · rw [insertSorted_of_required req x _ hx]
      simp [List.filter, hx]
    · have hx' : truthyB (req x) = false := by simpa using hx
      rw [insertSorted_of_optional req x _ _ hx' (by simp) (by simp)]
      simp [List.filter, hx']

theorem addParameter_ok {typeMap : TypeMapName} {o o' : Operation} {q : Param}
    (h : addParameter typeMap o q = .ok o') :
    ∃ sch, q.schema = some sch ∧
      o'.store = o.store ++ [mkParameter typeMap q sch] ∧
      o'.allParams = o.allParams ++ [o.store.length] ∧
      o'.pathParams = o.pathParams ++ refsIn "path" o.store.length [q] ∧
      o'.queryParams = o.queryParams ++ refsIn "query" o.store.length [q] ∧
      o'.headerParams = o.headerParams ++ refsIn "header" o.store.length [q] ∧
      o'.formParams = o.formParams ++ refsIn "form" o.store.length [q] ∧
      o'.bodyParam = o.bodyParam ∧ o'.bodyParams = o.bodyParams ∧
      o'.hasMore = o.hasMore ∧ o'.path = o.path ∧ o'.httpMethod = o.httpMethod := by
  unfold addParameter at h
  cases hs : q.schema with
  | none => simp [hs] at h
  | some sch =>
    simp only [hs] at h
    injection h with h
    subst h
    refine ⟨sch, rfl, rfl, rfl, ?_, ?_, ?_, ?_, rfl, rfl, rfl, rfl, rfl⟩ <;>
      simp only [refsIn, List.append_nil] <;> split <;> simp

theorem addParameters_spec {typeMap : TypeMapName} :
    ∀ (ps : List Param) (o o' : Operation), addParameters typeMap o ps = .ok o' →
      ∃ objs,
        List.Forall₂ (fun q obj => ∃ sch, q.schema = some sch ∧ obj = mkParameter typeMap q sch)
          ps objs ∧
        o'.store = o.store ++ objs ∧
        o'.allParams = o.allParams ++ List.range' o.store.length ps.length ∧
        o'.pathParams = o.pathParams ++ refsIn "path" o.store.length ps ∧
        o'.queryParams = o.queryParams ++ refsIn "query" o.store.length ps ∧
        o'.headerParams = o.headerParams ++ refsIn "header" o.store.length ps ∧
        o'.formParams = o.formParams ++ refsIn "form" o.store.length ps ∧
        o'.bodyParam = o.bodyParam ∧ o'.bodyParams = o.bodyParams ∧
        o'.hasMore = o.hasMore ∧ o'.path = o.path ∧ o'.httpMethod = o.httpMethod := by
  intro ps
  induction ps with
  | nil =>
    intro o o' h
    simp only [addParameters] at h
    injection h with h
    subst h
    exact ⟨[], List.Forall₂.nil, by simp, by simp, by simp [refsIn], by simp [refsIn],
      by simp [refsIn], by simp [refsIn], rfl, rfl, rfl, rfl, rfl⟩
  | cons q rest ih =>
    intro o o' h
    simp only [addParameters] at h
    cases h1 : addParameter typeMap o q with
    | error e => simp [h1] at h
    | ok o1 =>
      simp only [h1] at h
      obtain ⟨sch, hsch, hst, hall, hp, hq, hh, hf, hb, hbs, hm, hpa, hme⟩ := addParameter_ok h1
      obtain ⟨objs, hF, hst', hall', hp', hq', hh', hf', hb', hbs', hm', hpa', hme'⟩ :=
        ih o1 o' h
      have hlen : o1.store.length = o.store.length + 1 := by simp [hst]
      refine ⟨mkParameter typeMap q sch :: objs, List.Forall₂.cons ⟨sch, hsch, rfl⟩ hF,
        by simp [hst', hst], ?_, ?_, ?_, ?_, ?_, by rw [hb', hb], by rw [hbs', hbs],
        by rw [hm', hm], by rw [hpa', hpa], by rw [hme', hme]⟩
      · rw [hall', hall, hlen]; simp [List.range'_succ]
      · rw [hp', hp, hlen]; simp [refsIn]
      · rw [hq', hq, hlen]; simp [refsIn]
      · rw [hh', hh, hlen]; simp [refsIn]
      · rw [hf', hf, hlen]; simp [refsIn]

theorem addBodyParam_none {o o' : Operation} (h : addBodyParam o none = .ok o') : o' = o := by
  simp only [addBodyParam] at h
  injection h with h
  exact h.symm

theorem addBodyParam_some {o o' : Operation} {rb : RequestBody}
    (h : addBodyParam o (some rb) = .ok o') :
    ∃ bp : Parameter, bp.required = rb.required ∧ bp.isBodyParam = true ∧ bp.hasMore = true ∧
      bp.dataType = some "object" ∧
      o'.store = o.store ++ [bp] ∧ o'.allParams = o.allParams ++ [o.store.length] ∧
      o'.bodyParam = some o.store.length ∧ o'.bodyParams = some [o.store.length] ∧
      o'.pathParams = o.pathParams ∧ o'.queryParams = o.queryParams ∧
      o'.headerParams = o.headerParams ∧ o'.formParams = o.formParams ∧
      o'.hasMore = o.hasMore ∧ o'.path = o.path ∧ o'.httpMethod = o.httpMethod := by
  simp only [addBodyParam] at h
  split at h
  · simp at h
  · rename_i bp hfilled
    injection h with h
    subst h
    refine ⟨bp, ?_, ?_, ?_, ?_, rfl, rfl, rfl, rfl, rfl, rfl, rfl, rfl, rfl, rfl, rfl⟩ <;>
    · split at hfilled
      · injection hfilled with hfilled; subst hfilled; rfl
      · simp at hfilled
      · split at hfilled
        · simp at hfilled
        · injection hfilled with hfilled; subst hfilled; rfl

theorem setHasMoreFalse_get? (store : List Parameter) (r i : Nat) :
    (setHasMoreFalse store r).get? i =
      if i = r then (store.get? i).map (fun p => { p with hasMore := false })
      else store.get? i := by
  induction store generalizing r i with
  | nil => simp [setHasMoreFalse]
  | cons p ps ih =>
    cases r with
    | zero => cases i <;> simp [setHasMoreFalse]
    | succ r =>
      cases i with
      | zero => simp [setHasMoreFalse]
      | succ i => simpa [setHasMoreFalse] using ih r i

theorem requiredOf_setHasMoreFalse (store : List Parameter) (r i : Nat) :
    requiredOf (setHasMoreFalse store r) i = requiredOf store i := by
  unfold requiredOf
  rw [setHasMoreFalse_get?]
  by_cases h : i = r
  · simp only [h, if_true]
    cases store.get? r <;> rfl
  · simp only [h, if_false]

theorem sortAndMarkLast_allParams (sf : Bool) (o : Operation) :
    (sortAndMarkLast sf o).allParams =
      if sf then
        o.allParams.filter (fun r => truthyB (requiredOf o.store r)) ++
          o.allParams.filter (fun r => !truthyB (requiredOf o.store r))
      else o.allParams := by
  simp only [sortAndMarkLast, jsSort_required]

theorem buildOperation_spec {typeMap : TypeMapName} {sf : Bool} {p o : String} {op : Op}
    {c : OperationContainer} (h : buildOperation typeMap sf p o op = .ok c) :
    ∃ (o2 : Operation) (objs : List Parameter),
      c.operation = sortAndMarkLast sf o2 ∧
      List.Forall₂ (fun q obj => ∃ sch, q.schema = some sch ∧ obj = mkParameter typeMap q sch)
        (op.parameters.getD []) objs ∧
      o2.allParams = List.range o2.store.length ∧
      o2.pathParams = refsIn "path" 0 (op.parameters.getD []) ∧
      o2.queryParams = refsIn "query" 0 (op.parameters.getD []) ∧
      o2.headerParams = refsIn "header" 0 (op.parameters.getD []) ∧
      o2.formParams = refsIn "form" 0 (op.parameters.getD []) ∧
      o2.hasMore = true ∧ o2.path = p ∧ o2.httpMethod = o ∧
      (op.requestBody = none → o2.store = objs ∧ o2.bodyParam = none ∧ o2.bodyParams = none) ∧
      (∀ rb, op.requestBody = some rb →
        ∃ bp : Parameter, bp.required = rb.required ∧ bp.isBodyParam = true ∧
          bp.hasMore = true ∧ bp.dataType = some "object" ∧
          o2.store = objs ++ [bp] ∧ o2.bodyParam = some objs.length ∧
          o2.bodyParams = some [objs.length]) := by
  unfold buildOperation at h
  cases h1 : addParameters typeMap (newOperation p o op) (op.parameters.getD []) with
  | error e => simp [h1] at h
  | ok withParams =>
    simp only [h1] at h
    cases h2 : addBodyParam withParams op.requestBody with
    | error e => simp [h2] at h
    | ok withBody =>
      simp only [h2] at h
      cases h3 : mkResponses (op.responses.getD []) with
      | error e => simp [h3] at h
      | ok responses =>
        simp only [h3] at h
        injection h with h
        subst h
        obtain ⟨objs, hF, hst, hall, hp, hq, hh, hf, hb, hbs, hm, hpa, hme⟩ :=
          addParameters_spec _ _ _ h1
        have hst0 : withParams.store = objs := by simpa [newOperation] using hst
        have hall0 : withParams.allParams = List.range objs.length := by
          rw [hall, ← hF.length_eq]
          simp [newOperation, List.range_eq_range']
        have hp0 : withParams.pathParams = refsIn "path" 0 (op.parameters.getD []) := by
          simpa [newOperation] using hp
        have hq0 : withParams.queryParams = refsIn "query" 0 (op.parameters.getD []) := by
          simpa [newOperation] using hq
        have hh0 : withParams.headerParams = refsIn "header" 0 (op.parameters.getD []) := by
          simpa [newOperation] using hh
        have hf0 : withParams.formParams = refsIn "form" 0 (op.parameters.getD []) := by
          simpa [newOperation] using hf
        cases hrb : op.requestBody with
        | none =>
          rw [hrb] at h2
          have := addBodyParam_none h2
          subst this
          refine ⟨_, objs, rfl, hF, ?_, hp0, hq0, hh0, hf0, ?_, ?_, ?_, ?_, ?_⟩
          · show withBody.allParams = List.range withBody.store.length
            rw [hall0, hst0]
          · show withBody.hasMore = true
            rw [hm]; rfl
          · show withBody.path = p
            rw [hpa]; rfl
          · show withBody.httpMethod = o
            rw [hme]; rfl
          · intro _
            exact ⟨hst0, by show withBody.bodyParam = none; rw [hb]; rfl,
              by show withBody.bodyParams = none; rw [hbs]; rfl⟩
          · intro rb hrb'
            cases hrb'
        | some rb =>
          rw [hrb] at h2
          obtain ⟨bp, hr, hib, hhm, hdt, hst1, hall1, hb1, hbs1, hp1, hq1, hh1, hf1, hm1, hpa1,
            hme1⟩ := addBodyParam_some h2
          refine ⟨_, objs, rfl, hF, ?_, ?_, ?_, ?_, ?_, ?_, ?_, ?_, ?_, ?_⟩
          · show withBody.allParams = List.range withBody.store.length
            rw [hall1, hst1, hall0, hst0]
            simp [List.range_succ]
          · show withBody.pathParams = _
            rw [hp1, hp0]
          · show withBody.queryParams = _
            rw [hq1, hq0]
          · show withBody.headerParams = _
            rw [hh1, hh0]
          · show withBody.formParams = _
            rw [hf1, hf0]
          · show withBody.hasMore = true
            rw [hm1, hm]; rfl
          · show withBody.path = p
            rw [hpa1, hpa]; rfl
          · show withBody.httpMethod = o
            rw [hme1, hme]; rfl
          · intro hn
            cases hn
          · intro rb' hrb'
            cases hrb'
            refine ⟨bp, hr, hib, hhm, hdt, ?_, ?_, ?_⟩
            · show withBody.store = _
              rw [hst1, hst0]
            · show withBody.bodyParam = _
              rw [hb1, hst0]
            · show withBody.bodyParams = _
              rw [hbs1, hst0]

theorem pathItemLoop_spec {typeMap : TypeMapName} {sf : Bool} {p : String} :
    ∀ (item : List (String × Op)) (acc ops : List OperationContainer),
      pathItemLoop typeMap sf p item acc = .ok ops →
      ∃ new, ops = acc ++ new ∧
        ∀ c ∈ new, ∃ o op, (o, op) ∈ item ∧ isSkippedKey o = false ∧
          buildOperation typeMap sf p o op = .ok c := by
  intro item
  induction item with
  | nil =>
    intro acc ops h
    simp only [pathItemLoop] at h
    injection h with h
    exact ⟨[], by simp [h], by simp⟩
  | cons head rest ih =>
    obtain ⟨o, op⟩ := head
    intro acc ops h
    simp only [pathItemLoop] at h
    by_cases hk : isSkippedKey o = true
    · simp only [hk, if_true] at h
      obtain ⟨new, hnew, hall⟩ := ih acc ops h
      refine ⟨new, hnew, fun c hc => ?_⟩
      obtain ⟨o', op', hmem, hsk, hb⟩ := hall c hc
      exact ⟨o', op', List.mem_cons_of_mem _ hmem, hsk, hb⟩
    · have hk' : isSkippedKey o = false := by simpa using hk
      simp only [hk', Bool.false_eq_true, if_false] at h
      cases hb : buildOperation typeMap sf p o op with
      | error e => simp [hb] at h
      | ok container =>
        simp only [hb] at h
        obtain ⟨new, hnew, hall⟩ := ih _ ops h
        refine ⟨container :: new, by simp [hnew], fun c hc => ?_⟩
        rcases List.mem_cons.mp hc with rfl | hc
        · exact ⟨o, op, List.mem_cons_self _ _, hk', hb⟩
        · obtain ⟨o', op', hmem, hsk, hb'⟩ := hall c hc
          exact ⟨o', op', List.mem_cons_of_mem _ hmem, hsk, hb'⟩

theorem pathsLoop_spec {typeMap : TypeMapName} {sf : Bool} :
    ∀ (paths : List (String × PathItem)) (acc ops : List OperationContainer),
      pathsLoop typeMap sf paths acc = .ok ops →
      ∃ new, ops = acc ++ new ∧
        ∀ c ∈ new, ∃ p item o op, (p, item) ∈ paths ∧ (o, op) ∈ item ∧
          isSkippedKey o = false ∧ buildOperation typeMap sf p o op = .ok c := by
  intro paths
  induction paths with
  | nil =>
    intro acc ops h
    simp only [pathsLoop] at h
    injection h with h
    exact ⟨[], by simp [h], by simp⟩
  | cons head rest ih =>
    obtain ⟨p, item⟩ := head
    intro acc ops h
    simp only [pathsLoop] at h
    cases h1 : pathItemLoop typeMap sf p item acc with
    | error e => simp [h1] at h
    | ok ops1 =>
      simp only [h1] at h
      obtain ⟨new1, hnew1, hall1⟩ := pathItemLoop_spec _ _ _ h1
      obtain ⟨new2, hnew2, hall2⟩ := ih _ ops h
      refine ⟨new1 ++ new2, by simp [hnew2, hnew1], fun c hc => ?_⟩
      rcases List.mem_append.mp hc with hc | hc
      · obtain ⟨o, op, hmem, hsk, hb⟩ := hall1 c hc
        exact ⟨p, item, o, op, List.mem_cons_self _ _, hmem, hsk, hb⟩
      · obtain ⟨p', item', o, op, hm1, hm2, hsk, hb⟩ := hall2 c hc
        exact ⟨p', item', o, op, List.mem_cons_of_mem _ hm1, hm2, hsk, hb⟩

theorem markLastOperation_ok {ops ops' : List OperationContainer}
    (h : markLastOperation ops = .ok ops') :
    ∃ last, ops.getLast? = some last ∧ ops' = ops.dropLast ++ [last.markLast] := by
  unfold markLastOperation at h
  cases hl : ops.getLast? with
  | none => simp [hl] at h
  | some last =>
    simp only [hl] at h
    injection h with h
    exact ⟨last, rfl, h.symm⟩

theorem operationsStage_spec {typeMap : TypeMapName} {sf : Bool} {api : Document}
    {ops' : List OperationContainer} (h : operationsStage typeMap sf api = .ok ops') :
    ∃ (ops : List OperationContainer) (last : OperationContainer),
      ops.getLast? = some last ∧ ops' = ops.dropLast ++ [last.markLast] ∧
      ∀ c ∈ ops, ∃ p item o op, (p, item) ∈ api.paths.getD [] ∧ (o, op) ∈ item ∧
        isSkippedKey o = false ∧ buildOperation typeMap sf p o op = .ok c := by
  unfold operationsStage at h
  cases h1 : pathsLoop typeMap sf (api.paths.getD []) [] with
  | error e => simp [h1] at h
  | ok ops =>
    simp only [h1] at h
    obtain ⟨last, hl, hops⟩ := markLastOperation_ok h
    obtain ⟨new, hnew, hall⟩ := pathsLoop_spec _ _ _ h1
    simp only [List.nil_append] at hnew
    subst hnew
    exact ⟨ops, last, hl, hops, hall⟩

theorem buildContext_ok {env : Collaborators} {typeMap : TypeMapName} {api : Document}
    {defaults : Obj} {ctx : Context} (h : buildContext env typeMap api defaults = .ok ctx) :
    ∃ obj0 auth, contextObj env api defaults = .ok obj0 ∧ authStage api = .ok auth ∧
      serverStage env (env.deref api)
        (if auth.isSome then Obj.set obj0 "hasAuthMethods" (.bool true) else obj0) = .ok ctx.obj ∧
      operationsStage typeMap (ctx.obj.get "sortParamsByRequiredFlag").truthy (env.deref api) =
        .ok ctx.operations ∧
      modelsStage typeMap (env.deref api) = .ok ctx.models ∧
      ctx.messages = [mkMessage (env.validator (env.deref api) (defaults.get "lint"))] ∧
      ctx.authMethods = auth := by
  unfold buildContext at h
  cases h1 : contextObj env api defaults with
  | error e => simp [h1] at h
  | ok obj0 =>
    simp only [h1] at h
    cases h2 : authStage api with
    | error e => simp [h2] at h
    | ok auth =>
      simp only [h2] at h
      cases h3 : serverStage env (env.deref api)
          (if auth.isSome then Obj.set obj0 "hasAuthMethods" (.bool true) else obj0) with
      | error e => simp [h3] at h
      | ok obj =>
        simp only [h3] at h
        cases h4 : operationsStage typeMap (obj.get "sortParamsByRequiredFlag").truthy
            (env.deref api) with
        | error e => simp [h4] at h
        | ok operations =>
          simp only [h4] at h
          cases h5 : modelsStage typeMap (env.deref api) with
          | error e => simp [h5] at h
          | ok models =>
            simp only [h5] at h
            injection h with h
            subst h
            refine ⟨obj0, auth, ?_, ?_, ?_, ?_, ?_, ?_, ?_⟩ <;> first | rfl | assumption

theorem transform_ok {env : Collaborators} {typeMap typeMap' : TypeMapName} {api : Document}
    {defaults : Obj} {ctx : Context}
    (h : transform env typeMap api defaults = (.ok ctx, typeMap')) :
    ∃ lang, languageOf defaults = .ok lang ∧ typeMap' = (lookupTypeMap lang).getD typeMap ∧
      buildContext env typeMap' api defaults = .ok ctx := by
  unfold transform at h
  cases hl : languageOf defaults with
  | error e => simp [hl] at h
  | ok lang =>
    simp only [hl] at h
    have h1 := congrArg Prod.fst h
    have h2 := congrArg Prod.snd h
    simp only at h1 h2
    exact ⟨lang, rfl, h2.symm, by rw [← h2]; exact h1⟩

theorem mem_markLast_source {ops : List OperationContainer} {last c : OperationContainer}
    (hl : ops.getLast? = some last) (hc : c ∈ ops.dropLast ++ [last.markLast]) :
    ∃ c0 ∈ ops, c = c0 ∨ c = c0.markLast := by
  rcases List.mem_append.mp hc with hc | hc
  · exact ⟨c, List.dropLast_subset _ hc, Or.inl rfl⟩
  · have : c = last.markLast := by simpa using hc
    exact ⟨last, List.mem_of_getLast?_eq_some hl, Or.inr this⟩

theorem record_spec {env : Collaborators} {typeMap typeMap' : TypeMapName} {api : Document}
    {defaults : Obj} {ctx : Context} {c : OperationContainer}
    (h : transform env typeMap api defaults = (.ok ctx, typeMap')) (hc : c ∈ ctx.operations) :
    ∃ (p : String) (item : PathItem) (o : String) (op : Op) (objs store0 : List Parameter),
      (p, item) ∈ (env.deref api).paths.getD [] ∧ (o, op) ∈ item ∧ isSkippedKey o = false ∧
      c.operation.path = p ∧ c.operation.httpMethod = o ∧
      List.Forall₂ (fun q obj => ∃ sch, q.schema = some sch ∧ obj = mkParameter typeMap' q sch)
        (op.parameters.getD []) objs ∧
      c.operation.allParams =
        (if (ctx.obj.get "sortParamsByRequiredFlag").truthy then
          (List.range store0.length).filter (fun r => truthyB (requiredOf store0 r)) ++
            (List.range store0.length).filter (fun r => !truthyB (requiredOf store0 r))
        else List.range store0.length) ∧
      c.operation.store =
        (match c.operation.allParams.getLast? with
          | none => store0
          | some last => setHasMoreFalse store0 last) ∧
      c.operation.pathParams = refsIn "path" 0 (op.parameters.getD []) ∧
      c.operation.queryParams = refsIn "query" 0 (op.parameters.getD []) ∧
      c.operation.headerParams = refsIn "header" 0 (op.parameters.getD []) ∧
      c.operation.formParams = refsIn "form" 0 (op.parameters.getD []) ∧
      (op.requestBody = none →
        store0 = objs ∧ c.operation.bodyParam = none ∧ c.operation.bodyParams = none) ∧
      (∀ rb, op.requestBody = some rb →
        ∃ bp : Parameter, bp.required = rb.required ∧ bp.isBodyParam = true ∧
          bp.hasMore = true ∧ bp.dataType = some "object" ∧
          store0 = objs ++ [bp] ∧ c.operation.bodyParam = some objs.length ∧
          c.operation.bodyParams = some [objs.length]) := by
  obtain ⟨lang, -, -, hb⟩ := transform_ok h
  obtain ⟨obj0, auth, -, -, -, hops, -, -, -⟩ := buildContext_ok hb
  obtain ⟨ops, last, hl, hops', hall⟩ := operationsStage_spec hops
  rw [hops'] at hc
  obtain ⟨c0, hc0, hcc⟩ := mem_markLast_source hl hc
  obtain ⟨p, item, o, op, hm1, hm2, hsk, hbuild⟩ := hall c0 hc0
  obtain ⟨o2, objs, heq, hF, hall2, hp, hq, hh, hf, -, hpa, hme, hnone, hsome⟩ :=
    buildOperation_spec hbuild
  have hfields : c.operation.allParams = (sortAndMarkLast
        (ctx.obj.get "sortParamsByRequiredFlag").truthy o2).allParams ∧
      c.operation.store = (sortAndMarkLast
        (ctx.obj.get "sortParamsByRequiredFlag").truthy o2).store ∧
      c.operation.pathParams = o2.pathParams ∧ c.operation.queryParams = o2.queryParams ∧
      c.operation.headerParams = o2.headerParams ∧ c.operation.formParams = o2.formParams ∧
      c.operation.bodyParam = o2.bodyParam ∧ c.operation.bodyParams = o2.bodyParams ∧
      c.operation.path = o2.path ∧ c.operation.httpMethod = o2.httpMethod := by
    rcases hcc with rfl | rfl
    · rw [heq]; exact ⟨rfl, rfl, rfl, rfl, rfl, rfl, rfl, rfl, rfl, rfl⟩
    · simp only [OperationContainer.markLast]
      rw [heq]; exact ⟨rfl, rfl, rfl, rfl, rfl, rfl, rfl, rfl, rfl, rfl⟩
  obtain ⟨fa, fs, fp, fq, fh, ff, fb, fbs, fpa, fme⟩ := hfields
  have hallP : c.operation.allParams =
      (if (ctx.obj.get "sortParamsByRequiredFlag").truthy then
          (List.range o2.store.length).filter (fun r => truthyB (requiredOf o2.store r)) ++
            (List.range o2.store.length).filter (fun r => !truthyB (requiredOf o2.store r))
        else List.range o2.store.length) := by
    rw [fa, sortAndMarkLast_allParams, hall2]
  refine ⟨p, item, o, op, objs, o2.store, hm1, hm2, hsk, by rw [fpa, hpa], by rw [fme, hme], hF,
    hallP, ?_, by rw [fp, hp], by rw [fq, hq], by rw [fh, hh], by rw [ff, hf], ?_, ?_⟩
  · rw [fs, fa]; rfl
  · intro hn
    obtain ⟨h1, h2, h3⟩ := hnone hn
    exact ⟨h1, by rw [fb, h2], by rw [fbs, h3]⟩
  · intro rb hrb
    obtain ⟨bp, h1, h2, h3, h4, h5, h6, h7⟩ := hsome rb hrb
    exact ⟨bp, h1, h2, h3, h4, h5, by rw [fb, h6], by rw [fbs, h7]⟩

theorem Obj.get_set_ne (o : Obj) (k k' : String) (v : JVal) (hne : k ≠ k') :
    (Obj.set o k v).get k' = o.get k' := by
  have hb : (k == k') = false := by simpa using hne
  induction o with
  | nil => simp [Obj.set, Obj.get, List.find?_cons, hb]
  | cons kv rest ih =>
    obtain ⟨k0, v0⟩ := kv
    unfold Obj.get at ih ⊢
    by_cases h0 : k0 = k
    · subst h0
      simp [Obj.set, List.find?_cons, hb]
    · have hb0 : (k0 == k) = false := by simpa using h0
      by_cases h1 : k0 = k'
      · subst h1
        simp [Obj.set, List.find?_cons, hb0]
      · have hb1 : (k0 == k') = false := by simpa using h1
        simp only [Obj.set, hb0, Bool.false_eq_true, if_false, List.find?_cons, hb1]
        exact ih

theorem Obj.get_assign_of_not_has (src : Obj) (k : String) (hk : src.has k = false) :
    ∀ o : Obj, (Obj.assign o src).get k = o.get k := by
  induction src with
  | nil => intro o; rfl
  | cons kv rest ih =>
    intro o
    have h1 : (kv.1 == k) = false := by
      simp only [Obj.has, List.any_cons, Bool.or_eq_false_iff] at hk
      exact hk.1
    have h2 : Obj.has rest k = false := by
      simp only [Obj.has, List.any_cons, Bool.or_eq_false_iff] at hk
      exact hk.2
    have hne : kv.1 ≠ k := by simpa using h1
    show (Obj.assign (Obj.set o kv.1 kv.2) rest).get k = o.get k
    rw [ih h2, Obj.get_set_ne _ _ _ _ hne]

theorem metadata_has_sortFlag (env : Collaborators) (api : Document) (info : Info)
    (title : String) (defaults : Obj) :
    (metadata env api info title defaults).has "sortParamsByRequiredFlag" = false := by
  simp [metadata, Obj.has]

theorem sortFlag_default {env : Collaborators} {typeMap typeMap' : TypeMapName}
    {api : Document} {defaults : Obj} {ctx : Context}
    (h : transform env typeMap api defaults = (.ok ctx, typeMap'))
    (hno : defaults.has "sortParamsByRequiredFlag" = false) :
    (ctx.obj.get "sortParamsByRequiredFlag").truthy = true := by
  obtain ⟨lang, -, -, hb⟩ := transform_ok h
  obtain ⟨obj0, auth, hobj, -, hserver, -, -, -, -⟩ := buildContext_ok hb
  have hbase : ((Obj.assign [] getBase).get "sortParamsByRequiredFlag").truthy = true := by
    decide
  have h0 : (obj0.get "sortParamsByRequiredFlag").truthy = true := by
    unfold contextObj at hobj
    cases hi : api.info with
    | none => simp [hi] at hobj
    | some info =>
      simp only [hi] at hobj
      cases ht : info.title with
      | none => simp [ht] at hobj
      | some title =>
        simp only [ht] at hobj
        have hobj := Except.ok.inj hobj
        have e1 := Obj.get_assign_of_not_has (metadata env api info title defaults)
          "sortParamsByRequiredFlag" (metadata_has_sortFlag _ _ _ _ _)
          (Obj.assign (Obj.assign [] getBase) defaults)
        have e2 := Obj.get_assign_of_not_has defaults "sortParamsByRequiredFlag" hno
          (Obj.assign [] getBase)
        rw [← hobj, e1, e2]
        exact hbase
  have h1 : ((if auth.isSome then Obj.set obj0 "hasAuthMethods" (.bool true) else obj0).get
      "sortParamsByRequiredFlag").truthy = true := by
    split
    · rw [Obj.get_set_ne _ _ _ _ (by decide), h0]
    · exact h0
  unfold serverStage at hserver
  split at hserver
  · split at hserver
    · simp at hserver
    · injection hserver with hserver
      rw [← hserver, Obj.get_set_ne _ _ _ _ (by decide), Obj.get_set_ne _ _ _ _ (by decide), h1]
  · injection hserver with hserver
    rw [← hserver, h1]

theorem forall₂_built_get? {typeMap : TypeMapName} {ps : List Param} {objs : List Parameter}
    (hF : List.Forall₂
      (fun q obj => ∃ sch, q.schema = some sch ∧ obj = mkParameter typeMap q sch) ps objs) :
    ∀ (r : Nat) (q : Param), ps[r]? = some q →
      ∃ sch, q.schema = some sch ∧ objs[r]? = some (mkParameter typeMap q sch) := by
  induction hF with
  | nil => intro r q h; simp at h
  | cons hab _ ih =>
    intro r q h
    cases r with
    | zero =>
      simp only [List.getElem?_cons_zero, Option.some.injEq] at h
      subst h
      obtain ⟨sch, h1, h2⟩ := hab
      exact ⟨sch, h1, by simp [h2]⟩
    | succ r =>
      simp only [List.getElem?_cons_succ] at h ⊢
      exact ih r q h

theorem forall₂_built_hasMore {typeMap : TypeMapName} {ps : List Param} {objs : List Parameter}
    (hF : List.Forall₂
      (fun q obj => ∃ sch, q.schema = some sch ∧ obj = mkParameter typeMap q sch) ps objs) :
    ∀ obj ∈ objs, obj.hasMore = true ∧ obj.isBodyParam = false := by
  induction hF with
  | nil => intro obj h; simp at h
  | cons hab _ ih =>
    intro obj h
    rcases List.mem_cons.mp h with rfl | h
    · obtain ⟨sch, -, h2⟩ := hab
      rw [h2]; exact ⟨rfl, rfl⟩
    · exact ih obj h

theorem sortedRefs_perm (f : Nat → Bool) (sf : Bool) (N : Nat) :
    (if sf then (List.range N).filter f ++ (List.range N).filter (fun r => !f r)
      else List.range N).Perm (List.range N) := by
  cases sf with
  | false => exact List.Perm.refl _
  | true => exact List.filter_append_perm f (List.range N)

theorem nodup_getLast?_iff {l : List Nat} (hnd : l.Nodup) {i r : Nat} (hi : l[i]? = some r) :
    l.getLast? = some r ↔ ¬ (i + 1 < l.length) := by
  obtain ⟨hlt, hir⟩ := List.getElem?_eq_some_iff.mp hi
  rw [List.getLast?_eq_getElem?]
  have hlast : l.length - 1 < l.length := by omega
  rw [List.getElem?_eq_getElem hlast, Option.some.injEq, ← hir, hnd.getElem_inj_iff]
  omega

theorem store0_facts {typeMap : TypeMapName} {ps : List Param} {objs store0 : List Parameter}
    {rbOpt : Option RequestBody} {b : Option Nat} {bs : Option (List Nat)}
    (hF : List.Forall₂
      (fun q obj => ∃ sch, q.schema = some sch ∧ obj = mkParameter typeMap q sch) ps objs)
    (hnone : rbOpt = none → store0 = objs ∧ b = none ∧ bs = none)
    (hsome : ∀ rb, rbOpt = some rb →
      ∃ bp : Parameter, bp.required = rb.required ∧ bp.isBodyParam = true ∧
        bp.hasMore = true ∧ bp.dataType = some "object" ∧
        store0 = objs ++ [bp] ∧ b = some objs.length ∧ bs = some [objs.length]) :
    store0.length = ps.length + (if rbOpt.isSome then 1 else 0) ∧
    (∀ obj ∈ store0, obj.hasMore = true) ∧
    (∀ (r : Nat) (q : Param), ps[r]? = some q →
      ∃ sch, q.schema = some sch ∧ store0[r]? = some (mkParameter typeMap q sch)) := by
  have hlen := hF.length_eq
  cases hrb : rbOpt with
  | none =>
    obtain ⟨h1, -, -⟩ := hnone hrb
    subst h1
    refine ⟨by simp [hlen], fun obj h => (forall₂_built_hasMore hF obj h).1, ?_⟩
    exact forall₂_built_get? hF
  | some rb =>
    obtain ⟨bp, -, -, hhm, -, h1, -, -⟩ := hsome rb hrb
    subst h1
    refine ⟨by simp [hlen], ?_, ?_⟩
    · intro obj h
      rcases List.mem_append.mp h with h | h
      · exact (forall₂_built_hasMore hF obj h).1
      · have : obj = bp := by simpa using h
        rw [this]; exact hhm
    · intro r q hq
      obtain ⟨sch, h1, h2⟩ := forall₂_built_get? hF r q hq
      refine ⟨sch, h1, ?_⟩
      have hr : r < objs.length := (List.getElem?_eq_some_iff.mp h2).1
      rw [List.getElem?_append_left hr, h2]

theorem hasMore_at_index {env : Collaborators} {typeMap typeMap' : TypeMapName}
    {api : Document} {defaults : Obj} {ctx : Context} {c : OperationContainer}
    (h : transform env typeMap api defaults = (.ok ctx, typeMap')) (hc : c ∈ ctx.operations)
    (i r : Nat) (hi : c.operation.allParams[i]? = some r) :
    (c.operation.param r).map (fun p => p.hasMore) =
      some (decide (i + 1 < c.operation.allParams.length)) := by
  obtain ⟨p, item, o, op, objs, store0, -, -, -, -, -, hF, hall, hstore, -, -, -, -, hnone,
    hsome⟩ := record_spec h hc
  obtain ⟨-, hhm, -⟩ := store0_facts hF hnone hsome
  have hperm : c.operation.allParams.Perm (List.range store0.length) := by
    rw [hall]; exact sortedRefs_perm _ _ _
  have hnd : c.operation.allParams.Nodup := hperm.nodup_iff.mpr (List.nodup_range _)
  have hr : r < store0.length :=
    List.mem_range.mp (hperm.mem_iff.mp (List.getElem?_mem hi))
  have hlast := nodup_getLast?_iff hnd hi
  have hget : store0[r]? = some store0[r] := List.getElem?_eq_getElem hr
  have hm : store0[r].hasMore = true := hhm _ (List.getElem_mem _)
  unfold Operation.param
  rw [hstore, List.get?_eq_getElem?]
  cases hl : c.operation.allParams.getLast? with
  | none =>
    exfalso
    rw [List.getLast?_eq_none_iff] at hl
    rw [hl] at hi
    simp at hi
  | some last =>
    simp only
    rw [← List.get?_eq_getElem?, setHasMoreFalse_get?, List.get?_eq_getElem?, hget]
    by_cases hrl : r = last
    · subst hrl
      have : ¬ (i + 1 < c.operation.allParams.length) := hlast.mp hl
      simp [this]
    · have : i + 1 < c.operation.allParams.length := by
        by_contra hcon
        have := hlast.mpr hcon
        rw [hl] at this
        exact hrl (Option.some.inj this).symm
      simp [hrl, this, hm]

theorem buildOperation_hasMore {typeMap : TypeMapName} {sf : Bool} {p o : String} {op : Op}
    {c : OperationContainer} (h : buildOperation typeMap sf p o op = .ok c) :
    c.operation.hasMore = true := by
  obtain ⟨o2, objs, heq, -, -, -, -, -, -, hm, -⟩ := buildOperation_spec h
  rw [heq]
  exact hm

/-- C7. When `transform` returns, the record at index `i` of the context's
`operations` has `operation.hasMore = true` when `i` is not the last index and
`operation.hasMore = false` when it is: the first N-1 records carry `true`, the
last record `false`. -/
theorem operations_hasMore {env : Collaborators} {typeMap typeMap' : TypeMapName}
    {api : Document} {defaults : Obj} {ctx : Context}
    (h : transform env typeMap api defaults = (.ok ctx, typeMap'))
    (i : Nat) (c : OperationContainer) (hi : ctx.operations[i]? = some c) :
    c.operation.hasMore = decide (i + 1 < ctx.operations.length) := by
  obtain ⟨lang, -, -, hb⟩ := transform_ok h
  obtain ⟨obj0, auth, -, -, -, hops, -, -, -⟩ := buildContext_ok hb
  obtain ⟨ops, last, hl, hops', hall⟩ := operationsStage_spec hops
  have hne : ops ≠ [] := by
    intro hnil
    rw [hnil] at hl
    simp at hl
  have hlen : ctx.operations.length = ops.dropLast.length + 1 := by
    rw [hops']; simp
  rw [hops'] at hi
  have hilt : i < ops.dropLast.length + 1 := by
    have := (List.getElem?_eq_some_iff.mp hi).1
    simpa using this
  by_cases hlast : i < ops.dropLast.length
  · rw [List.getElem?_append_left hlast] at hi
    have hmem : c ∈ ops := List.dropLast_subset _ (List.getElem?_mem hi)
    obtain ⟨p, item, o, op, -, -, -, hbuild⟩ := hall c hmem
    rw [buildOperation_hasMore hbuild, hlen]
    exact (decide_eq_true (by omega)).symm
  · have hieq : i = ops.dropLast.length := by omega
    rw [List.getElem?_append_right (by omega), hieq] at hi
    simp only [Nat.sub_self, List.getElem?_cons_zero, Option.some.injEq] at hi
    rw [← hi, hlen, hieq]
    exact (decide_eq_false (by omega)).symm

theorem requiredOf_of_param {op : Operation} {r : Nat} {prm : Parameter}
    (h : op.param r = some prm) : requiredOf op.store r = prm.required := by
  unfold Operation.param at h
  unfold requiredOf
  rw [h]

theorem record_requiredOf {store0 : List Parameter} {op : Operation}
    (hstore : op.store =
      (match op.allParams.getLast? with
        | none => store0
        | some last => setHasMoreFalse store0 last)) (r : Nat) :
    requiredOf op.store r = requiredOf store0 r := by
  rw [hstore]
  cases op.allParams.getLast? with
  | none => rfl
  | some last => exact requiredOf_setHasMoreFalse _ _ _

/-- C2. When the caller's options have no key `sortParamsByRequiredFlag`, in
every operation record that `transform` returns a parameter of `allParams` whose
`required` is `true` sits at a smaller index than any parameter of `allParams`
whose `required` is `false` or absent (whether or not the latter is the body
parameter, so in particular when it is not). -/
theorem required_before_optional {env : Collaborators} {typeMap typeMap' : TypeMapName}
    {api : Document} {defaults : Obj} {ctx : Context} {c : OperationContainer}
    (h : transform env typeMap api defaults = (.ok ctx, typeMap'))
    (hno : defaults.has "sortParamsByRequiredFlag" = false) (hc : c ∈ ctx.operations)
    (i j ri rj : Nat) (pi pj : Parameter)
    (hi : c.operation.allParams[i]? = some ri) (hj : c.operation.allParams[j]? = some rj)
    (hpi : c.operation.param ri = some pi) (hpj : c.operation.param rj = some pj)
    (hreq : pi.required = some true)
    (hopt : pj.required = some false ∨ pj.required = none) :
    i < j := by
  obtain ⟨p, item, o, op, objs, store0, -, -, -, -, -, -, hall, hstore, -⟩ := record_spec h hc
  rw [sortFlag_default h hno] at hall
  simp only [if_true] at hall
  have hri : truthyB (requiredOf store0 ri) = true := by
    rw [← record_requiredOf hstore, requiredOf_of_param hpi, hreq]; rfl
  have hrj : truthyB (requiredOf store0 rj) = false := by
    rw [← record_requiredOf hstore, requiredOf_of_param hpj]
    rcases hopt with h1 | h1 <;> rw [h1] <;> rfl
  rw [hall] at hi hj
  have hi' : i < ((List.range store0.length).filter
      (fun r => truthyB (requiredOf store0 r))).length := by
    by_contra hcon
    rw [List.getElem?_append_right (by omega)] at hi
    have hmem := List.getElem?_mem hi
    simp only [List.mem_filter, Bool.not_eq_true'] at hmem
    rw [hmem.2] at hri
    exact Bool.false_ne_true hri
  have hj' : ((List.range store0.length).filter
      (fun r => truthyB (requiredOf store0 r))).length ≤ j := by
    by_contra hcon
    rw [List.getElem?_append_left (by omega)] at hj
    have hmem := List.getElem?_mem hj
    simp only [List.mem_filter] at hmem
    rw [hmem.2] at hrj
    exact Bool.false_ne_true hrj.symm
  omega

theorem sortedRefs_pairwise (f : Nat → Bool) (sf : Bool) (N : Nat) :
    List.Pairwise (fun x y => f x = f y → x < y)
      (if sf then (List.range N).filter f ++ (List.range N).filter (fun r => !f r)
        else List.range N) := by
  have hlt : ∀ l : List Nat, l.Sublist (List.range N) →
      List.Pairwise (fun x y => f x = f y → x < y) l := fun l hl =>
    List.Pairwise.imp (R := fun x y => x < y) (S := fun x y => f x = f y → x < y)
      (fun hxy _ => hxy) (List.Pairwise.sublist hl (List.pairwise_lt_range N))
  cases sf with
  | false => exact hlt _ (List.Sublist.refl _)
  | true =>
    simp only [if_true]
    rw [List.pairwise_append]
    refine ⟨hlt _ (List.filter_sublist _), hlt _ (List.filter_sublist _), ?_⟩
    intro x hx y hy hxy
    simp only [List.mem_filter, Bool.not_eq_true'] at hx hy
    rw [hx.2, hy.2] at hxy
    exact absurd hxy (by decide)

theorem record_param {store0 : List Parameter} {op : Operation}
    (hstore : op.store =
      (match op.allParams.getLast? with
        | none => store0
        | some last => setHasMoreFalse store0 last)) (r : Nat) (obj : Parameter)
    (hobj : store0[r]? = some obj) :
    ∃ prm, op.param r = some prm ∧ (prm = obj ∨ prm = { obj with hasMore := false }) := by
  unfold Operation.param
  rw [hstore]
  cases op.allParams.getLast? with
  | none => exact ⟨obj, by simpa using hobj, Or.inl rfl⟩
  | some last =>
    simp only
    rw [setHasMoreFalse_get?, List.get?_eq_getElem?, hobj]
    by_cases hr : r = last
    · exact ⟨{ obj with hasMore := false }, by simp [hr], Or.inr rfl⟩
    · exact ⟨obj, by simp [hr], Or.inl rfl⟩

/-- C3. Every operation record that `transform` returns comes from an operation
`op` of the dereferenced document, and its `allParams` is a permutation of the
references `0, ..., n-1` to the objects built from the `n` declared parameters
(reference `k` denotes the object built from the `k`-th declared parameter),
plus the reference `n` to the body parameter when `op` declares a request body:
nothing is lost or duplicated. Two declared parameters of equal required-ness
occur in `allParams` in their declared order. -/
theorem allParams_stable_perm {env : Collaborators} {typeMap typeMap' : TypeMapName}
    {api : Document} {defaults : Obj} {ctx : Context} {c : OperationContainer}
    (h : transform env typeMap api defaults = (.ok ctx, typeMap')) (hc : c ∈ ctx.operations) :
    ∃ (p : String) (item : PathItem) (o : String) (op : Op),
      (p, item) ∈ (env.deref api).paths.getD [] ∧ (o, op) ∈ item ∧
      c.operation.path = p ∧ c.operation.httpMethod = o ∧
      c.operation.allParams.Perm (List.range
        ((op.parameters.getD []).length + (if op.requestBody.isSome then 1 else 0))) ∧
      (∀ (k : Nat) (q : Param), (op.parameters.getD [])[k]? = some q →
        ∃ prm, c.operation.param k = some prm ∧ prm.paramName = q.name ∧
          prm.required = q.required ∧ prm.isBodyParam = false) ∧
      (op.requestBody.isSome = true →
        ∃ prm, c.operation.param (op.parameters.getD []).length = some prm ∧
          prm.isBodyParam = true ∧
          c.operation.bodyParam = some (op.parameters.getD []).length) ∧
      (∀ (k l : Nat) (qk ql : Param) (a b : Nat), k < l →
        (op.parameters.getD [])[k]? = some qk → (op.parameters.getD [])[l]? = some ql →
        truthyB qk.required = truthyB ql.required →
        c.operation.allParams[a]? = some k → c.operation.allParams[b]? = some l → a < b) := by
  obtain ⟨p, item, o, op, objs, store0, hm1, hm2, -, hpa, hme, hF, hall, hstore, -, -, -, -,
    hnone, hsome⟩ := record_spec h hc
  obtain ⟨hlen, -, hget⟩ := store0_facts hF hnone hsome
  refine ⟨p, item, o, op, hm1, hm2, hpa, hme, ?_, ?_, ?_, ?_⟩
  · rw [← hlen, hall]
    exact sortedRefs_perm _ _ _
  · intro k q hq
    obtain ⟨sch, -, hobj⟩ := hget k q hq
    obtain ⟨prm, hprm, hor⟩ := record_param hstore k _ hobj
    refine ⟨prm, hprm, ?_⟩
    rcases hor with rfl | rfl <;> exact ⟨rfl, rfl, rfl⟩
  · intro hb
    obtain ⟨rb, hrb⟩ := Option.isSome_iff_exists.mp hb
    obtain ⟨bp, -, hib, -, -, hst, hbp, -⟩ := hsome rb hrb
    have hobj : store0[(op.parameters.getD []).length]? = some bp := by
      rw [hst, hF.length_eq]
      simp
    obtain ⟨prm, hprm, hor⟩ := record_param hstore _ _ hobj
    refine ⟨prm, hprm, ?_, by rw [hbp, hF.length_eq]⟩
    rcases hor with rfl | rfl <;> exact hib
  · intro k l qk ql a b hkl hk hl hreq ha hb
    have hrk : requiredOf store0 k = qk.required := by
      obtain ⟨sch, -, hobj⟩ := hget k qk hk
      unfold requiredOf
      rw [List.get?_eq_getElem?, hobj]; rfl
    have hrl : requiredOf store0 l = ql.required := by
      obtain ⟨sch, -, hobj⟩ := hget l ql hl
      unfold requiredOf
      rw [List.get?_eq_getElem?, hobj]; rfl
    have hpw := sortedRefs_pairwise (fun r => truthyB (requiredOf store0 r))
      (ctx.obj.get "sortParamsByRequiredFlag").truthy store0.length
    rw [← hall, List.pairwise_iff_getElem] at hpw
    obtain ⟨ha1, ha2⟩ := List.getElem?_eq_some_iff.mp ha
    obtain ⟨hb1, hb2⟩ := List.getElem?_eq_some_iff.mp hb
    by_contra hcon
    rcases Nat.lt_or_ge b a with hlt | hge
    · have := hpw b a hb1 ha1 hlt
      rw [ha2, hb2] at this
      have := this (by simp only [hrk, hrl, hreq])
      omega
    · have hab : a = b := by omega
      subst hab
      rw [ha2] at hb2
      omega

theorem getLast?_sortedRefs_succ (f : Nat → Bool) (n : Nat) :
    ((List.range (n + 1)).filter f ++
        (List.range (n + 1)).filter (fun r => !f r)).getLast? = some n ↔
      (f n = false ∨ ∀ r, r < n → f r = true) := by
  rw [List.range_succ, List.filter_append, List.filter_append]
  by_cases hn : f n = true
  · have e1 : List.filter f [n] = [n] := by simp [List.filter, hn]
    have e2 : List.filter (fun r => !f r) [n] = [] := by simp [List.filter, hn]
    rw [e1, e2, List.append_nil, List.getLast?_append]
    cases hl : (List.filter (fun r => !f r) (List.range n)).getLast? with
    | none =>
      rw [List.getLast?_eq_none_iff, List.filter_eq_nil_iff] at hl
      simp only [Option.or, List.getLast?_concat, true_iff]
      right
      intro r hr
      have := hl r (List.mem_range.mpr hr)
      simpa using this
    | some x =>
      have hx := List.mem_of_getLast?_eq_some hl
      simp only [List.mem_filter, List.mem_range, Bool.not_eq_true'] at hx
      simp only [Option.or, Option.some.injEq]
      constructor
      · intro hxn
        omega
      · rintro (h1 | h1)
        · rw [hn] at h1
          exact absurd h1 (by decide)
        · rw [h1 x hx.1] at hx
          exact absurd hx.2 (by decide)
  · have hn' : f n = false := by simpa using hn
    have e1 : List.filter f [n] = [] := by simp [List.filter, hn']
    have e2 : List.filter (fun r => !f r) [n] = [n] := by simp [List.filter, hn']
    rw [e1, e2, List.append_nil, ← List.append_assoc, List.getLast?_concat]
    simp [hn']

/-- C1, amended. Every operation record that `transform` returns comes from an
operation `op` of the dereferenced document, and when `op` declares a request
body the record has a body parameter, which is the last element of `allParams`
exactly when the option `sortParamsByRequiredFlag` is falsy, or the request
body's `required` is not `true`, or every declared parameter of `op` has
`required` `true`. -/
theorem bodyParam_last_iff {env : Collaborators} {typeMap typeMap' : TypeMapName}
    {api : Document} {defaults : Obj} {ctx : Context} {c : OperationContainer}
    (h : transform env typeMap api defaults = (.ok ctx, typeMap')) (hc : c ∈ ctx.operations) :
    ∃ (p : String) (item : PathItem) (o : String) (op : Op),
      (p, item) ∈ (env.deref api).paths.getD [] ∧ (o, op) ∈ item ∧
      c.operation.path = p ∧ c.operation.httpMethod = o ∧
      ∀ rb, op.requestBody = some rb →
        ∃ b, c.operation.bodyParam = some b ∧
          (c.operation.allParams.getLast? = some b ↔
            ((ctx.obj.get "sortParamsByRequiredFlag").truthy = false ∨
              truthyB rb.required = false ∨
              ∀ q ∈ op.parameters.getD [], truthyB q.required = true)) := by
  obtain ⟨p, item, o, op, objs, store0, hm1, hm2, -, hpa, hme, hF, hall, hstore, -, -, -, -,
    hnone, hsome⟩ := record_spec h hc
  obtain ⟨-, -, hget⟩ := store0_facts hF hnone hsome
  refine ⟨p, item, o, op, hm1, hm2, hpa, hme, fun rb hrb => ?_⟩
  obtain ⟨bp, hreq, -, -, -, hst, hbp, -⟩ := hsome rb hrb
  refine ⟨objs.length, hbp, ?_⟩
  have hN : store0.length = objs.length + 1 := by simp [hst]
  have hfn : truthyB (requiredOf store0 objs.length) = truthyB rb.required := by
    unfold requiredOf
    rw [hst, List.get?_eq_getElem?]
    simp [hreq]
  have hdecl : (∀ r, r < objs.length → truthyB (requiredOf store0 r) = true) ↔
      ∀ q ∈ op.parameters.getD [], truthyB q.required = true := by
    constructor
    · intro hr q hq
      obtain ⟨k, hk⟩ := List.mem_iff_getElem?.mp hq
      obtain ⟨sch, -, hobj⟩ := hget k q hk
      have hlt : k < objs.length := by
        rw [← hF.length_eq]; exact (List.getElem?_eq_some_iff.mp hk).1
      have := hr k hlt
      unfold requiredOf at this
      rw [List.get?_eq_getElem?, hobj] at this
      exact this
    · intro hq r hr
      have hlt : r < (op.parameters.getD []).length := by rw [hF.length_eq]; exact hr
      obtain ⟨sch, -, hobj⟩ := hget r _ (List.getElem?_eq_getElem hlt)
      unfold requiredOf
      rw [List.get?_eq_getElem?, hobj]
      exact hq _ (List.getElem_mem _)
  rw [hall, hN]
  cases hsf : (ctx.obj.get "sortParamsByRequiredFlag").truthy with
  | false => simp [List.range_succ]
  | true =>
    simp only [if_true]
    rw [getLast?_sortedRefs_succ, hfn, hdecl]
    simp

theorem refsIn_length (loc : String) (s : Nat) (ps : List Param) :
    (refsIn loc s ps).length = ps.countP (fun q => q.in == some loc) := by
  induction ps generalizing s with
  | nil => rfl
  | cons q rest ih =>
    simp only [refsIn, List.length_append, ih, List.countP_cons]
    by_cases hq : (q.in == some loc) = true <;> simp [hq]
    omega

theorem refsIn_ge (loc : String) (s : Nat) (ps : List Param) :
    ∀ x ∈ refsIn loc s ps, s ≤ x := by
  induction ps generalizing s with
  | nil => intro x hx; simp [refsIn] at hx
  | cons q rest ih =>
    intro x hx
    simp only [refsIn, List.mem_append] at hx
    rcases hx with hx | hx
    · split at hx
      · simp at hx; omega
      · simp at hx
    · have := ih (s + 1) x hx
      omega

theorem refsIn_count (loc : String) (s : Nat) (ps : List Param) (k : Nat) (q : Param)
    (hq : ps[k]? = some q) :
    (refsIn loc s ps).count (s + k) = if q.in == some loc then 1 else 0 := by
  induction ps generalizing s k with
  | nil => simp at hq
  | cons q0 rest ih =>
    simp only [refsIn, List.count_append]
    cases k with
    | zero =>
      simp only [List.getElem?_cons_zero, Option.some.injEq] at hq
      subst hq
      have h0 : (refsIn loc (s + 1) rest).count (s + 0) = 0 := by
        rw [List.count_eq_zero]
        intro hmem
        have := refsIn_ge loc (s + 1) rest _ hmem
        omega
      rw [h0]
      by_cases hin : (q0.in == some loc) = true <;> simp [hin]
    | succ k =>
      simp only [List.getElem?_cons_succ] at hq
      have h1 := ih (s + 1) k hq
      have e : s + (k + 1) = s + 1 + k := by omega
      rw [e, h1]
      have h0 : (if (q0.in == some loc) = true then [s] else []).count (s + 1 + k) = 0 := by
        rw [List.count_eq_zero]
        intro hmem
        split at hmem
        · simp at hmem; omega
        · simp at hmem
      rw [h0]; simp

theorem countP_partition {α : Type} (p1 p2 p3 p4 p5 : α → Bool) (l : List α)
    (hex : ∀ x, (p1 x).toNat + (p2 x).toNat + (p3 x).toNat + (p4 x).toNat + (p5 x).toNat = 1) :
    l.length = l.countP p1 + l.countP p2 + l.countP p3 + l.countP p4 + l.countP p5 := by
  induction l with
  | nil => rfl
  | cons x rest ih =>
    have hx := hex x
    simp only [List.countP_cons, List.length_cons]
    cases h1 : p1 x <;> cases h2 : p2 x <;> cases h3 : p3 x <;> cases h4 : p4 x <;>
      cases h5 : p5 x <;> simp [h1, h2, h3, h4, h5] at hx ⊢ <;> omega

theorem countP_locations (ps : List Param) :
    ps.length = ps.countP (fun q => q.in == some "path") +
      ps.countP (fun q => q.in == some "query") + ps.countP (fun q => q.in == some "header") +
      ps.countP (fun q => q.in == some "form") +
      ps.countP (fun q => !(q.in == some "path" || q.in == some "query" ||
        q.in == some "header" || q.in == some "form")) := by
  apply countP_partition
  intro q
  cases q.in with
  | none => rfl
  | some l =>
    by_cases h1 : l = "path"
    · subst h1; rfl
    · by_cases h2 : l = "query"
      · subst h2; rfl
      · by_cases h3 : l = "header"
        · subst h3; rfl
        · by_cases h4 : l = "form"
          · subst h4; rfl
          · have e1 : (l == "path") = false := by simpa using h1
            have e2 : (l == "query") = false := by simpa using h2
            have e3 : (l == "header") = false := by simpa using h3
            have e4 : (l == "form") = false := by simpa using h4
            simp only [Option.some_beq_some, e1, e2, e3, e4]
            rfl

/-- C4, amended. Every operation record that `transform` returns comes from an
operation `op` of the dereferenced document; the length of its `allParams` is
the sum of the lengths of `pathParams`, `queryParams`, `headerParams` and
`formParams`, plus 1 when the record has a body parameter, plus the number of
declared parameters whose location `in` is none of `path`, `query`, `header`,
`form`. The object built from a declared parameter occurs exactly once in the
list of its location when that is one of the four (and in no other list), and
in none of the four lists otherwise. -/
theorem allParams_length {env : Collaborators} {typeMap typeMap' : TypeMapName}
    {api : Document} {defaults : Obj} {ctx : Context} {c : OperationContainer}
    (h : transform env typeMap api defaults = (.ok ctx, typeMap')) (hc : c ∈ ctx.operations) :
    ∃ (p : String) (item : PathItem) (o : String) (op : Op),
      (p, item) ∈ (env.deref api).paths.getD [] ∧ (o, op) ∈ item ∧
      c.operation.path = p ∧ c.operation.httpMethod = o ∧
      c.operation.allParams.length =
        c.operation.pathParams.length + c.operation.queryParams.length +
          c.operation.headerParams.length + c.operation.formParams.length +
          (if c.operation.bodyParam.isSome then 1 else 0) +
          (op.parameters.getD []).countP (fun q =>
            !(q.in == some "path" || q.in == some "query" || q.in == some "header" ||
              q.in == some "form")) ∧
      (c.operation.bodyParam.isSome = op.requestBody.isSome) ∧
      ∀ (k : Nat) (q : Param), (op.parameters.getD [])[k]? = some q →
        c.operation.pathParams.count k = (if q.in = some "path" then 1 else 0) ∧
        c.operation.queryParams.count k = (if q.in = some "query" then 1 else 0) ∧
        c.operation.headerParams.count k = (if q.in = some "header" then 1 else 0) ∧
        c.operation.formParams.count k = (if q.in = some "form" then 1 else 0) := by
  obtain ⟨p, item, o, op, objs, store0, hm1, hm2, -, hpa, hme, hF, hall, hstore, hp, hq, hh,
    hf, hnone, hsome⟩ := record_spec h hc
  obtain ⟨hlen, -, -⟩ := store0_facts hF hnone hsome
  have hbody : c.operation.bodyParam.isSome = op.requestBody.isSome := by
    cases hrb : op.requestBody with
    | none => rw [(hnone hrb).2.1]; rfl
    | some rb =>
      obtain ⟨bp, -, -, -, -, -, hbp, -⟩ := hsome rb hrb
      rw [hbp]; rfl
  refine ⟨p, item, o, op, hm1, hm2, hpa, hme, ?_, hbody, ?_⟩
  · have hl : c.operation.allParams.length = store0.length := by
      have := (sortedRefs_perm (fun r => truthyB (requiredOf store0 r))
        (ctx.obj.get "sortParamsByRequiredFlag").truthy store0.length).length_eq
      rw [← hall] at this
      rw [this, List.length_range]
    rw [hl, hlen, hp, hq, hh, hf, hbody, refsIn_length, refsIn_length, refsIn_length,
      refsIn_length]
    have := countP_locations (op.parameters.getD [])
    omega
  · intro k q hk
    rw [hp, hq, hh, hf]
    have e := fun loc => refsIn_count loc 0 (op.parameters.getD []) k q hk
    simp only [Nat.zero_add, beq_iff_eq] at e
    exact ⟨e "path", e "query", e "header", e "form"⟩

/-- C5. In every operation record that `transform` returns, the parameter
object at index `i` of `allParams` has `hasMore = true` when `i` is not the last
index and `hasMore = false` when it is: the first N-1 elements carry `true`, the
last one (the only one when N = 1, the body parameter when that is last)
carries `false`, after the required-first sort. -/
theorem allParams_hasMore {env : Collaborators} {typeMap typeMap' : TypeMapName}
    {api : Document} {defaults : Obj} {ctx : Context} {c : OperationContainer}
    (h : transform env typeMap api defaults = (.ok ctx, typeMap')) (hc : c ∈ ctx.operations)
    (i r : Nat) (hi : c.operation.allParams[i]? = some r) :
    (c.operation.param r).map (fun p => p.hasMore) =
      some (decide (i + 1 < c.operation.allParams.length)) :=
  hasMore_at_index h hc i r hi

theorem refsIn_lt (loc : String) (s : Nat) (ps : List Param) :
    ∀ x ∈ refsIn loc s ps, x < s + ps.length := by
  induction ps generalizing s with
  | nil => intro x hx; simp [refsIn] at hx
  | cons q rest ih =>
    intro x hx
    simp only [refsIn, List.mem_append] at hx
    rcases hx with hx | hx
    · split at hx
      · simp at hx; simp; omega
      · simp at hx
    · have := ih (s + 1) x hx
      simp; omega

/-- C6, amended. In every operation record that `transform` returns, an element
of `pathParams`, `queryParams`, `headerParams`, `formParams` or `bodyParams` has
`hasMore = false` exactly when it is also the last element of `allParams`, and
`hasMore = true` otherwise, wherever it stands in its own list. -/
theorem locationParams_hasMore {env : Collaborators} {typeMap typeMap' : TypeMapName}
    {api : Document} {defaults : Obj} {ctx : Context} {c : OperationContainer}
    (h : transform env typeMap api defaults = (.ok ctx, typeMap')) (hc : c ∈ ctx.operations)
    (r : Nat)
    (hr : r ∈ c.operation.pathParams ∨ r ∈ c.operation.queryParams ∨
      r ∈ c.operation.headerParams ∨ r ∈ c.operation.formParams ∨
      r ∈ c.operation.bodyParams.getD []) :
    (c.operation.param r).map (fun p => p.hasMore) =
      some (decide (c.operation.allParams.getLast? ≠ some r)) := by
  obtain ⟨p, item, o, op, objs, store0, -, -, -, -, -, hF, hall, -, hp, hq, hh, hf, hnone,
    hsome⟩ := record_spec h hc
  obtain ⟨hlen, -, -⟩ := store0_facts hF hnone hsome
  have hperm : c.operation.allParams.Perm (List.range store0.length) := by
    rw [hall]; exact sortedRefs_perm _ _ _
  have hnd : c.operation.allParams.Nodup := hperm.nodup_iff.mpr (List.nodup_range _)
  have hlt : r < store0.length := by
    rw [hp, hq, hh, hf] at hr
    rcases hr with hr | hr | hr | hr | hr
    · have := refsIn_lt _ _ _ r hr; omega
    · have := refsIn_lt _ _ _ r hr; omega
    · have := refsIn_lt _ _ _ r hr; omega
    · have := refsIn_lt _ _ _ r hr; omega
    · cases hrb : op.requestBody with
      | none =>
        rw [(hnone hrb).2.2] at hr
        simp at hr
      | some rb =>
        obtain ⟨bp, -, -, -, -, -, -, hbs⟩ := hsome rb hrb
        rw [hbs] at hr
        have hr' : r = objs.length := by simpa using hr
        rw [hlen, hrb, hr', hF.length_eq]
        simp
  obtain ⟨i, hi⟩ := List.mem_iff_getElem?.mp (hperm.mem_iff.mpr (List.mem_range.mpr hlt))
  rw [hasMore_at_index h hc i r hi]
  have hiff := nodup_getLast?_iff hnd hi
  by_cases hlast : i + 1 < c.operation.allParams.length
  · have : c.operation.allParams.getLast? ≠ some r := fun hcon => hiff.mp hcon hlast
    simp [hlast, this]
  · have : c.operation.allParams.getLast? = some r := hiff.mpr hlast
    simp [hlast, this]

theorem walkAt_eq (depth : Nat) (property : Option String) (parent schema : Schema) :
    walkAt depth property parent schema =
      { schema := schema, parent := parent, depth := depth, property := property } ::
        (walkOption (depth + 1) "items" schema schema.items ++
          (walkOption (depth + 1) "additionalProperties" schema schema.additionalProperties ++
            walkProperties (depth + 1) schema schema.properties)) := by
  cases schema
  rw [walkAt]
  rfl

mutual

theorem walkAt_depth : ∀ (depth : Nat) (property : Option String) (parent schema : Schema),
    ∀ v ∈ walkAt depth property parent schema, depth ≤ v.depth
  | depth, property, parent, .mk n t ds ty f d r x items additionalProperties properties => by
    intro v hv
    rw [walkAt] at hv
    simp only [List.mem_cons, List.mem_append] at hv
    rcases hv with rfl | hv | hv | hv
    · exact Nat.le_refl _
    · exact Nat.le_of_succ_le (walkOption_depth _ _ _ items v hv)
    · exact Nat.le_of_succ_le (walkOption_depth _ _ _ additionalProperties v hv)
    · exact Nat.le_of_succ_le (walkProperties_depth _ _ properties v hv)
termination_by structural _ _ _ schema => schema

theorem walkOption_depth : ∀ (depth : Nat) (property : String) (parent : Schema)
    (schema : Option Schema), ∀ v ∈ walkOption depth property parent schema, depth ≤ v.depth
  | _, _, _, none => by
    intro v hv
    rw [walkOption] at hv
    cases hv
  | depth, property, parent, some schema => by
    intro v hv
    rw [walkOption] at hv
    exact walkAt_depth depth (some property) parent schema v hv
termination_by structural _ _ _ schema => schema

theorem walkProperties_depth : ∀ (depth : Nat) (parent : Schema)
    (properties : Option (List (String × Schema))),
    ∀ v ∈ walkProperties depth parent properties, depth ≤ v.depth
  | _, _, none => by
    intro v hv
    rw [walkProperties] at hv
    cases hv
  | depth, parent, some properties => by
    intro v hv
    rw [walkProperties] at hv
    exact walkPropertyList_depth depth parent properties v hv
termination_by structural _ _ properties => properties

theorem walkPropertyList_depth : ∀ (depth : Nat) (parent : Schema)
    (properties : List (String × Schema)),
    ∀ v ∈ walkPropertyList depth parent properties, depth ≤ v.depth
  | _, _, [] => by
    intro v hv
    rw [walkPropertyList] at hv
    cases hv
  | depth, parent, (prop, subSchema) :: rest => by
    intro v hv
    rw [walkPropertyList] at hv
    rcases List.mem_append.mp hv with hv | hv
    · exact walkAt_depth depth _ parent subSchema v hv
    · exact walkPropertyList_depth depth parent rest v hv
termination_by structural _ _ properties => properties

end

theorem collectVars_cons {typeMap : TypeMapName} {v : Visit} {rest : List Visit}
    {vars : List Variable} (h : collectVars typeMap (v :: rest) = .ok vars) :
    readsOldrefOfProperties v.schema = false ∧
      ∃ vs, collectVars typeMap rest = .ok vs ∧
        vars = (if isRetained v then [mkVariable typeMap v] else []) ++ vs ∧
        callback typeMap v = .ok (if isRetained v then some (mkVariable typeMap v) else none) := by
  simp only [collectVars] at h
  cases hr : readsOldrefOfProperties v.schema with
  | true => simp [callback, hr] at h
  | false =>
    refine ⟨rfl, ?_⟩
    cases hrest : collectVars typeMap rest with
    | error e =>
      simp only [hrest] at h
      split at h <;> simp at h
    | ok vs =>
      refine ⟨vs, rfl, ?_, ?_⟩
      · simp only [hrest, callback, hr, Bool.false_eq_true, if_false] at h
        by_cases hk : isRetained v = true
        · simp only [hk, if_true] at h ⊢
          exact (Except.ok.inj h).symm
        · simp only [hk, if_false] at h ⊢
          exact (Except.ok.inj h).symm
      · simp only [callback, hr, Bool.false_eq_true, if_false]
        by_cases hk : isRetained v = true <;> simp [hk]

theorem collectVars_append {typeMap : TypeMapName} :
    ∀ (l1 l2 : List Visit) (vars : List Variable),
      collectVars typeMap (l1 ++ l2) = .ok vars →
      ∃ v1 v2, collectVars typeMap l1 = .ok v1 ∧ collectVars typeMap l2 = .ok v2 ∧
        vars = v1 ++ v2 := by
  intro l1
  induction l1 with
  | nil => intro l2 vars h; exact ⟨[], vars, rfl, h, rfl⟩
  | cons v rest ih =>
    intro l2 vars h
    obtain ⟨hr, vs, hvs, hvars, hcb⟩ := collectVars_cons h
    obtain ⟨v1, v2, h1, h2, h12⟩ := ih l2 vs hvs
    refine ⟨(if isRetained v then [mkVariable typeMap v] else []) ++ v1, v2, ?_, h2, ?_⟩
    · simp only [collectVars, hcb, h1]
      by_cases hk : isRetained v = true <;> simp [hk]
    · rw [hvars, h12, List.append_assoc]

theorem collectVars_mem {typeMap : TypeMapName} :
    ∀ (l : List Visit) (vars : List Variable), collectVars typeMap l = .ok vars →
      ∀ var ∈ vars, ∃ v ∈ l, isRetained v = true ∧ callback typeMap v = .ok (some var) := by
  intro l
  induction l with
  | nil =>
    intro vars h var hvar
    simp only [collectVars] at h
    rw [← Except.ok.inj h] at hvar
    cases hvar
  | cons v rest ih =>
    intro vars h var hvar
    obtain ⟨-, vs, hvs, hvars, hcb⟩ := collectVars_cons h
    rw [hvars] at hvar
    rcases List.mem_append.mp hvar with hv | hv
    · by_cases hk : isRetained v = true
      · simp only [hk, if_true, List.mem_singleton] at hv hcb
        exact ⟨v, List.mem_cons_self _ _, hk, by rw [hcb, hv]⟩
      · simp [hk] at hv
    · obtain ⟨v', hv', hk', hcb'⟩ := ih vs hvs var hv
      exact ⟨v', List.mem_cons_of_mem _ hv', hk', hcb'⟩

theorem collectVars_nil {typeMap : TypeMapName} {l : List Visit} {vars : List Variable}
    (h : collectVars typeMap l = .ok vars) (hl : ∀ v ∈ l, isRetained v = false) :
    vars = [] := by
  cases vars with
  | nil => rfl
  | cons var rest =>
    obtain ⟨v, hv, hk, -⟩ := collectVars_mem l _ h var (List.mem_cons_self _ _)
    rw [hl v hv] at hk
    exact absurd hk (by decide)

theorem isRetained_deep {v : Visit} (h : 2 ≤ v.depth) : isRetained v = false := by
  unfold isRetained
  have : ¬ v.depth ≤ 1 := by omega
  simp [this]

theorem collectVars_child {typeMap : TypeMapName} {property : Option String}
    {parent schema : Schema} {vars : List Variable}
    (h : collectVars typeMap (walkAt 1 property parent schema) = .ok vars) :
    vars =
      if isRetained { schema := schema, parent := parent, depth := 1, property := property }
      then [mkVariable typeMap
        { schema := schema, parent := parent, depth := 1, property := property }]
      else [] := by
  rw [walkAt_eq] at h
  obtain ⟨-, vs, hvs, hvars, -⟩ := collectVars_cons h
  have hnil : vs = [] := by
    refine collectVars_nil hvs (fun v hv => isRetained_deep ?_)
    simp only [List.mem_append] at hv
    rcases hv with hv | hv | hv
    · exact walkOption_depth _ _ _ _ v hv
    · exact walkOption_depth _ _ _ _ v hv
    · exact walkProperties_depth _ _ _ v hv
  rw [hvars, hnil, List.append_nil]

theorem splitChars_get?_zero (sep : Char) (l : List Char) :
    ∃ seg rest, splitChars sep l = seg :: rest := by
  induction l with
  | nil => exact ⟨[], [], rfl⟩
  | cons c cs ih =>
    obtain ⟨seg, rest, h⟩ := ih
    by_cases hc : c = sep
    · exact ⟨[], splitChars sep cs, by simp [splitChars, hc]⟩
    · exact ⟨c :: seg, rest, by simp [splitChars, hc, h]⟩

theorem splitChars_cons_ne (sep c : Char) (cs : List Char) (hc : c ≠ sep) :
    ∃ seg rest, splitChars sep cs = seg :: rest ∧
      splitChars sep (c :: cs) = (c :: seg) :: rest := by
  obtain ⟨seg, rest, h⟩ := splitChars_get?_zero sep cs
  exact ⟨seg, rest, h, by simp [splitChars, hc, h]⟩

theorem splitAt_properties (k : String) :
    splitAt ("properties/" ++ k) '/' 1 = splitAt k '/' 0 := by
  unfold splitAt
  have hd : ("properties/" ++ k).data =
      'p' :: 'r' :: 'o' :: 'p' :: 'e' :: 'r' :: 't' :: 'i' :: 'e' :: 's' :: '/' :: k.data := by
    rw [String.data_append]; rfl
  rw [hd]
  have h0 : splitChars '/' ('/' :: k.data) = [] :: splitChars '/' k.data := by
    simp [splitChars]
  obtain ⟨s1, r1, e1, h1⟩ := splitChars_cons_ne '/' 's' ('/' :: k.data) (by decide)
  obtain ⟨s2, r2, e2, h2⟩ := splitChars_cons_ne '/' 'e' ('s' :: '/' :: k.data) (by decide)
  obtain ⟨s3, r3, e3, h3⟩ := splitChars_cons_ne '/' 'i' ('e' :: 's' :: '/' :: k.data) (by decide)
  obtain ⟨s4, r4, e4, h4⟩ :=
    splitChars_cons_ne '/' 't' ('i' :: 'e' :: 's' :: '/' :: k.data) (by decide)
  obtain ⟨s5, r5, e5, h5⟩ :=
    splitChars_cons_ne '/' 'r' ('t' :: 'i' :: 'e' :: 's' :: '/' :: k.data) (by decide)
  obtain ⟨s6, r6, e6, h6⟩ :=
    splitChars_cons_ne '/' 'e' ('r' :: 't' :: 'i' :: 'e' :: 's' :: '/' :: k.data) (by decide)
  obtain ⟨s7, r7, e7, h7⟩ :=
    splitChars_cons_ne '/' 'p' ('e' :: 'r' :: 't' :: 'i' :: 'e' :: 's' :: '/' :: k.data)
      (by decide)
  obtain ⟨s8, r8, e8, h8⟩ :=
    splitChars_cons_ne '/' 'o' ('p' :: 'e' :: 'r' :: 't' :: 'i' :: 'e' :: 's' :: '/' :: k.data)
      (by decide)
  obtain ⟨s9, r9, e9, h9⟩ :=
    splitChars_cons_ne '/' 'r'
      ('o' :: 'p' :: 'e' :: 'r' :: 't' :: 'i' :: 'e' :: 's' :: '/' :: k.data) (by decide)
  obtain ⟨s10, r10, e10, h10⟩ :=
    splitChars_cons_ne '/' 'p'
      ('r' :: 'o' :: 'p' :: 'e' :: 'r' :: 't' :: 'i' :: 'e' :: 's' :: '/' :: k.data) (by decide)
  rw [h0] at e1
  have er : r10 = splitChars '/' k.data := by
    rw [h9] at e10; rw [h8] at e9; rw [h7] at e8; rw [h6] at e7; rw [h5] at e6
    rw [h4] at e5; rw [h3] at e4; rw [h2] at e3; rw [h1] at e2
    have a1 := (List.cons.inj e1).2
    have a2 := (List.cons.inj e2).2
    have a3 := (List.cons.inj e3).2
    have a4 := (List.cons.inj e4).2
    have a5 := (List.cons.inj e5).2
    have a6 := (List.cons.inj e6).2
    have a7 := (List.cons.inj e7).2
    have a8 := (List.cons.inj e8).2
    have a9 := (List.cons.inj e9).2
    have a10 := (List.cons.inj e10).2
    rw [← a10, ← a9, ← a8, ← a7, ← a6, ← a5, ← a4, ← a3, ← a2, ← a1]
  rw [h10, er]
  simp

theorem startsWith_properties (k : String) :
    startsWith ("properties/" ++ k) "properties" = true := by
  unfold startsWith
  have hd : ("properties/" ++ k).data =
      'p' :: 'r' :: 'o' :: 'p' :: 'e' :: 'r' :: 't' :: 'i' :: 'e' :: 's' :: '/' :: k.data := by
    rw [String.data_append]; rfl
  have hp : "properties".data =
      ['p', 'r', 'o', 'p', 'e', 'r', 't', 'i', 'e', 's'] := rfl
  rw [hd, hp]
  simp [List.isPrefixOf]

theorem truthyS_properties (k : String) : truthyS (some ("properties/" ++ k)) = true := by
  unfold truthyS
  simp only [bne_iff_ne, ne_eq]
  intro h
  have := congrArg String.length h
  simp [String.length_append] at this
  have h2 : "properties/".length = 11 := by decide
  omega

theorem isRetained_root (schema parent : Schema) :
    isRetained { schema := schema, parent := parent, depth := 0, property := none } =
      truthyS (orElseS schema.name schema.title) := by
  simp [isRetained, entryName, truthyS]

theorem isRetained_items (schema parent : Schema) :
    isRetained { schema := schema, parent := parent, depth := 1, property := some "items" } =
      truthyS (orElseS schema.name schema.title) := by
  have h1 : startsWith (jsStr (some "items")) "properties" = false := by decide
  have h2 : startsWith (jsStr (some "items")) "additionalProperties" = false := by decide
  simp [isRetained, entryName, h1, h2]

theorem isRetained_additionalProperties (schema parent : Schema) :
    isRetained
        { schema := schema, parent := parent, depth := 1, property := some "additionalProperties" } =
      truthyS (orElseS schema.name schema.title) := by
  have h1 : splitAt (jsStr (some "additionalProperties")) '/' 1 = none := by decide
  have h2 : startsWith (jsStr (some "additionalProperties")) "additionalProperties" = true := by
    decide
  have h3 : truthyS (some "additionalProperties") = true := by decide
  have h4 : truthyS none = false := rfl
  simp only [isRetained, entryName, h1, h2, h3]
  by_cases hn : truthyS (orElseS schema.name schema.title) = true
  · simp [hn]
  · have hn' : truthyS (orElseS schema.name schema.title) = false := by simpa using hn
    simp [hn', h4]

theorem isRetained_property (schema parent : Schema) (k : String) :
    isRetained
        { schema := schema, parent := parent, depth := 1, property := some ("properties/" ++ k) } =
      (truthyS (orElseS schema.name schema.title) || truthyS (splitAt k '/' 0)) := by
  simp only [isRetained, entryName, jsStr, startsWith_properties, truthyS_properties,
    splitAt_properties]
  by_cases hn : truthyS (orElseS schema.name schema.title) = true
  · simp [hn]
  · have hn' : truthyS (orElseS schema.name schema.title) = false := by simpa using hn
    simp [hn']

theorem buildModels_forall₂ {typeMap : TypeMapName} :
    ∀ (l : List (String × Schema)) (ms : List ModelContainer),
      buildModels typeMap l = .ok ms →
      List.Forall₂ (fun kv m => buildModel typeMap kv.1 kv.2 = .ok m) l ms := by
  intro l
  induction l with
  | nil =>
    intro ms h
    simp only [buildModels] at h
    rw [← Except.ok.inj h]
    exact List.Forall₂.nil
  | cons kv rest ih =>
    obtain ⟨s, schema⟩ := kv
    intro ms h
    simp only [buildModels] at h
    cases h1 : buildModel typeMap s schema with
    | error e => simp [h1] at h
    | ok m =>
      simp only [h1] at h
      cases h2 : buildModels typeMap rest with
      | error e => simp [h2] at h
      | ok ms' =>
        simp only [h2] at h
        rw [← Except.ok.inj h]
        exact List.Forall₂.cons h1 (ih ms' h2)

theorem transform_models {env : Collaborators} {typeMap typeMap' : TypeMapName}
    {api : Document} {defaults : Obj} {ctx : Context}
    (h : transform env typeMap api defaults = (.ok ctx, typeMap')) :
    List.Forall₂ (fun kv m => buildModel typeMap' kv.1 kv.2 = .ok m)
      (declaredSchemas (env.deref api)) ctx.models := by
  obtain ⟨lang, -, -, hb⟩ := transform_ok h
  obtain ⟨obj0, auth, -, -, -, -, hmodels, -, -⟩ := buildContext_ok hb
  unfold modelsStage at hmodels
  unfold declaredSchemas
  cases hc : (env.deref api).components with
  | none =>
    simp only [hc] at hmodels
    rw [← Except.ok.inj hmodels]
    exact List.Forall₂.nil
  | some components =>
    simp only [hc] at hmodels
    exact buildModels_forall₂ _ _ hmodels

theorem buildModel_ok {typeMap : TypeMapName} {s : String} {schema : Schema}
    {m : ModelContainer} (h : buildModel typeMap s schema = .ok m) :
    m.model.name = s ∧ collectVars typeMap (walkSchema schema) = .ok m.model.vars := by
  unfold buildModel at h
  cases hv : collectVars typeMap (walkSchema schema) with
  | error e => simp [hv] at h
  | ok vars =>
    simp only [hv] at h
    rw [← Except.ok.inj h]
    exact ⟨rfl, rfl⟩

theorem collectVars_walkOption {typeMap : TypeMapName} {property : String}
    {parent : Schema} :
    ∀ (schema : Option Schema) (vars : List Variable),
      collectVars typeMap (walkOption 1 property parent schema) = .ok vars →
      vars =
        match schema with
        | some sub =>
          if isRetained
            { schema := sub, parent := parent, depth := 1, property := some property }
          then [mkVariable typeMap
            { schema := sub, parent := parent, depth := 1, property := some property }]
          else []
        | none => [] := by
  intro schema vars h
  cases schema with
  | none =>
    rw [walkOption] at h
    simp only [collectVars] at h
    exact (Except.ok.inj h).symm
  | some sub =>
    rw [walkOption] at h
    exact collectVars_child h

theorem collectVars_walkPropertyList {typeMap : TypeMapName} {parent : Schema} :
    ∀ (properties : List (String × Schema)) (vars : List Variable),
      collectVars typeMap (walkPropertyList 1 parent properties) = .ok vars →
      vars = (properties.filter (fun kv => isRetained
          { schema := kv.2, parent := parent, depth := 1,
            property := some ("properties/" ++ kv.1) })).map
        (fun kv => mkVariable typeMap
          { schema := kv.2, parent := parent, depth := 1,
            property := some ("properties/" ++ kv.1) }) := by
  intro properties
  induction properties with
  | nil =>
    intro vars h
    rw [walkPropertyList] at h
    simp only [collectVars] at h
    rw [← Except.ok.inj h]
    rfl
  | cons kv rest ih =>
    obtain ⟨prop, sub⟩ := kv
    intro vars h
    rw [walkPropertyList] at h
    obtain ⟨v1, v2, h1, h2, h12⟩ := collectVars_append _ _ _ h
    rw [h12, collectVars_child h1, ih v2 h2]
    by_cases hk : isRetained
        { schema := sub, parent := parent, depth := 1,
          property := some ("properties/" ++ prop) } = true
    · simp [List.filter, hk]
    · simp [List.filter, hk]

theorem collectVars_walkSchema {typeMap : TypeMapName} {schema : Schema}
    {vars : List Variable} (h : collectVars typeMap (walkSchema schema) = .ok vars) :
    vars =
      (if truthyS (orElseS schema.name schema.title) then
          [mkVariable typeMap
            { schema := schema, parent := Schema.empty, depth := 0, property := none }]
        else []) ++
      ((match schema.items with
        | some sub =>
          if truthyS (orElseS sub.name sub.title) then
            [mkVariable typeMap
              { schema := sub, parent := schema, depth := 1, property := some "items" }]
          else []
        | none => []) ++
      ((match schema.additionalProperties with
        | some sub =>
          if truthyS (orElseS sub.name sub.title) then
            [mkVariable typeMap
              { schema := sub, parent := schema, depth := 1,
                property := some "additionalProperties" }]
          else []
        | none => []) ++
      ((schema.properties.getD []).filter (fun kv =>
          truthyS (orElseS kv.2.name kv.2.title) || truthyS (splitAt kv.1 '/' 0))).map
        (fun kv => mkVariable typeMap
          { schema := kv.2, parent := schema, depth := 1,
            property := some ("properties/" ++ kv.1) }))) := by
  unfold walkSchema at h
  rw [walkAt_eq] at h
  obtain ⟨-, vs, hvs, hvars, -⟩ := collectVars_cons h
  obtain ⟨v1, v23, h1, h23, e1⟩ := collectVars_append _ _ _ hvs
  obtain ⟨v2, v3, h2, h3, e2⟩ := collectVars_append _ _ _ h23
  have a1 := collectVars_walkOption _ _ h1
  have a2 := collectVars_walkOption _ _ h2
  have a3 : v3 = ((schema.properties.getD []).filter (fun kv =>
          truthyS (orElseS kv.2.name kv.2.title) || truthyS (splitAt kv.1 '/' 0))).map
        (fun kv => mkVariable typeMap
          { schema := kv.2, parent := schema, depth := 1,
            property := some ("properties/" ++ kv.1) }) := by
    cases hp : schema.properties with
    | none =>
      rw [hp, walkProperties] at h3
      simp only [collectVars] at h3
      rw [← Except.ok.inj h3]
      rfl
    | some properties =>
      rw [hp, walkProperties] at h3
      rw [collectVars_walkPropertyList properties v3 h3]
      simp only [isRetained_property, Option.getD_some]
  rw [hvars, e1, e2, isRetained_root, a1, a2, a3]
  simp only [isRetained_items, isRetained_additionalProperties]

/-- C9. When `transform` returns, every entry of the `vars` of every model comes
from a call of the callback at depth 0 or 1 of the walk of the model's schema; a
call at depth 2 or more yields no entry whatever the node's `name` and `title`,
and the walk of a subtree entered at depth 2 or more (a property of a property,
the items of a property, and deeper) contributes nothing to `vars`. -/
theorem deep_nodes_yield_no_var {env : Collaborators} {typeMap typeMap' : TypeMapName}
    {api : Document} {defaults : Obj} {ctx : Context}
    (h : transform env typeMap api defaults = (.ok ctx, typeMap')) :
    List.Forall₂
      (fun (named : String × Schema) (m : ModelContainer) =>
        m.model.name = named.1 ∧
        ∀ var ∈ m.model.vars, ∃ v ∈ walkSchema named.2,
          v.depth ≤ 1 ∧ callback typeMap' v = .ok (some var))
      (declaredSchemas (env.deref api)) ctx.models ∧
    (∀ (v : Visit) (r : Option Variable), 2 ≤ v.depth → callback typeMap' v = .ok r →
      r = none) ∧
    (∀ (depth : Nat) (property : Option String) (parent schema : Schema)
      (vars : List Variable), 2 ≤ depth →
      collectVars typeMap' (walkAt depth property parent schema) = .ok vars → vars = []) := by
  refine ⟨?_, ?_, ?_⟩
  · refine (transform_models h).imp (fun named m hm => ?_)
    obtain ⟨hname, hvars⟩ := buildModel_ok hm
    refine ⟨hname, fun var hvar => ?_⟩
    obtain ⟨v, hv, hk, hcb⟩ := collectVars_mem _ _ hvars var hvar
    refine ⟨v, hv, ?_, hcb⟩
    unfold isRetained at hk
    simp only [Bool.and_eq_true, decide_eq_true_eq] at hk
    exact hk.2
  · intro v r hd hcb
    unfold callback at hcb
    rw [isRetained_deep hd] at hcb
    split at hcb
    · cases hcb
    · simp only [Bool.false_eq_true, if_false] at hcb
      exact (Except.ok.inj hcb).symm
  · intro depth property parent schema vars hd hvars
    refine collectVars_nil hvars (fun v hv => isRetained_deep ?_)
    have := walkAt_depth depth property parent schema v hv
    omega

theorem typeMaps_typescript_array (schema it : Schema) (required : Bool)
    (hty : schema.type = some "array") (hit : schema.items = some it)
    (htr : truthyS it.type = true) :
    typeMaps .typescript schema.type required schema =
      some ("Array<" ++ jsStr (typeMaps .typescript it.type false it) ++ ">") := by
  cases schema with
  | mk n t ds ty f d r x items additionalProperties properties =>
    simp only [Schema.type] at hty
    simp only [Schema.items] at hit
    subst hty hit
    rw [typeMaps]
    have h1 : (some "array" : Option String) ≠ some "integer" := by decide
    have h2 : "Array" ++ "<" = "Array<" := by decide
    have h3 : (Schema.mk n t ds (some "array") f d r x (some it) additionalProperties
        properties).type = some "array" := rfl
    simp only [h3, h1, if_false, if_true, htr, ← String.append_assoc, h2]

theorem typeMaps_typescript_integer (required : Bool) (schema : Schema) :
    typeMaps .typescript (some "integer") required schema = some "number" := by
  cases schema with
  | mk n t ds ty f d r x items additionalProperties properties =>
    have h1 : (some "number" : Option String) ≠ some "array" := by decide
    rw [typeMaps.eq_def]
    simp only [if_true, h1, if_false]

theorem transform_of_language (env : Collaborators) (typeMap : TypeMapName) (api : Document)
    (defaults : Obj) (lang : String) (hlang : defaults.get "language" = .str lang) :
    transform env typeMap api defaults =
      (buildContext env ((lookupTypeMap (toLowerCase lang)).getD typeMap) api defaults,
        (lookupTypeMap (toLowerCase lang)).getD typeMap) := by
  unfold transform languageOf
  rw [hlang]

theorem callback_some {typeMap : TypeMapName} {v : Visit} {var : Variable}
    (h : callback typeMap v = .ok (some var)) : var = mkVariable typeMap v := by
  unfold callback at h
  split at h
  · cases h
  · split at h
    · exact (Option.some.inj (Except.ok.inj h)).symm
    · cases Except.ok.inj h

/-- C10. When `options.language` is `typescript` in any letter case, `transform`
runs with the `typescript` entry of the registry and leaves that entry in the
module variable. Under it a schema of type `array` whose `items` has a
(non-empty) `type` maps to `Array<` + M(items) + `>`, M being the same entry
applied to the items schema, and `integer` maps to `number`; so
`{type: array, items: {type: integer}}` maps to `Array<number>` and an array of
arrays of integer to `Array<Array<number>>`. The `dataType` of the object built
from a declared parameter and the `type` of every model variable are the
results of that mapping on the parameter's or the node's schema. -/
theorem typescript_array_mapping (env : Collaborators) (typeMap : TypeMapName)
    (api : Document) (defaults : Obj) (lang : String)
    (hlang : defaults.get "language" = .str lang)
    (hts : toLowerCase lang = "typescript") :
    transform env typeMap api defaults =
      (buildContext env .typescript api defaults, .typescript) ∧
    (∀ (schema it : Schema) (required : Bool), schema.type = some "array" →
      schema.items = some it → truthyS it.type = true →
      typeMaps .typescript schema.type required schema =
        some ("Array<" ++ jsStr (typeMaps .typescript it.type false it) ++ ">")) ∧
    (∀ (required : Bool) (schema : Schema),
      typeMaps .typescript (some "integer") required schema = some "number") ∧
    (∀ required : Bool, typeMaps .typescript (some "array") required
      (Schema.arrayOf (Schema.ofType "integer")) = some "Array<number>") ∧
    (∀ required : Bool, typeMaps .typescript (some "array") required
      (Schema.arrayOf (Schema.arrayOf (Schema.ofType "integer"))) =
        some "Array<Array<number>>") ∧
    (∀ (ctx : Context) (c : OperationContainer),
      buildContext env .typescript api defaults = .ok ctx → c ∈ ctx.operations →
      ∃ (p : String) (item : PathItem) (o : String) (op : Op),
        (p, item) ∈ (env.deref api).paths.getD [] ∧ (o, op) ∈ item ∧
        c.operation.path = p ∧ c.operation.httpMethod = o ∧
        ∀ (k : Nat) (q : Param), (op.parameters.getD [])[k]? = some q →
          ∃ sch prm, q.schema = some sch ∧ c.operation.param k = some prm ∧
            prm.dataType = typeMaps .typescript sch.type (truthyB q.required) sch) ∧
    (∀ ctx : Context, buildContext env .typescript api defaults = .ok ctx →
      List.Forall₂
        (fun (named : String × Schema) (m : ModelContainer) =>
          ∀ var ∈ m.model.vars, ∃ v ∈ walkSchema named.2,
            var.type = typeMaps .typescript v.schema.type (truthyB var.required) v.schema)
        (declaredSchemas (env.deref api)) ctx.models) := by
  have hsel : (lookupTypeMap (toLowerCase lang)).getD typeMap = .typescript := by
    rw [hts]; rfl
  have htr : transform env typeMap api defaults =
      (buildContext env .typescript api defaults, .typescript) := by
    rw [transform_of_language env typeMap api defaults lang hlang, hsel]
  refine ⟨htr, typeMaps_typescript_array, typeMaps_typescript_integer, fun _ => rfl,
    fun _ => rfl, ?_, ?_⟩
  · intro ctx c hctx hc
    have h : transform env typeMap api defaults = (.ok ctx, .typescript) := by
      rw [htr, hctx]
    obtain ⟨p, item, o, op, objs, store0, hm1, hm2, -, hpa, hme, hF, -, hstore, -, -, -, -,
      hnone, hsome⟩ := record_spec h hc
    obtain ⟨-, -, hget⟩ := store0_facts hF hnone hsome
    refine ⟨p, item, o, op, hm1, hm2, hpa, hme, fun k q hq => ?_⟩
    obtain ⟨sch, hsch, hobj⟩ := hget k q hq
    obtain ⟨prm, hprm, hor⟩ := record_param hstore k _ hobj
    refine ⟨sch, prm, hsch, hprm, ?_⟩
    rcases hor with rfl | rfl <;> rfl
  · intro ctx hctx
    have h : transform env typeMap api defaults = (.ok ctx, .typescript) := by
      rw [htr, hctx]
    refine (transform_models h).imp (fun named m hm => ?_)
    obtain ⟨-, hvars⟩ := buildModel_ok hm
    intro var hvar
    obtain ⟨v, hv, -, hcb⟩ := collectVars_mem _ _ hvars var hvar
    refine ⟨v, hv, ?_⟩
    rw [callback_some hcb]
    rfl

/-! ## Options, messages, records and names -/

theorem Obj.has_iff_mem_keys (o : Obj) (k : String) :
    o.has k = true ↔ k ∈ o.map Prod.fst := by
  unfold Obj.has
  simp only [List.any_eq_true, beq_iff_eq, List.mem_map]

theorem Obj.get_set_eq (o : Obj) (k : String) (v : JVal) : (Obj.set o k v).get k = v := by
  induction o with
  | nil => simp [Obj.set, Obj.get, List.find?_cons]
  | cons kv rest ih =>
    obtain ⟨k0, v0⟩ := kv
    unfold Obj.get at ih ⊢
    by_cases h0 : k0 = k
    · subst h0
      simp [Obj.set, List.find?_cons]
    · have hb0 : (k0 == k) = false := by simpa using h0
      simp only [Obj.set, hb0, Bool.false_eq_true, if_false, List.find?_cons]
      exact ih

theorem Obj.get_cons_ne (k0 : String) (v0 : JVal) (rest : Obj) (k : String) (hne : k0 ≠ k) :
    Obj.get ((k0, v0) :: rest) k = Obj.get rest k := by
  have hb0 : (k0 == k) = false := by simpa using hne
  unfold Obj.get
  simp only [List.find?_cons, hb0]

theorem Obj.get_cons_eq (k : String) (v0 : JVal) (rest : Obj) :
    Obj.get ((k, v0) :: rest) k = v0 := by
  unfold Obj.get
  simp [List.find?_cons]

theorem Obj.get_assign (src : Obj) (hnd : (src.map Prod.fst).Nodup) (k : String) :
    ∀ o : Obj, (Obj.assign o src).get k = if src.has k then src.get k else o.get k := by
  induction src with
  | nil => intro o; rfl
  | cons kv rest ih =>
    obtain ⟨k0, v0⟩ := kv
    intro o
    simp only [List.map_cons, List.nodup_cons] at hnd
    show (Obj.assign (Obj.set o k0 v0) rest).get k = _
    rw [ih hnd.2]
    by_cases hr : Obj.has rest k = true
    · have hne : k0 ≠ k := by
        rintro rfl
        exact hnd.1 ((Obj.has_iff_mem_keys _ _).mp hr)
      have hsrc : Obj.has ((k0, v0) :: rest) k = true := by
        simp only [Obj.has, List.any_cons, Bool.or_eq_true]
        right
        exact hr
      rw [hsrc, Obj.get_cons_ne _ _ _ _ hne]
      simp [hr]
    · have hr' : Obj.has rest k = false := by simpa using hr
      simp only [hr', Bool.false_eq_true, if_false]
      by_cases h0 : k0 = k
      · subst h0
        have hsrc : Obj.has ((k0, v0) :: rest) k0 = true := by
          simp [Obj.has]
        rw [hsrc, Obj.get_set_eq, Obj.get_cons_eq]
        simp
      · have hsrc : Obj.has ((k0, v0) :: rest) k = false := by
          simp only [Obj.has, List.any_cons, Bool.or_eq_false_iff]
          exact ⟨by simpa using h0, hr'⟩
        rw [hsrc, Obj.get_set_ne _ _ _ _ h0]
        simp

theorem metadata_keys (env : Collaborators) (api : Document) (info : Info) (title : String)
    (defaults : Obj) :
    (metadata env api info title defaults).map Prod.fst = metadataKeys := rfl

theorem contextObj_ok {env : Collaborators} {api : Document} {defaults obj0 : Obj}
    (h : contextObj env api defaults = .ok obj0) :
    ∃ info title, api.info = some info ∧ info.title = some title ∧
      obj0 = Obj.assign (Obj.assign (Obj.assign [] getBase) defaults)
        (metadata env api info title defaults) := by
  unfold contextObj at h
  cases hi : api.info with
  | none => simp [hi] at h
  | some info =>
    simp only [hi] at h
    cases ht : info.title with
    | none => simp [ht] at h
    | some title =>
      simp only [ht] at h
      exact ⟨info, title, rfl, ht, (Except.ok.inj h).symm⟩

theorem serverStage_get {env : Collaborators} {api : Document} {obj obj' : Obj}
    (h : serverStage env api obj = .ok obj') (k : String) (h1 : k ≠ "host")
    (h2 : k ≠ "basePath") : obj'.get k = obj.get k := by
  unfold serverStage at h
  split at h
  · split at h
    · simp at h
    · rw [← Except.ok.inj h, Obj.get_set_ne _ _ _ _ (Ne.symm h2),
        Obj.get_set_ne _ _ _ _ (Ne.symm h1)]
  · rw [← Except.ok.inj h]

theorem metadataKeys_nodup : metadataKeys.Nodup := by decide

theorem getBase_keys_nodup : (getBase.map Prod.fst).Nodup := by decide

theorem getBase_keys_not_assigned :
    ∀ k ∈ getBase.map Prod.fst, k ≠ "licenseUrl" →
      k ∉ metadataKeys ∧ k ≠ "hasAuthMethods" := by decide

theorem metadataKeys_subset_assigned : ∀ k ∈ metadataKeys, k ∈ assignedKeys := by
  intro k hk
  unfold assignedKeys
  exact List.mem_append_left _ (List.mem_append_right _ hk)

theorem context_obj_get {env : Collaborators} {typeMap typeMap' : TypeMapName}
    {api : Document} {defaults : Obj} {ctx : Context}
    (h : transform env typeMap api defaults = (.ok ctx, typeMap')) :
    ∃ info title, api.info = some info ∧ info.title = some title ∧
      ∀ k, k ≠ "host" → k ≠ "basePath" → k ≠ "hasAuthMethods" →
        ctx.obj.get k =
          if Obj.has (metadata env api info title defaults) k then
            Obj.get (metadata env api info title defaults) k
          else (Obj.assign (Obj.assign [] getBase) defaults).get k := by
  obtain ⟨lang, -, -, hb⟩ := transform_ok h
  obtain ⟨obj0, auth, hobj, -, hserver, -, -, -, -⟩ := buildContext_ok hb
  obtain ⟨info, title, hinfo, htitle, hobj0⟩ := contextObj_ok hobj
  refine ⟨info, title, hinfo, htitle, fun k h1 h2 h3 => ?_⟩
  rw [serverStage_get hserver k h1 h2]
  have hauth : (if auth.isSome then Obj.set obj0 "hasAuthMethods" (.bool true) else obj0).get k =
      obj0.get k := by
    split
    · exact Obj.get_set_ne _ _ _ _ (Ne.symm h3)
    · rfl
  rw [hauth, hobj0]
  exact Obj.get_assign _ (by rw [metadata_keys]; exact metadataKeys_nodup) k _

/-- C13, amended. When `transform` returns, a key of the caller's options (an
object, so each key occurs once) that is none of the keys `transform` assigns
itself has the caller's value in the context; in particular the caller's value
wins over the defaults table. -/
theorem caller_keys_kept {env : Collaborators} {typeMap typeMap' : TypeMapName}
    {api : Document} {defaults : Obj} {ctx : Context}
    (h : transform env typeMap api defaults = (.ok ctx, typeMap'))
    (hnd : (defaults.map Prod.fst).Nodup) (k : String) (hk : defaults.has k = true)
    (hna : k ∉ assignedKeys) : ctx.obj.get k = defaults.get k := by
  obtain ⟨info, title, -, -, hget⟩ := context_obj_get h
  have hmeta : Obj.has (metadata env api info title defaults) k = false := by
    cases hm : Obj.has (metadata env api info title defaults) k with
    | false => rfl
    | true =>
      exfalso
      have := (Obj.has_iff_mem_keys _ _).mp hm
      rw [metadata_keys] at this
      exact hna (metadataKeys_subset_assigned k this)
  have hne : ∀ s, s ∈ assignedKeys → k ≠ s := fun s hs hks => hna (hks ▸ hs)
  rw [hget k (hne _ (by decide)) (hne _ (by decide)) (hne _ (by decide)), hmeta]
  simp only [Bool.false_eq_true, if_false]
  rw [Obj.get_assign defaults hnd k, hk]
  simp

/-- C14, amended. When `transform` returns, every key of the defaults table
other than `licenseUrl` that the caller does not supply has its default value in
the context; `licenseUrl` has the `url` of the document's `info.license`, and
`null` when the document declares no license, whatever the defaults table and
the caller say. -/
theorem defaults_kept {env : Collaborators} {typeMap typeMap' : TypeMapName}
    {api : Document} {defaults : Obj} {ctx : Context}
    (h : transform env typeMap api defaults = (.ok ctx, typeMap')) :
    (∀ k, getBase.has k = true → k ≠ "licenseUrl" → defaults.has k = false →
      ctx.obj.get k = getBase.get k) ∧
    ∃ info, api.info = some info ∧
      ctx.obj.get "licenseUrl" =
        match info.license with
        | some license => JVal.ofStr license.url
        | none => .null := by
  obtain ⟨info, title, hinfo, -, hget⟩ := context_obj_get h
  refine ⟨fun k hk hl hd => ?_, info, hinfo, ?_⟩
  · have hkeys := getBase_keys_not_assigned k ((Obj.has_iff_mem_keys _ _).mp hk) hl
    have hmeta : Obj.has (metadata env api info title defaults) k = false := by
      cases hm : Obj.has (metadata env api info title defaults) k with
      | false => rfl
      | true =>
        exfalso
        have := (Obj.has_iff_mem_keys _ _).mp hm
        rw [metadata_keys] at this
        exact hkeys.1 this
    have h1 : k ≠ "host" := fun e => hkeys.1 (e ▸ (by decide))
    have h2 : k ≠ "basePath" := fun e => hkeys.1 (e ▸ (by decide))
    rw [hget k h1 h2 hkeys.2, hmeta]
    simp only [Bool.false_eq_true, if_false]
    rw [Obj.get_assign_of_not_has defaults k hd, Obj.get_assign getBase getBase_keys_nodup k, hk]
    simp
  · have hm : Obj.has (metadata env api info title defaults) "licenseUrl" = true := by
      rw [Obj.has_iff_mem_keys, metadata_keys]
      decide
    rw [hget "licenseUrl" (by decide) (by decide) (by decide), hm]
    simp only [if_true]
    simp only [metadata, Obj.get, List.find?_cons]
    cases info.license <;> rfl

theorem buildContext_validator (env : Collaborators)
    (validator : Document → JVal → Validation) (typeMap : TypeMapName) (api : Document)
    (defaults : Obj) :
    (buildContext { env with validator := validator } typeMap api defaults).map
        (fun ctx => (ctx.obj, ctx.authMethods, ctx.operations, ctx.models)) =
      (buildContext env typeMap api defaults).map
        (fun ctx => (ctx.obj, ctx.authMethods, ctx.operations, ctx.models)) := by
  unfold buildContext
  have e1 : contextObj { env with validator := validator } api defaults =
      contextObj env api defaults := rfl
  have e2 : ∀ a o, serverStage { env with validator := validator } a o =
      serverStage env a o := fun _ _ => rfl
  rw [e1]
  cases contextObj env api defaults with
  | error e => rfl
  | ok obj =>
    simp only
    cases authStage api with
    | error e => rfl
    | ok auth =>
      simp only [e2]
      cases serverStage env (env.deref api)
          (if auth.isSome then Obj.set obj "hasAuthMethods" (.bool true) else obj) with
      | error e => rfl
      | ok obj' =>
        simp only
        cases operationsStage typeMap (obj'.get "sortParamsByRequiredFlag").truthy
            (env.deref api) with
        | error e => rfl
        | ok operations =>
          simp only
          cases modelsStage typeMap (env.deref api) with
          | error e => rfl
          | ok models => rfl

/-- C15. With the validator modelled as returning `valid` or `invalid context
message`: when `transform` returns, `messages` has exactly one entry, built from
the validator's outcome; for `valid` its level is `Valid`; for `invalid` its
level is `Error`, its `elementId` the last frame of the validation context and
its `message` the error text. Whatever the validator answers, `transform`
returns or raises alike, leaves the same type mapping behind, and returns the
same scalar keys, `authMethods`, `operations` and `models`. -/
theorem validation_message (env : Collaborators) (typeMap : TypeMapName) (api : Document)
    (defaults : Obj) :
    (∀ (ctx : Context) (typeMap' : TypeMapName),
      transform env typeMap api defaults = (.ok ctx, typeMap') →
      ctx.messages = [mkMessage (env.validator (env.deref api) (defaults.get "lint"))]) ∧
    (mkMessage .valid).level = "Valid" ∧
    (∀ (context : List String) (message : String),
      (mkMessage (.invalid context message)).level = "Error" ∧
      (mkMessage (.invalid context message)).elementId = context.getLast? ∧
      (mkMessage (.invalid context message)).message = message) ∧
    (∀ validator : Document → JVal → Validation,
      (transform { env with validator := validator } typeMap api defaults).2 =
        (transform env typeMap api defaults).2 ∧
      (transform { env with validator := validator } typeMap api defaults).1.map
          (fun ctx => (ctx.obj, ctx.authMethods, ctx.operations, ctx.models)) =
        (transform env typeMap api defaults).1.map
          (fun ctx => (ctx.obj, ctx.authMethods, ctx.operations, ctx.models))) := by
  refine ⟨fun ctx typeMap' h => ?_, rfl, fun _ _ => ⟨rfl, rfl, rfl⟩, fun validator => ?_⟩
  · obtain ⟨lang, -, -, hb⟩ := transform_ok h
    obtain ⟨obj0, auth, -, -, -, -, -, hmsg, -⟩ := buildContext_ok hb
    exact hmsg
  · unfold transform
    cases languageOf defaults with
    | error e => exact ⟨rfl, rfl⟩
    | ok lang => exact ⟨rfl, buildContext_validator env validator _ api defaults⟩

theorem addParameters_baseName {typeMap : TypeMapName} :
    ∀ (ps : List Param) (o o' : Operation), addParameters typeMap o ps = .ok o' →
      o'.baseName = o.baseName := by
  intro ps
  induction ps with
  | nil =>
    intro o o' h
    simp only [addParameters] at h
    rw [← Except.ok.inj h]
  | cons q rest ih =>
    intro o o' h
    simp only [addParameters] at h
    cases h1 : addParameter typeMap o q with
    | error e => simp [h1] at h
    | ok o1 =>
      simp only [h1] at h
      rw [ih o1 o' h]
      unfold addParameter at h1
      cases hs : q.schema with
      | none => simp [hs] at h1
      | some sch =>
        simp only [hs] at h1
        rw [← Except.ok.inj h1]

theorem addBodyParam_baseName {o o' : Operation} {rb : Option RequestBody}
    (h : addBodyParam o rb = .ok o') : o'.baseName = o.baseName := by
  cases rb with
  | none => rw [addBodyParam_none h]
  | some rb =>
    simp only [addBodyParam] at h
    split at h
    · simp at h
    · rw [← Except.ok.inj h]

theorem buildOperation_frame {typeMap : TypeMapName} {sf : Bool} {p o : String} {op : Op}
    {c : OperationContainer} (h : buildOperation typeMap sf p o op = .ok c) :
    c.operation.baseName = (newOperation p o op).baseName ∧
      mkResponses (op.responses.getD []) = .ok c.operation.responses := by
  unfold buildOperation at h
  cases h1 : addParameters typeMap (newOperation p o op) (op.parameters.getD []) with
  | error e => simp [h1] at h
  | ok withParams =>
    simp only [h1] at h
    cases h2 : addBodyParam withParams op.requestBody with
    | error e => simp [h2] at h
    | ok withBody =>
      simp only [h2] at h
      cases h3 : mkResponses (op.responses.getD []) with
      | error e => simp [h3] at h
      | ok responses =>
        simp only [h3] at h
        rw [← Except.ok.inj h]
        refine ⟨?_, rfl⟩
        show withBody.baseName = _
        rw [addBodyParam_baseName h2, addParameters_baseName _ _ _ h1]

theorem record_source {env : Collaborators} {typeMap typeMap' : TypeMapName} {api : Document}
    {defaults : Obj} {ctx : Context} {c : OperationContainer}
    (h : transform env typeMap api defaults = (.ok ctx, typeMap')) (hc : c ∈ ctx.operations) :
    ∃ (p : String) (item : PathItem) (o : String) (op : Op) (c0 : OperationContainer),
      (p, item) ∈ (env.deref api).paths.getD [] ∧ (o, op) ∈ item ∧ isSkippedKey o = false ∧
      buildOperation typeMap' (ctx.obj.get "sortParamsByRequiredFlag").truthy p o op = .ok c0 ∧
      (c = c0 ∨ c = c0.markLast) := by
  obtain ⟨lang, -, -, hb⟩ := transform_ok h
  obtain ⟨obj0, auth, -, -, -, hops, -, -, -⟩ := buildContext_ok hb
  obtain ⟨ops, last, hl, hops', hall⟩ := operationsStage_spec hops
  rw [hops'] at hc
  obtain ⟨c0, hc0, hcc⟩ := mem_markLast_source hl hc
  obtain ⟨p, item, o, op, hm1, hm2, hsk, hbuild⟩ := hall c0 hc0
  exact ⟨p, item, o, op, c0, hm1, hm2, hsk, hbuild, hcc⟩

/-- C16. Every operation record that `transform` returns comes from an
operation `op` of the dereferenced document, and its `baseName` is `Default`
when `op` has no `tags` or an empty list of them, and the first tag of `op`
otherwise. -/
theorem baseName_default_or_first_tag {env : Collaborators} {typeMap typeMap' : TypeMapName}
    {api : Document} {defaults : Obj} {ctx : Context} {c : OperationContainer}
    (h : transform env typeMap api defaults = (.ok ctx, typeMap')) (hc : c ∈ ctx.operations) :
    ∃ (p : String) (item : PathItem) (o : String) (op : Op),
      (p, item) ∈ (env.deref api).paths.getD [] ∧ (o, op) ∈ item ∧
      c.operation.path = p ∧ c.operation.httpMethod = o ∧
      (op.tags = none → c.operation.baseName = "Default") ∧
      (op.tags = some [] → c.operation.baseName = "Default") ∧
      (∀ tag rest, op.tags = some (tag :: rest) → c.operation.baseName = tag) := by
  obtain ⟨p, item, o, op, c0, hm1, hm2, -, hbuild, hcc⟩ := record_source h hc
  obtain ⟨hbase, -⟩ := buildOperation_frame hbuild
  obtain ⟨o2, objs, heq, -, -, -, -, -, -, -, hpa, hme, -, -⟩ := buildOperation_spec hbuild
  have hc0 : c0.operation.path = p ∧ c0.operation.httpMethod = o := by
    rw [heq]; exact ⟨hpa, hme⟩
  have hfields : c.operation.baseName = c0.operation.baseName ∧
      c.operation.path = c0.operation.path ∧
      c.operation.httpMethod = c0.operation.httpMethod := by
    rcases hcc with rfl | rfl <;> exact ⟨rfl, rfl, rfl⟩
  refine ⟨p, item, o, op, hm1, hm2, by rw [hfields.2.1, hc0.1], by rw [hfields.2.2, hc0.2],
    ?_, ?_, ?_⟩
  · intro ht
    rw [hfields.1, hbase]
    simp only [newOperation, ht]
  · intro ht
    rw [hfields.1, hbase]
    simp only [newOperation, ht]
  · intro tag rest ht
    rw [hfields.1, hbase]
    simp only [newOperation, ht]

theorem pathItemLoop_forall₂ {typeMap : TypeMapName} {sf : Bool} {p : String} :
    ∀ (item : List (String × Op)) (acc ops : List OperationContainer),
      pathItemLoop typeMap sf p item acc = .ok ops →
      ∃ new, ops = acc ++ new ∧
        List.Forall₂ (fun (kv : String × Op) c => buildOperation typeMap sf p kv.1 kv.2 = .ok c)
          (item.filter (fun kv => !isSkippedKey kv.1)) new := by
  intro item
  induction item with
  | nil =>
    intro acc ops h
    simp only [pathItemLoop] at h
    exact ⟨[], by simp [Except.ok.inj h], List.Forall₂.nil⟩
  | cons head rest ih =>
    obtain ⟨o, op⟩ := head
    intro acc ops h
    simp only [pathItemLoop] at h
    by_cases hk : isSkippedKey o = true
    · simp only [hk, if_true] at h
      obtain ⟨new, hnew, hall⟩ := ih acc ops h
      refine ⟨new, hnew, ?_⟩
      simpa [List.filter, hk] using hall
    · have hk' : isSkippedKey o = false := by simpa using hk
      simp only [hk', Bool.false_eq_true, if_false] at h
      cases hb : buildOperation typeMap sf p o op with
      | error e => simp [hb] at h
      | ok container =>
        simp only [hb] at h
        obtain ⟨new, hnew, hall⟩ := ih _ ops h
        refine ⟨container :: new, by simp [hnew], ?_⟩
        simp only [List.filter, hk', Bool.not_false]
        exact List.Forall₂.cons hb hall

theorem pathsLoop_forall₂ {typeMap : TypeMapName} {sf : Bool} :
    ∀ (paths : List (String × PathItem)) (acc ops : List OperationContainer),
      pathsLoop typeMap sf paths acc = .ok ops →
      ∃ new, ops = acc ++ new ∧
        List.Forall₂
          (fun (e : String × String × Op) c =>
            buildOperation typeMap sf e.1 e.2.1 e.2.2 = .ok c)
          (operationEntries paths) new := by
  intro paths
  induction paths with
  | nil =>
    intro acc ops h
    simp only [pathsLoop] at h
    exact ⟨[], by simp [Except.ok.inj h], List.Forall₂.nil⟩
  | cons head rest ih =>
    obtain ⟨p, item⟩ := head
    intro acc ops h
    simp only [pathsLoop] at h
    cases h1 : pathItemLoop typeMap sf p item acc with
    | error e => simp [h1] at h
    | ok ops1 =>
      simp only [h1] at h
      obtain ⟨new1, hnew1, hall1⟩ := pathItemLoop_forall₂ _ _ _ h1
      obtain ⟨new2, hnew2, hall2⟩ := ih _ ops h
      refine ⟨new1 ++ new2, by simp [hnew2, hnew1], ?_⟩
      simp only [operationEntries, List.flatMap_cons]
      refine List.rel_append ?_ hall2
      rw [List.forall₂_map_left_iff]
      exact hall1

theorem forall₂_markLast {α : Type} {R : α → OperationContainer → Prop} {es : List α}
    {ops : List OperationContainer} (hF : List.Forall₂ R es ops) :
    ∀ last, ops.getLast? = some last →
      List.Forall₂ (fun e c => ∃ c0, R e c0 ∧ (c = c0 ∨ c = c0.markLast)) es
        (ops.dropLast ++ [last.markLast]) := by
  induction hF with
  | nil => intro last h; simp at h
  | @cons e c es' ops' hec hrest ih =>
    intro last hl
    cases ops' with
    | nil =>
      have hes : es' = [] := List.forall₂_nil_right_iff.mp hrest
      subst hes
      simp only [List.getLast?_singleton, Option.some.injEq] at hl
      subst hl
      simp only [List.dropLast_single, List.nil_append]
      exact List.Forall₂.cons ⟨c, hec, Or.inr rfl⟩ List.Forall₂.nil
    | cons c2 t =>
      have hl' : (c2 :: t).getLast? = some last := by
        rw [List.getLast?_cons_cons] at hl
        exact hl
      have := ih last hl'
      simp only [List.dropLast_cons₂, List.cons_append]
      exact List.Forall₂.cons ⟨c, hec, Or.inl rfl⟩ this

theorem transform_operations_forall₂ {env : Collaborators} {typeMap typeMap' : TypeMapName}
    {api : Document} {defaults : Obj} {ctx : Context}
    (h : transform env typeMap api defaults = (.ok ctx, typeMap')) :
    List.Forall₂
      (fun (e : String × String × Op) c =>
        ∃ c0, buildOperation typeMap' (ctx.obj.get "sortParamsByRequiredFlag").truthy
            e.1 e.2.1 e.2.2 = .ok c0 ∧ (c = c0 ∨ c = c0.markLast))
      (operationEntries ((env.deref api).paths.getD [])) ctx.operations := by
  obtain ⟨lang, -, -, hb⟩ := transform_ok h
  obtain ⟨obj0, auth, -, -, -, hops, -, -, -⟩ := buildContext_ok hb
  unfold operationsStage at hops
  cases h1 : pathsLoop typeMap' (ctx.obj.get "sortParamsByRequiredFlag").truthy
      ((env.deref api).paths.getD []) [] with
  | error e => simp [h1] at hops
  | ok ops =>
    simp only [h1] at hops
    obtain ⟨last, hl, hops'⟩ := markLastOperation_ok hops
    obtain ⟨new, hnew, hall⟩ := pathsLoop_forall₂ _ _ _ h1
    simp only [List.nil_append] at hnew
    subst hnew
    rw [hops']
    exact forall₂_markLast hall last hl

/-- C17. When `transform` returns, the context's `operations` has exactly one
record for each pair of a path `p` of the dereferenced document and a key `o` of
its path item that is none of `description`, `summary`, `parameters`, `$ref` and
does not start with `x-`, in the order of the document (paths in order, keys in
order within a path), and the record has `path = p` and `httpMethod = o`; the
other keys give no record. -/
theorem operations_per_path_and_method {env : Collaborators}
    {typeMap typeMap' : TypeMapName} {api : Document} {defaults : Obj} {ctx : Context}
    (h : transform env typeMap api defaults = (.ok ctx, typeMap')) :
    ctx.operations.map (fun c => (c.operation.path, c.operation.httpMethod)) =
      ((env.deref api).paths.getD []).flatMap (fun pathEntry =>
        (pathEntry.2.filter (fun kv =>
          !(kv.1 == "description" || kv.1 == "summary" || kv.1 == "parameters" ||
            kv.1 == "$ref" || startsWith kv.1 "x-"))).map
          (fun kv => (pathEntry.1, kv.1))) := by
  have hF := transform_operations_forall₂ h
  have hmap : ((env.deref api).paths.getD []).flatMap (fun pathEntry =>
        (pathEntry.2.filter (fun kv =>
          !(kv.1 == "description" || kv.1 == "summary" || kv.1 == "parameters" ||
            kv.1 == "$ref" || startsWith kv.1 "x-"))).map
          (fun kv => (pathEntry.1, kv.1))) =
      (operationEntries ((env.deref api).paths.getD [])).map (fun e => (e.1, e.2.1)) := by
    unfold operationEntries
    rw [List.map_flatMap]
    congr 1
    funext pathEntry
    rw [List.map_map]
    rfl
  rw [hmap]
  generalize operationEntries ((env.deref api).paths.getD []) = es at hF
  generalize ctx.operations = ops at hF ⊢
  induction hF with
  | nil => rfl
  | @cons e c es' ops' hec _ ih =>
    obtain ⟨c0, hbuild, hcc⟩ := hec
    obtain ⟨o2, objs, heq, -, -, -, -, -, -, -, hpa, hme, -, -⟩ := buildOperation_spec hbuild
    have hc0 : c0.operation.path = e.1 ∧ c0.operation.httpMethod = e.2.1 := by
      rw [heq]; exact ⟨hpa, hme⟩
    have hfields : c.operation.path = c0.operation.path ∧
        c.operation.httpMethod = c0.operation.httpMethod := by
      rcases hcc with rfl | rfl <;> exact ⟨rfl, rfl⟩
    simp only [List.map_cons, ih]
    rw [hfields.1, hfields.2, hc0.1, hc0.2]

theorem removeFirst_append (pat rest : List Char) (hpat : pat ≠ []) :
    removeFirst pat (pat ++ rest) = rest := by
  cases hpr : pat ++ rest with
  | nil =>
    exfalso
    exact hpat (List.append_eq_nil.mp hpr).1
  | cons c cs =>
    have hpre : pat.isPrefixOf (c :: cs) = true := by
      rw [← hpr, List.isPrefixOf_iff_prefix]
      exact List.prefix_append _ _
    simp only [removeFirst, hpre, if_true]
    rw [← hpr, List.drop_left]

theorem mkResponses_forall₂ :
    ∀ (rs : List (String × Response)) (entries : List ResponseEntry),
      mkResponses rs = .ok entries →
      List.Forall₂ (fun (re : String × Response) entry => mkResponse re.1 re.2 = .ok entry)
        rs entries := by
  intro rs
  induction rs with
  | nil =>
    intro entries h
    simp only [mkResponses] at h
    rw [← Except.ok.inj h]
    exact List.Forall₂.nil
  | cons head rest ih =>
    obtain ⟨r, response⟩ := head
    intro entries h
    simp only [mkResponses] at h
    cases h1 : mkResponse r response with
    | error e => simp [h1] at h
    | ok entry =>
      simp only [h1] at h
      cases h2 : mkResponses rest with
      | error e => simp [h2] at h
      | ok entries' =>
        simp only [h2] at h
        rw [← Except.ok.inj h]
        exact List.Forall₂.cons h1 (ih entries' h2)

theorem mkResponse_spec {r : String} {response : Response} {entry : ResponseEntry}
    (h : mkResponse r response = .ok entry) :
    entry.code = r ∧ entry.nickname = "response" ++ r ∧
      ∀ (first : String × MediaType) (others : List (String × MediaType)) (schema : Schema),
        response.content = some (first :: others) → first.2.schema = some schema →
        (∀ n : String, schema.xOldref = some ("#/components/schemas/" ++ n) →
          entry.dataType = some n) ∧
        (schema.xOldref = none → entry.dataType = schema.type) := by
  unfold mkResponse at h
  cases hc : response.content with
  | none =>
    simp only [hc] at h
    rw [← Except.ok.inj h]
    exact ⟨rfl, rfl, fun _ _ _ hcon => by cases hcon⟩
  | some content =>
    cases content with
    | nil => simp [hc] at h
    | cons first' others' =>
      obtain ⟨key, contentType⟩ := first'
      simp only [hc] at h
      cases hs : contentType.schema with
      | none =>
        simp only [hs] at h
        rw [← Except.ok.inj h]
        refine ⟨rfl, rfl, fun first others schema hcon hsch => ?_⟩
        simp only [Option.some.injEq, List.cons.injEq] at hcon
        rw [← hcon.1] at hsch
        rw [hs] at hsch
        cases hsch
      | some sch =>
        simp only [hs] at h
        rw [← Except.ok.inj h]
        refine ⟨rfl, rfl, fun first others schema hcon hsch => ?_⟩
        simp only [Option.some.injEq, List.cons.injEq] at hcon
        rw [← hcon.1] at hsch
        rw [hs] at hsch
        have hsame : sch = schema := Option.some.inj hsch
        subst hsame
        refine ⟨fun n hn => ?_, fun hn => ?_⟩
        · have htr : truthyS (some ("#/components/schemas/" ++ n)) = true := by
            unfold truthyS
            simp only [bne_iff_ne, ne_eq]
            intro hcon'
            have := congrArg String.length hcon'
            simp only [String.length_append] at this
            have h2 : "#/components/schemas/".length = 21 := by decide
            have h3 : "".length = 0 := rfl
            omega
          simp only [hn, htr, if_true, jsStr, String.data_append]
          rw [removeFirst_append _ _ (by decide)]
        · simp only [hn, truthyS, Bool.false_eq_true, if_false]

/-- C19. Every operation record that `transform` returns comes from an
operation `op` of the dereferenced document, and its `responses` has exactly one
entry per declared response code `r`, in iteration order, with `code = r` and
`nickname = 'response' + r`. When the response declares content whose first
content type has a schema, the entry's `dataType` is `n` if the schema's
`x-oldref` is `'#/components/schemas/' + n`, and the schema's `type` if the
schema has no `x-oldref`. -/
theorem responses_per_code {env : Collaborators} {typeMap typeMap' : TypeMapName}
    {api : Document} {defaults : Obj} {ctx : Context} {c : OperationContainer}
    (h : transform env typeMap api defaults = (.ok ctx, typeMap')) (hc : c ∈ ctx.operations) :
    ∃ (p : String) (item : PathItem) (o : String) (op : Op),
      (p, item) ∈ (env.deref api).paths.getD [] ∧ (o, op) ∈ item ∧
      c.operation.path = p ∧ c.operation.httpMethod = o ∧
      List.Forall₂
        (fun (declared : String × Response) (entry : ResponseEntry) =>
          entry.code = declared.1 ∧ entry.nickname = "response" ++ declared.1 ∧
          ∀ (first : String × MediaType) (others : List (String × MediaType))
            (schema : Schema),
            declared.2.content = some (first :: others) → first.2.schema = some schema →
            (∀ n : String, schema.xOldref = some ("#/components/schemas/" ++ n) →
              entry.dataType = some n) ∧
            (schema.xOldref = none → entry.dataType = schema.type))
        (op.responses.getD []) c.operation.responses := by
  obtain ⟨p, item, o, op, c0, hm1, hm2, -, hbuild, hcc⟩ := record_source h hc
  obtain ⟨-, hresp⟩ := buildOperation_frame hbuild
  obtain ⟨o2, objs, heq, -, -, -, -, -, -, -, hpa, hme, -, -⟩ := buildOperation_spec hbuild
  have hc0 : c0.operation.path = p ∧ c0.operation.httpMethod = o := by
    rw [heq]; exact ⟨hpa, hme⟩
  have hfields : c.operation.responses = c0.operation.responses ∧
      c.operation.path = c0.operation.path ∧
      c.operation.httpMethod = c0.operation.httpMethod := by
    rcases hcc with rfl | rfl <;> exact ⟨rfl, rfl, rfl⟩
  refine ⟨p, item, o, op, hm1, hm2, by rw [hfields.2.1, hc0.1], by rw [hfields.2.2, hc0.2], ?_⟩
  rw [hfields.1]
  exact (mkResponses_forall₂ _ _ hresp).imp (fun declared entry hd => mkResponse_spec hd)

theorem mkAuthMethod_spec {s : String} {scheme : SecurityScheme} {entry : AuthMethod}
    (h : mkAuthMethod s scheme = .ok entry) :
    entry.name = s ∧ entry.isBasic = decide (scheme.type = some "http") ∧
      entry.isOAuth = decide (scheme.type = some "oauth2") ∧
      entry.isApiKey = decide (scheme.type = some "apiKey") := by
  unfold mkAuthMethod at h
  by_cases h1 : scheme.type = some "http"
  · simp only [h1, if_true] at h
    rw [← Except.ok.inj h, h1]
    exact ⟨rfl, rfl, rfl, rfl⟩
  · by_cases h2 : scheme.type = some "oauth2"
    · simp only [h2, if_true] at h
      rw [if_neg (by decide)] at h
      rw [h2]
      split at h
      · rw [← Except.ok.inj h]; exact ⟨rfl, rfl, rfl, rfl⟩
      · cases h
      · rw [← Except.ok.inj h]; exact ⟨rfl, rfl, rfl, rfl⟩
    · by_cases h3 : scheme.type = some "apiKey"
      · simp only [h3, if_true] at h
        rw [if_neg (by decide), if_neg (by decide)] at h
        rw [← Except.ok.inj h, h3]
        exact ⟨rfl, rfl, rfl, rfl⟩
      · simp only [h1, h2, h3, if_false] at h
        rw [← Except.ok.inj h]
        simp [h1, h2, h3]

theorem mkAuthMethods_forall₂ :
    ∀ (schemes : List (String × SecurityScheme)) (entries : List AuthMethod),
      mkAuthMethods schemes = .ok entries →
      List.Forall₂ (fun (d : String × SecurityScheme) entry => mkAuthMethod d.1 d.2 = .ok entry)
        schemes entries := by
  intro schemes
  induction schemes with
  | nil =>
    intro entries h
    simp only [mkAuthMethods] at h
    rw [← Except.ok.inj h]
    exact List.Forall₂.nil
  | cons head rest ih =>
    obtain ⟨s, scheme⟩ := head
    intro entries h
    simp only [mkAuthMethods] at h
    cases h1 : mkAuthMethod s scheme with
    | error e => simp [h1] at h
    | ok entry =>
      simp only [h1] at h
      cases h2 : mkAuthMethods rest with
      | error e => simp [h2] at h
      | ok entries' =>
        simp only [h2] at h
        rw [← Except.ok.inj h]
        exact List.Forall₂.cons h1 (ih entries' h2)

theorem mkAuthMethod_other (s : String) (scheme : SecurityScheme)
    (h1 : scheme.type ≠ some "http") (h2 : scheme.type ≠ some "oauth2")
    (h3 : scheme.type ≠ some "apiKey") : mkAuthMethod s scheme = .ok { name := s } := by
  unfold mkAuthMethod
  simp only [h1, h2, h3, if_false]

/-- C20, amended. When `transform` returns on a document with
`components.securitySchemes`, `authMethods` has exactly one entry per declared
scheme, of whatever type, in declaration order and under the scheme's name. The
entry of a scheme of type `http`, `oauth2` or `apiKey` carries exactly the one
flag `isBasic`, `isOAuth` or `isApiKey` of its type; a scheme of any other type
raises no error and gets an entry that carries its name and none of the three
flags. -/
theorem authMethods_per_scheme {env : Collaborators} {typeMap typeMap' : TypeMapName}
    {api : Document} {defaults : Obj} {ctx : Context}
    (h : transform env typeMap api defaults = (.ok ctx, typeMap')) :
    (∀ (components : Components) (schemes : List (String × SecurityScheme)),
      api.components = some components → components.securitySchemes = some schemes →
      ∃ entries, ctx.authMethods = some entries ∧
        List.Forall₂
          (fun (declared : String × SecurityScheme) (entry : AuthMethod) =>
            entry.name = declared.1 ∧
            entry.isBasic = decide (declared.2.type = some "http") ∧
            entry.isOAuth = decide (declared.2.type = some "oauth2") ∧
            entry.isApiKey = decide (declared.2.type = some "apiKey"))
          schemes entries) ∧
    (∀ (s : String) (scheme : SecurityScheme), scheme.type ≠ some "http" →
      scheme.type ≠ some "oauth2" → scheme.type ≠ some "apiKey" →
      mkAuthMethod s scheme = .ok { name := s }) := by
  refine ⟨?_, mkAuthMethod_other⟩
  intro components schemes hcomp hschemes
  obtain ⟨lang, -, -, hb⟩ := transform_ok h
  obtain ⟨obj0, auth, -, hauth, -, -, -, -, hctx⟩ := buildContext_ok hb
  unfold authStage at hauth
  simp only [hcomp, hschemes] at hauth
  cases h1 : mkAuthMethods schemes with
  | error e => simp [h1] at hauth
  | ok entries =>
    simp only [h1] at hauth
    refine ⟨entries, by rw [hctx, ← Except.ok.inj hauth], ?_⟩
    exact (mkAuthMethods_forall₂ _ _ h1).imp (fun d e hd => mkAuthMethod_spec hd)

theorem typeMaps_java (type : Option String) (required : Bool) (schema : Schema) :
    typeMaps .java type required schema =
      if !required then some (jsStr type ++ "?") else type := by
  cases schema
  rw [typeMaps]

/-- C11. When `options.language` is `java`, `transform` runs with the `java`
entry of the registry. Under that entry a truthy `required` leaves the raw type
as it is and any other `required` appends one `?` to it (an absent raw type
reads `undefined` there, as under `+`); so `integer` with `required: true` stays
`integer`. The `dataType` of the object built from a declared parameter is the
parameter's raw schema type when the parameter's `required` is `true` and that
type followed by `?` otherwise, and likewise the `type` of every model variable
for the variable's `required`. -/
theorem java_nullable_mapping (env : Collaborators) (typeMap : TypeMapName)
    (api : Document) (defaults : Obj) (lang : String)
    (hlang : defaults.get "language" = .str lang) (hjava : toLowerCase lang = "java") :
    transform env typeMap api defaults = (buildContext env .java api defaults, .java) ∧
    (∀ (type : Option String) (schema : Schema), typeMaps .java type true schema = type) ∧
    (∀ (type : String) (schema : Schema),
      typeMaps .java (some type) false schema = some (type ++ "?")) ∧
    (∀ schema : Schema, typeMaps .java none false schema = some "undefined?") ∧
    typeMaps .java (Schema.ofType "integer").type (truthyB (some true))
      (Schema.ofType "integer") = some "integer" ∧
    (∀ (ctx : Context) (c : OperationContainer),
      buildContext env .java api defaults = .ok ctx → c ∈ ctx.operations →
      ∃ (p : String) (item : PathItem) (o : String) (op : Op),
        (p, item) ∈ (env.deref api).paths.getD [] ∧ (o, op) ∈ item ∧
        c.operation.path = p ∧ c.operation.httpMethod = o ∧
        ∀ (k : Nat) (q : Param), (op.parameters.getD [])[k]? = some q →
          ∃ sch prm, q.schema = some sch ∧ c.operation.param k = some prm ∧
            (q.required = some true → prm.dataType = sch.type) ∧
            (q.required ≠ some true → prm.dataType = some (jsStr sch.type ++ "?"))) ∧
    (∀ ctx : Context, buildContext env .java api defaults = .ok ctx →
      List.Forall₂
        (fun (named : String × Schema) (m : ModelContainer) =>
          ∀ var ∈ m.model.vars, ∃ v ∈ walkSchema named.2,
            (var.required = some true → var.type = v.schema.type) ∧
            (var.required ≠ some true → var.type = some (jsStr v.schema.type ++ "?")))
        (declaredSchemas (env.deref api)) ctx.models) := by
  have hsel : (lookupTypeMap (toLowerCase lang)).getD typeMap = .java := by
    rw [hjava]; rfl
  have htr : transform env typeMap api defaults =
      (buildContext env .java api defaults, .java) := by
    rw [transform_of_language env typeMap api defaults lang hlang, hsel]
  have hreq : ∀ (r : Option Bool) (type : Option String) (schema : Schema),
      (r = some true → typeMaps .java type (truthyB r) schema = type) ∧
      (r ≠ some true → typeMaps .java type (truthyB r) schema = some (jsStr type ++ "?")) := by
    intro r type schema
    constructor
    · intro hr
      rw [hr, typeMaps_java]; rfl
    · intro hr
      have : truthyB r = false := by
        cases r with
        | none => rfl
        | some b =>
          cases b with
          | false => rfl
          | true => exact absurd rfl hr
      rw [this, typeMaps_java]; rfl
  refine ⟨htr, fun _ _ => by rw [typeMaps_java]; rfl, fun _ _ => by rw [typeMaps_java]; rfl,
    fun _ => by rw [typeMaps_java]; rfl, rfl, ?_, ?_⟩
  · intro ctx c hctx hc
    have h : transform env typeMap api defaults = (.ok ctx, .java) := by
      rw [htr, hctx]
    obtain ⟨p, item, o, op, objs, store0, hm1, hm2, -, hpa, hme, hF, -, hstore, -, -, -, -,
      hnone, hsome⟩ := record_spec h hc
    obtain ⟨-, -, hget⟩ := store0_facts hF hnone hsome
    refine ⟨p, item, o, op, hm1, hm2, hpa, hme, fun k q hq => ?_⟩
    obtain ⟨sch, hsch, hobj⟩ := hget k q hq
    obtain ⟨prm, hprm, hor⟩ := record_param hstore k _ hobj
    have hdt : prm.dataType = typeMaps .java sch.type (truthyB q.required) sch := by
      rcases hor with rfl | rfl <;> rfl
    refine ⟨sch, prm, hsch, hprm, ?_, ?_⟩
    · intro hr; rw [hdt]; exact (hreq _ _ _).1 hr
    · intro hr; rw [hdt]; exact (hreq _ _ _).2 hr
  · intro ctx hctx
    have h : transform env typeMap api defaults = (.ok ctx, .java) := by
      rw [htr, hctx]
    refine (transform_models h).imp (fun named m hm => ?_)
    obtain ⟨-, hvars⟩ := buildModel_ok hm
    intro var hvar
    obtain ⟨v, hv, -, hcb⟩ := collectVars_mem _ _ hvars var hvar
    have hvt : var.type = typeMaps .java v.schema.type (truthyB var.required) v.schema := by
      rw [callback_some hcb]; rfl
    refine ⟨v, hv, ?_, ?_⟩
    · intro hr; rw [hvt]; exact (hreq _ _ _).1 hr
    · intro hr; rw [hvt]; exact (hreq _ _ _).2 hr

theorem typeMaps_nop (type : Option String) (required : Bool) (schema : Schema) :
    typeMaps .nop type required schema = type := by
  cases schema
  rw [typeMaps]

theorem lookupTypeMap_of_not_truthy (lang : String) (h : lang ∉ truthyRegistryKeys) :
    lookupTypeMap lang = none := by
  simp only [truthyRegistryKeys, List.mem_cons, List.mem_singleton, List.not_mem_nil, or_false,
    not_or] at h
  obtain ⟨h1, h2, h3, h4, -, -⟩ := h
  simp only [lookupTypeMap, h1, h2, h3, h4, if_false]

/-- C12. A call of `transform` whose `language` is absent, or lower-cases to a
string at which the read `typeMaps[lang]` is not truthy (none of the four own
keys of the registry and none of the inherited `constructor` and `__proto__`),
does not assign the variable `typeMap` of the module: it builds its context
with the mapping that the variable holds when the call starts and leaves that
mapping behind. On a fresh module this is the identity; after a call with
`language: java` it is the `java` mapping, under which a parameter or property
that is not required gets its raw type followed by `?`. -/
theorem typeMap_kept_when_language_unknown (env : Collaborators) (previous : TypeMapName)
    (api : Document) (defaults : Obj) (lang : String)
    (hlang : languageOf defaults = .ok lang) (hunknown : lang ∉ truthyRegistryKeys) :
    transform env previous api defaults = (buildContext env previous api defaults, previous) ∧
    (∀ (earlier : Document) (options : Obj) (before : TypeMapName) (l : String),
      options.get "language" = .str l → toLowerCase l = "java" →
      transform env (transform env before earlier options).2 api defaults =
        (buildContext env .java api defaults, .java)) ∧
    (∀ (type : Option String) (required : Bool) (schema : Schema),
      typeMaps .nop type required schema = type) ∧
    (∀ (type : String) (schema : Schema),
      typeMaps .java (some type) false schema = some (type ++ "?")) := by
  have hnone := lookupTypeMap_of_not_truthy lang hunknown
  have hkeep : ∀ t : TypeMapName,
      transform env t api defaults = (buildContext env t api defaults, t) := by
    intro t
    unfold transform
    rw [hlang]
    simp only [hnone, Option.getD_none]
  refine ⟨hkeep previous, ?_, typeMaps_nop, fun _ _ => by rw [typeMaps_java]; rfl⟩
  intro earlier options before l hl hj
  have h1 : (transform env before earlier options).2 = .java := by
    rw [transform_of_language env before earlier options l hl, hj]
    rfl
  rw [h1]
  exact hkeep .java

theorem splitChars_ne_nil (sep : Char) (cs : List Char) : splitChars sep cs ≠ [] := by
  cases cs with
  | nil => simp [splitChars]
  | cons c cs =>
    rw [splitChars]
    split
    · simp
    · split <;> simp

theorem splitChars_no_sep (sep : Char) (cs : List Char) (h : sep ∉ cs) :
    splitChars sep cs = [cs] := by
  induction cs with
  | nil => rfl
  | cons c cs ih =>
    have hc : c ≠ sep := fun e => h (e ▸ List.mem_cons_self _ _)
    have hcs : sep ∉ cs := fun m => h (List.mem_cons_of_mem _ m)
    rw [splitChars, if_neg hc, ih hcs]

theorem splitChars_append (sep : Char) (pre rest : List Char) (h : sep ∉ pre) :
    splitChars sep (pre ++ sep :: rest) = pre :: splitChars sep rest := by
  induction pre with
  | nil => simp [splitChars]
  | cons c cs ih =>
    have hc : c ≠ sep := fun e => h (e ▸ List.mem_cons_self _ _)
    have hcs : sep ∉ cs := fun m => h (List.mem_cons_of_mem _ m)
    rw [List.cons_append, splitChars, if_neg hc, ih hcs]

theorem entryName_of_property (schema : Schema) (k : String)
    (hno : truthyS (orElseS schema.name schema.title) = false) :
    entryName schema (some ("properties/" ++ k)) =
      ((splitChars '/' k.data).head?).map String.mk := by
  have hdata : ("properties/" ++ k).data = "properties".data ++ '/' :: k.data := by
    rw [String.data_append]; rfl
  have htruthy : truthyS (some ("properties/" ++ k)) = true := by
    simp only [truthyS, bne_iff_ne, ne_eq]
    intro e
    have := congrArg String.data e
    rw [hdata] at this
    cases this
  have hstart : startsWith (jsStr (some ("properties/" ++ k))) "properties" = true := by
    simp only [startsWith, jsStr, hdata]
    exact List.isPrefixOf_iff_prefix.mpr (List.prefix_append _ _)
  unfold entryName
  simp only [hno, htruthy, hstart, Bool.not_false, Bool.true_and, Bool.true_or, if_true]
  simp only [splitAt, jsStr, hdata]
  rw [splitChars_append '/' _ _ (by decide)]
  cases hs : splitChars '/' k.data with
  | nil => exact absurd hs (splitChars_ne_nil _ _)
  | cons seg segs => rfl

/-- C18. In the callback a node with a non-empty `name` gets that name, and a
node without one but with a non-empty `title` gets the title. A node with
neither, visited with `state.property = 'properties/' + k`, is named
`state.property.split('/')[1]`: that is `k` when `k` contains no `/`, but only
the part of `k` before its first `/` when it contains one. -/
theorem property_name_is_second_segment (schema : Schema) (k : String)
    (hno : truthyS (orElseS schema.name schema.title) = false) :
    ('/' ∉ k.data → entryName schema (some ("properties/" ++ k)) = some k) ∧
    (∀ a b : String, '/' ∉ a.data → k = a ++ "/" ++ b →
      entryName schema (some ("properties/" ++ k)) = some a) ∧
    (∀ (named : Schema) (property : Option String), truthyS named.name = true →
      entryName named property = named.name) ∧
    (∀ (titled : Schema) (property : Option String), truthyS titled.name = false →
      truthyS titled.title = true → entryName titled property = titled.title) := by
  refine ⟨fun h => ?_, fun a b ha hk => ?_, fun named property hn => ?_,
    fun titled property hn ht => ?_⟩
  · rw [entryName_of_property schema k hno, splitChars_no_sep _ _ h]
    rfl
  · have hdata : k.data = a.data ++ '/' :: b.data := by
      rw [hk, String.data_append, String.data_append, List.append_assoc]; rfl
    rw [entryName_of_property schema k hno, hdata, splitChars_append _ _ _ ha]
    rfl
  · unfold entryName
    simp only [orElseS, hn, if_true, Bool.not_true, Bool.false_and, Bool.false_eq_true,
      if_false]
  · unfold entryName
    simp only [orElseS, hn, ht, Bool.false_eq_true, if_false, Bool.not_true, Bool.false_and]

theorem splitAt_zero_of_plain (k : String) (h : '/' ∉ k.data) : splitAt k '/' 0 = some k := by
  unfold splitAt
  rw [splitChars_no_sep _ _ h]
  rfl

theorem filter_plain_properties (properties : List (String × Schema))
    (hkeys : ∀ kv ∈ properties, kv.1 ≠ "" ∧ '/' ∉ kv.1.data) :
    properties.filter (fun kv =>
      truthyS (orElseS kv.2.name kv.2.title) || truthyS (splitAt kv.1 '/' 0)) = properties := by
  rw [List.filter_eq_self]
  intro kv hkv
  obtain ⟨hne, hplain⟩ := hkeys kv hkv
  have hkey : truthyS (splitAt kv.1 '/' 0) = true := by
    rw [splitAt_zero_of_plain _ hplain]
    simp only [truthyS, bne_iff_ne, ne_eq]
    exact hne
  rw [hkey, Bool.or_true]

theorem mkVariable_property_name (typeMap : TypeMapName) (parent schema : Schema) (k : String)
    (hplain : '/' ∉ k.data) :
    (mkVariable typeMap
      { schema := schema, parent := parent, depth := 1,
        property := some ("properties/" ++ k) }).name =
      if truthyS (orElseS schema.name schema.title) then orElseS schema.name schema.title
      else some k := by
  show entryName schema (some ("properties/" ++ k)) = _
  by_cases hn : truthyS (orElseS schema.name schema.title) = true
  · rw [if_pos hn]
    unfold entryName
    simp only [hn, Bool.not_true, Bool.false_and, Bool.false_eq_true, if_false]
  · have hn' : truthyS (orElseS schema.name schema.title) = false := by simpa using hn
    rw [if_neg hn, entryName_of_property schema k hn', splitChars_no_sep _ _ hplain]
    rfl

/-- C8, amended. When `transform` returns, the context's `models` has one model
per named schema of the dereferenced document, in order and under the schema's
name. For a schema whose property keys are non-empty and contain no `/`, the
model's `vars` holds, in this order and nothing else: an entry for the schema
root when the root has a non-empty `name` or `title`; an entry for its `items`
schema when that has a non-empty `name` or `title`; an entry for its
`additionalProperties` schema when that has a non-empty `name` or `title`; and
exactly one entry for each key of the root's `properties`, in their order, named
by the property's non-empty `name` or `title` and by its key otherwise. -/
theorem model_vars_shallow {env : Collaborators} {typeMap typeMap' : TypeMapName}
    {api : Document} {defaults : Obj} {ctx : Context}
    (h : transform env typeMap api defaults = (.ok ctx, typeMap')) :
    List.Forall₂
      (fun (named : String × Schema) (m : ModelContainer) =>
        m.model.name = named.1 ∧
        ((∀ kv ∈ named.2.properties.getD [], kv.1 ≠ "" ∧ '/' ∉ kv.1.data) →
          m.model.vars =
            (if truthyS (orElseS named.2.name named.2.title) then
                [mkVariable typeMap'
                  { schema := named.2, parent := Schema.empty, depth := 0, property := none }]
              else []) ++
            ((match named.2.items with
              | some sub =>
                if truthyS (orElseS sub.name sub.title) then
                  [mkVariable typeMap'
                    { schema := sub, parent := named.2, depth := 1, property := some "items" }]
                else []
              | none => []) ++
            ((match named.2.additionalProperties with
              | some sub =>
                if truthyS (orElseS sub.name sub.title) then
                  [mkVariable typeMap'
                    { schema := sub, parent := named.2, depth := 1,
                      property := some "additionalProperties" }]
                else []
              | none => []) ++
            (named.2.properties.getD []).map
              (fun kv => mkVariable typeMap'
                { schema := kv.2, parent := named.2, depth := 1,
                  property := some ("properties/" ++ kv.1) }))) ∧
          ∀ kv ∈ named.2.properties.getD [],
            (mkVariable typeMap'
              { schema := kv.2, parent := named.2, depth := 1,
                property := some ("properties/" ++ kv.1) }).name =
              if truthyS (orElseS kv.2.name kv.2.title) then orElseS kv.2.name kv.2.title
              else some kv.1))
      (declaredSchemas (env.deref api)) ctx.models := by
  refine (transform_models h).imp (fun named m hm => ?_)
  obtain ⟨hname, hvars⟩ := buildModel_ok hm
  refine ⟨hname, fun hkeys => ⟨?_, fun kv hkv => ?_⟩⟩
  · have hall := collectVars_walkSchema hvars
    rw [filter_plain_properties _ hkeys] at hall
    exact hall
  · exact mkVariable_property_name typeMap' named.2 kv.2 kv.1 (hkeys kv hkv).2

/-! ## Errors and the body parameter -/

theorem pathItemLoop_all_skipped (typeMap : TypeMapName) (sf : Bool) (p : String) :
    ∀ (item : List (String × Op)) (ops : List OperationContainer),
      (∀ kv ∈ item, isSkippedKey kv.1 = true) →
      pathItemLoop typeMap sf p item ops = .ok ops := by
  intro item
  induction item with
  | nil => intro ops _; rfl
  | cons kv rest ih =>
    intro ops hall
    obtain ⟨o, op⟩ := kv
    have ho : isSkippedKey o = true := hall (o, op) (List.mem_cons_self _ _)
    rw [pathItemLoop, if_pos ho]
    exact ih ops (fun kv hkv => hall kv (List.mem_cons_of_mem _ hkv))

theorem pathsLoop_all_skipped (typeMap : TypeMapName) (sf : Bool) :
    ∀ (paths : List (String × PathItem)) (ops : List OperationContainer),
      (∀ pathEntry ∈ paths, ∀ kv ∈ pathEntry.2, isSkippedKey kv.1 = true) →
      pathsLoop typeMap sf paths ops = .ok ops := by
  intro paths
  induction paths with
  | nil => intro ops _; rfl
  | cons pathEntry rest ih =>
    intro ops hall
    obtain ⟨p, item⟩ := pathEntry
    rw [pathsLoop, pathItemLoop_all_skipped typeMap sf p item ops
      (hall (p, item) (List.mem_cons_self _ _))]
    exact ih ops (fun pe hpe => hall pe (List.mem_cons_of_mem _ hpe))

theorem operationsStage_all_skipped (typeMap : TypeMapName) (sf : Bool) (api : Document)
    (hall : ∀ pathEntry ∈ api.paths.getD [], ∀ kv ∈ pathEntry.2, isSkippedKey kv.1 = true) :
    operationsStage typeMap sf api =
      .error "TypeError: Cannot read property 'operation' of undefined" := by
  unfold operationsStage
  rw [pathsLoop_all_skipped typeMap sf _ [] hall]
  rfl

/-- C21. When the dereferenced document gives no operation record (`paths` is
absent or empty, or every key of every path item is a skipped one), the loop
over the paths ends with the empty list, the reset of the last operation's
`hasMore` raises a TypeError on it, and `transform` raises an error whatever
the options and the validator are: it never returns a context with an empty
`operations`. When the stages before the loop pass, the error that `transform`
raises is that TypeError. -/
theorem no_operation_raises (env : Collaborators) (typeMap : TypeMapName) (api : Document)
    (defaults : Obj)
    (hnone : ∀ pathEntry ∈ (env.deref api).paths.getD [], ∀ kv ∈ pathEntry.2,
      isSkippedKey kv.1 = true) :
    (∃ e, (transform env typeMap api defaults).1 = .error e) ∧
    (∀ (mapping : TypeMapName) (sf : Bool),
      pathsLoop mapping sf ((env.deref api).paths.getD []) [] = .ok [] ∧
      operationsStage mapping sf (env.deref api) =
        .error "TypeError: Cannot read property 'operation' of undefined") ∧
    markLastOperation [] = .error "TypeError: Cannot read property 'operation' of undefined" ∧
    (∀ (lang : String) (obj obj' : Obj) (authMethods : Option (List AuthMethod)),
      languageOf defaults = .ok lang → contextObj env api defaults = .ok obj →
      authStage api = .ok authMethods →
      serverStage env (env.deref api)
        (if authMethods.isSome then Obj.set obj "hasAuthMethods" (.bool true) else obj) =
          .ok obj' →
      (transform env typeMap api defaults).1 =
        .error "TypeError: Cannot read property 'operation' of undefined") := by
  have hops := fun (mapping : TypeMapName) (sf : Bool) =>
    operationsStage_all_skipped mapping sf (env.deref api) hnone
  refine ⟨?_,
    fun mapping sf => ⟨pathsLoop_all_skipped mapping sf _ [] hnone, hops mapping sf⟩, rfl, ?_⟩
  · unfold transform
    cases languageOf defaults with
    | error e => exact ⟨e, rfl⟩
    | ok lang =>
      simp only
      unfold buildContext
      cases contextObj env api defaults with
      | error e => exact ⟨e, rfl⟩
      | ok obj =>
        simp only
        cases authStage api with
        | error e => exact ⟨e, rfl⟩
        | ok authMethods =>
          simp only
          cases serverStage env (env.deref api)
              (if authMethods.isSome then Obj.set obj "hasAuthMethods" (.bool true)
                else obj) with
          | error e => exact ⟨e, rfl⟩
          | ok obj' =>
            simp only [hops]
            exact ⟨_, rfl⟩
  · intro lang obj obj' authMethods hl hobj hauth hserver
    unfold transform
    simp only [hl]
    unfold buildContext
    simp only [hobj, hauth, hserver, hops]
theorem addBodyParam_filled {o o' : Operation} {rb : RequestBody}
    (h : addBodyParam o (some rb) = .ok o') :
    ∃ bp : Parameter, o'.store = o.store ++ [bp] ∧ o'.bodyParam = some o.store.length ∧
      o'.bodyParams = some [o.store.length] ∧
      bp.isBodyParam = true ∧ bp.paramName = some "body" ∧ bp.dataType = some "object" ∧
      (rb.content = none → bp.type = none) ∧
      (∀ (first : String × MediaType) (others : List (String × MediaType)),
        rb.content = some (first :: others) →
        ∃ schema, first.2.schema = some schema ∧ bp.schema = some schema ∧
          bp.type = if truthyS schema.type then schema.type else none) := by
  simp only [addBodyParam] at h
  split at h
  · simp at h
  · rename_i bp hfilled
    injection h with h
    subst h
    refine ⟨bp, rfl, rfl, rfl, ?_⟩
    split at hfilled
    · rename_i hcontent
      injection hfilled with hfilled
      subst hfilled
      refine ⟨rfl, rfl, rfl, fun _ => rfl, fun first others hc => ?_⟩
      rw [hcontent] at hc
      cases hc
    · simp at hfilled
    · rename_i name contentType rest hcontent
      split at hfilled
      · simp at hfilled
      · rename_i schema hschema
        injection hfilled with hfilled
        subst hfilled
        refine ⟨rfl, rfl, rfl, fun hc => ?_, fun first others hc => ?_⟩
        · rw [hcontent] at hc
          cases hc
        · rw [hcontent] at hc
          injection hc with hc
          injection hc with hfirst hothers
          subst hfirst
          exact ⟨schema, hschema, rfl, rfl⟩

theorem buildOperation_body {typeMap : TypeMapName} {sf : Bool} {p o : String} {op : Op}
    {c : OperationContainer} {rb : RequestBody}
    (h : buildOperation typeMap sf p o op = .ok c) (hrb : op.requestBody = some rb) :
    ∃ (r : Nat) (bp prm : Parameter),
      c.operation.bodyParam = some r ∧ c.operation.bodyParams = some [r] ∧
      c.operation.param r = some prm ∧ (prm = bp ∨ prm = { bp with hasMore := false }) ∧
      bp.isBodyParam = true ∧ bp.paramName = some "body" ∧ bp.dataType = some "object" ∧
      (rb.content = none → bp.type = none) ∧
      (∀ (first : String × MediaType) (others : List (String × MediaType)),
        rb.content = some (first :: others) →
        ∃ schema, first.2.schema = some schema ∧ bp.schema = some schema ∧
          bp.type = if truthyS schema.type then schema.type else none) := by
  unfold buildOperation at h
  cases h1 : addParameters typeMap (newOperation p o op) (op.parameters.getD []) with
  | error e => simp [h1] at h
  | ok withParams =>
    simp only [h1] at h
    cases h2 : addBodyParam withParams op.requestBody with
    | error e => simp [h2] at h
    | ok withBody =>
      simp only [h2] at h
      cases h3 : mkResponses (op.responses.getD []) with
      | error e => simp [h3] at h
      | ok responses =>
        simp only [h3] at h
        rw [hrb] at h2
        obtain ⟨bp, hstore, hb, hbs, hfacts⟩ := addBodyParam_filled h2
        have hc := (Except.ok.inj h).symm
        have hget : withBody.store[withParams.store.length]? = some bp := by
          rw [hstore]
          simp
        obtain ⟨prm, hprm, hor⟩ := record_param
          (rfl : (sortAndMarkLast sf { withBody with
              tags := op.tags, imports := op.tags, responses := responses }).store = _)
          withParams.store.length bp hget
        refine ⟨withParams.store.length, bp, prm, ?_, ?_, ?_, hor, hfacts⟩
        · rw [hc]; exact hb
        · rw [hc]; exact hbs
        · rw [hc]; exact hprm
/-- C22. Every operation record that `transform` returns comes from an
operation `op` of the dereferenced document, and when `op` declares a
`requestBody` the record's `bodyParam` is an object of its parameter store with
`dataType = 'object'`, under every type mapping and whatever the content
declares. Its `type` is unset when the request body has no `content`; otherwise
the first content type has a schema, which becomes the `schema` of the body
parameter, and `type` is that schema's raw `type` when it is a non-empty string
and unset when it is not. -/
theorem bodyParam_dataType_object {env : Collaborators} {typeMap typeMap' : TypeMapName}
    {api : Document} {defaults : Obj} {ctx : Context} {c : OperationContainer}
    (h : transform env typeMap api defaults = (.ok ctx, typeMap')) (hc : c ∈ ctx.operations) :
    ∃ (p : String) (item : PathItem) (o : String) (op : Op),
      (p, item) ∈ (env.deref api).paths.getD [] ∧ (o, op) ∈ item ∧
      c.operation.path = p ∧ c.operation.httpMethod = o ∧
      ∀ rb, op.requestBody = some rb →
        ∃ (r : Nat) (prm : Parameter),
          c.operation.bodyParam = some r ∧ c.operation.bodyParams = some [r] ∧
          c.operation.param r = some prm ∧
          prm.isBodyParam = true ∧ prm.paramName = some "body" ∧
          prm.dataType = some "object" ∧
          (rb.content = none → prm.type = none) ∧
          (∀ (first : String × MediaType) (others : List (String × MediaType)),
            rb.content = some (first :: others) →
            ∃ schema, first.2.schema = some schema ∧ prm.schema = some schema ∧
              (truthyS schema.type = true → prm.type = schema.type) ∧
              (truthyS schema.type = false → prm.type = none)) := by
  obtain ⟨p, item, o, op, c0, hm1, hm2, -, hbuild, hcc⟩ := record_source h hc
  obtain ⟨o2, objs, heq, -, -, -, -, -, -, -, hpa, hme, -, -⟩ := buildOperation_spec hbuild
  have hc0 : c0.operation.path = p ∧ c0.operation.httpMethod = o := by
    rw [heq]; exact ⟨hpa, hme⟩
  have hfields : c.operation.path = c0.operation.path ∧
      c.operation.httpMethod = c0.operation.httpMethod ∧
      c.operation.bodyParam = c0.operation.bodyParam ∧
      c.operation.bodyParams = c0.operation.bodyParams ∧
      c.operation.store = c0.operation.store := by
    rcases hcc with rfl | rfl <;> exact ⟨rfl, rfl, rfl, rfl, rfl⟩
  obtain ⟨fpa, fme, fb, fbs, fs⟩ := hfields
  refine ⟨p, item, o, op, hm1, hm2, by rw [fpa, hc0.1], by rw [fme, hc0.2], fun rb hrb => ?_⟩
  obtain ⟨r, bp, prm, hb, hbs, hprm, hor, hbody, hname, hdt, hnone, hsome⟩ :=
    buildOperation_body hbuild hrb
  have hsame : prm.isBodyParam = bp.isBodyParam ∧ prm.paramName = bp.paramName ∧
      prm.dataType = bp.dataType ∧ prm.type = bp.type ∧ prm.schema = bp.schema := by
    rcases hor with rfl | rfl <;> exact ⟨rfl, rfl, rfl, rfl, rfl⟩
  obtain ⟨s1, s2, s3, s4, s5⟩ := hsame
  refine ⟨r, prm, by rw [fb, hb], by rw [fbs, hbs], ?_, by rw [s1, hbody], by rw [s2, hname],
    by rw [s3, hdt], fun hcontent => by rw [s4, hnone hcontent], fun first others hcontent => ?_⟩
  · unfold Operation.param at hprm ⊢
    rw [fs]; exact hprm
  · obtain ⟨schema, hschema, hbs', hty⟩ := hsome first others hcontent
    refine ⟨schema, hschema, by rw [s5, hbs'], fun ht => ?_, fun ht => ?_⟩
    · rw [s4, hty, if_pos ht]
    · rw [s4, hty, ht]; rfl
theorem forall₂_exists_of_mem {α β : Type} {R : α → β → Prop} {l : List α} {l' : List β}
    (hF : List.Forall₂ R l l') {a : α} (ha : a ∈ l) : ∃ b ∈ l', R a b := by
  induction hF with
  | nil => cases ha
  | @cons x y xs ys hxy _ ih =>
    rcases List.mem_cons.mp ha with rfl | hmem
    · exact ⟨y, List.mem_cons_self _ _, hxy⟩
    · obtain ⟨b, hb, hr⟩ := ih hmem
      exact ⟨b, List.mem_cons_of_mem _ hb, hr⟩

theorem mem_operationEntries {paths : List (String × PathItem)} {p : String} {item : PathItem}
    {o : String} {op : Op} (hp : (p, item) ∈ paths) (ho : (o, op) ∈ item)
    (hkey : isSkippedKey o = false) : (p, o, op) ∈ operationEntries paths := by
  unfold operationEntries
  rw [List.mem_flatMap]
  refine ⟨(p, item), hp, ?_⟩
  rw [List.mem_map]
  refine ⟨(o, op), ?_, rfl⟩
  rw [List.mem_filter]
  exact ⟨ho, by simp [hkey]⟩

theorem transform_builds_operation {env : Collaborators} {typeMap typeMap' : TypeMapName}
    {api : Document} {defaults : Obj} {ctx : Context}
    (h : transform env typeMap api defaults = (.ok ctx, typeMap'))
    {p : String} {item : PathItem} {o : String} {op : Op}
    (hp : (p, item) ∈ (env.deref api).paths.getD []) (ho : (o, op) ∈ item)
    (hkey : isSkippedKey o = false) :
    ∃ c0, buildOperation typeMap' (ctx.obj.get "sortParamsByRequiredFlag").truthy p o op =
      .ok c0 := by
  obtain ⟨c, -, c0, hbuild, -⟩ :=
    forall₂_exists_of_mem (transform_operations_forall₂ h) (mem_operationEntries hp ho hkey)
  exact ⟨c0, hbuild⟩

/-- C23. When the dereferenced document has an operation (a key of a path item
that is not skipped) with a declared parameter without `schema`, or with a
request body whose first content type has no `schema`, `transform` raises an
error and returns no context, whatever the options are and whatever the
validator answers. The loop over the parameters raises a TypeError at such a
parameter, and the body parameter synthesis at such a request body. -/
theorem missing_schema_raises (env : Collaborators) (typeMap : TypeMapName) (api : Document)
    (defaults : Obj) (p : String) (item : PathItem) (o : String) (op : Op)
    (hp : (p, item) ∈ (env.deref api).paths.getD []) (ho : (o, op) ∈ item)
    (hkey : isSkippedKey o = false)
    (hmissing : (∃ q ∈ op.parameters.getD [], q.schema = none) ∨
      (∃ (rb : RequestBody) (first : String × MediaType) (others : List (String × MediaType)),
        op.requestBody = some rb ∧ rb.content = some (first :: others) ∧
        first.2.schema = none)) :
    (∃ e, (transform env typeMap api defaults).1 = .error e) ∧
    (∀ validator : Document → JVal → Validation,
      ∃ e, (transform { env with validator := validator } typeMap api defaults).1 = .error e) ∧
    (∀ (mapping : TypeMapName) (operation : Operation) (q : Param), q.schema = none →
      addParameter mapping operation q =
        .error "TypeError: Cannot read property 'type' of undefined") ∧
    (∀ (operation : Operation) (rb : RequestBody) (first : String × MediaType)
      (others : List (String × MediaType)),
      rb.content = some (first :: others) → first.2.schema = none →
      addBodyParam operation (some rb) =
        .error "TypeError: Cannot read property 'type' of undefined") := by
  have hraise : ∀ env' : Collaborators, env'.deref = env.deref →
      ∃ e, (transform env' typeMap api defaults).1 = .error e := by
    intro env' hderef
    cases hres : (transform env' typeMap api defaults).1 with
    | error e => exact ⟨e, rfl⟩
    | ok ctx =>
      exfalso
      have h : transform env' typeMap api defaults =
          (.ok ctx, (transform env' typeMap api defaults).2) := by
        rw [← hres]
      have hp' : (p, item) ∈ (env'.deref api).paths.getD [] := by rw [hderef]; exact hp
      obtain ⟨c0, hbuild⟩ := transform_builds_operation h hp' ho hkey
      rcases hmissing with ⟨q, hq, hnone⟩ | ⟨rb, first, others, hrb, hcontent, hnone⟩
      · obtain ⟨o2, objs, -, hF, -⟩ := buildOperation_spec hbuild
        obtain ⟨obj, -, sch, hsch, -⟩ := forall₂_exists_of_mem hF hq
        rw [hnone] at hsch
        cases hsch
      · obtain ⟨r, bp, prm, -, -, -, -, -, -, -, -, hsome⟩ := buildOperation_body hbuild hrb
        obtain ⟨schema, hschema, -⟩ := hsome first others hcontent
        rw [hnone] at hschema
        cases hschema
  refine ⟨hraise env rfl, fun validator => hraise _ rfl, ?_, ?_⟩
  · intro mapping operation q hq
    unfold addParameter
    rw [hq]
  · intro operation rb first others hcontent hnone
    obtain ⟨name, contentType⟩ := first
    simp only at hnone
    simp only [addBodyParam, hcontent, hnone]

/-! ## The claims on the sample document -/

theorem sample_transform :
    transform sampleEnv .nop sampleDoc [] = (.ok sampleContext, .nop) := rfl

theorem sampleRecord_mem : sampleRecord ∈ sampleContext.operations :=
  List.getElem?_mem (rfl : sampleContext.operations[0]? = some sampleRecord)

/-- C1, counterexample. On the sample document `get /pets/{id}` declares a
request body; its record has `allParams = [id, body, limit, session]` (the
references 1, 3, 0, 2), so that the body parameter, reference 3, is not the
last element. -/
theorem bodyParam_last_counterexample :
    transform sampleEnv .nop sampleDoc [] = (.ok sampleContext, .nop) ∧
    sampleContext.operations[0]? = some sampleRecord ∧
    sampleGet.requestBody.isSome = true ∧
    sampleRecord.operation.bodyParam = some 3 ∧
    sampleRecord.operation.allParams = [1, 3, 0, 2] ∧
    sampleRecord.operation.allParams.getLast? = some 2 ∧
    sampleRecord.operation.allParams.getLast? ≠ sampleRecord.operation.bodyParam :=
  ⟨rfl, rfl, rfl, rfl, rfl, rfl, by decide⟩

/-- C1, witness: the amended statement on the record of `get /pets/{id}` of the
sample document. -/
theorem bodyParam_last_iff_witness :
    transform sampleEnv .nop sampleDoc [] = (.ok sampleContext, .nop) ∧
    sampleRecord ∈ sampleContext.operations ∧
    ∃ (p : String) (item : PathItem) (o : String) (op : Op),
      (p, item) ∈ (sampleEnv.deref sampleDoc).paths.getD [] ∧ (o, op) ∈ item ∧
      sampleRecord.operation.path = p ∧ sampleRecord.operation.httpMethod = o ∧
      ∀ rb, op.requestBody = some rb →
        ∃ b, sampleRecord.operation.bodyParam = some b ∧
          (sampleRecord.operation.allParams.getLast? = some b ↔
            ((sampleContext.obj.get "sortParamsByRequiredFlag").truthy = false ∨
              truthyB rb.required = false ∨
              ∀ q ∈ op.parameters.getD [], truthyB q.required = true)) :=
  ⟨sample_transform, sampleRecord_mem, bodyParam_last_iff sample_transform sampleRecord_mem⟩

/-- C2, witness: on the sample document the required `id` (index 0 of
`allParams`) stands before the optional `limit` (index 2). -/
theorem required_before_optional_witness :
    transform sampleEnv .nop sampleDoc [] = (.ok sampleContext, .nop) ∧
    Obj.has [] "sortParamsByRequiredFlag" = false ∧
    sampleRecord ∈ sampleContext.operations ∧
    sampleRecord.operation.allParams[0]? = some 1 ∧
    sampleRecord.operation.allParams[2]? = some 0 ∧
    sampleRecord.operation.param 1 = some (mkParameter .nop
      { name := some "id", «in» := some "path", required := some true,
        schema := some (Schema.ofType "string") } (Schema.ofType "string")) ∧
    sampleRecord.operation.param 0 = some (mkParameter .nop
      { name := some "limit", «in» := some "query", schema := some (Schema.ofType "integer") }
      (Schema.ofType "integer")) ∧
    0 < 2 :=
  ⟨sample_transform, rfl, sampleRecord_mem, rfl, rfl, rfl, rfl,
    required_before_optional sample_transform rfl sampleRecord_mem 0 2 1 0
      (mkParameter .nop
        { name := some "id", «in» := some "path", required := some true,
          schema := some (Schema.ofType "string") } (Schema.ofType "string"))
      (mkParameter .nop
        { name := some "limit", «in» := some "query",
          schema := some (Schema.ofType "integer") } (Schema.ofType "integer"))
      rfl rfl rfl rfl rfl (Or.inr rfl)⟩

/-- C3, witness: the statement on the record of `get /pets/{id}` of the sample
document. -/
theorem allParams_stable_perm_witness :
    transform sampleEnv .nop sampleDoc [] = (.ok sampleContext, .nop) ∧
    sampleRecord ∈ sampleContext.operations ∧
    ∃ (p : String) (item : PathItem) (o : String) (op : Op),
      (p, item) ∈ (sampleEnv.deref sampleDoc).paths.getD [] ∧ (o, op) ∈ item ∧
      sampleRecord.operation.path = p ∧ sampleRecord.operation.httpMethod = o ∧
      sampleRecord.operation.allParams.Perm (List.range
        ((op.parameters.getD []).length + (if op.requestBody.isSome then 1 else 0))) ∧
      (∀ (k : Nat) (q : Param), (op.parameters.getD [])[k]? = some q →
        ∃ prm, sampleRecord.operation.param k = some prm ∧ prm.paramName = q.name ∧
          prm.required = q.required ∧ prm.isBodyParam = false) ∧
      (op.requestBody.isSome = true →
        ∃ prm, sampleRecord.operation.param (op.parameters.getD []).length = some prm ∧
          prm.isBodyParam = true ∧
          sampleRecord.operation.bodyParam = some (op.parameters.getD []).length) ∧
      (∀ (k l : Nat) (qk ql : Param) (a b : Nat), k < l →
        (op.parameters.getD [])[k]? = some qk → (op.parameters.getD [])[l]? = some ql →
        truthyB qk.required = truthyB ql.required →
        sampleRecord.operation.allParams[a]? = some k →
        sampleRecord.operation.allParams[b]? = some l → a < b) :=
  ⟨sample_transform, sampleRecord_mem, allParams_stable_perm sample_transform sampleRecord_mem⟩

/-- C4, counterexample. On the sample document the record of `get /pets/{id}`
has four elements in `allParams` (three declared parameters and the body) while
`pathParams` and `queryParams` hold one element each and `headerParams` and
`formParams` none: the cookie parameter `session` is in no per-location list. -/
theorem allParams_length_counterexample :
    transform sampleEnv .nop sampleDoc [] = (.ok sampleContext, .nop) ∧
    sampleContext.operations[0]? = some sampleRecord ∧
    sampleRecord.operation.allParams.length = 4 ∧
    sampleRecord.operation.pathParams.length + sampleRecord.operation.queryParams.length +
      sampleRecord.operation.headerParams.length + sampleRecord.operation.formParams.length +
      (if sampleRecord.operation.bodyParam.isSome then 1 else 0) = 3 :=
  ⟨rfl, rfl, rfl, rfl⟩

/-- C4, witness: the amended statement on the record of `get /pets/{id}` of the
sample document. -/
theorem allParams_length_witness :
    transform sampleEnv .nop sampleDoc [] = (.ok sampleContext, .nop) ∧
    sampleRecord ∈ sampleContext.operations ∧
    ∃ (p : String) (item : PathItem) (o : String) (op : Op),
      (p, item) ∈ (sampleEnv.deref sampleDoc).paths.getD [] ∧ (o, op) ∈ item ∧
      sampleRecord.operation.path = p ∧ sampleRecord.operation.httpMethod = o ∧
      sampleRecord.operation.allParams.length =
        sampleRecord.operation.pathParams.length + sampleRecord.operation.queryParams.length +
          sampleRecord.operation.headerParams.length +
          sampleRecord.operation.formParams.length +
          (if sampleRecord.operation.bodyParam.isSome then 1 else 0) +
          (op.parameters.getD []).countP (fun q =>
            !(q.in == some "path" || q.in == some "query" || q.in == some "header" ||
              q.in == some "form")) ∧
      (sampleRecord.operation.bodyParam.isSome = op.requestBody.isSome) ∧
      ∀ (k : Nat) (q : Param), (op.parameters.getD [])[k]? = some q →
        sampleRecord.operation.pathParams.count k = (if q.in = some "path" then 1 else 0) ∧
        sampleRecord.operation.queryParams.count k = (if q.in = some "query" then 1 else 0) ∧
        sampleRecord.operation.headerParams.count k =
          (if q.in = some "header" then 1 else 0) ∧
        sampleRecord.operation.formParams.count k = (if q.in = some "form" then 1 else 0) :=
  ⟨sample_transform, sampleRecord_mem, allParams_length sample_transform sampleRecord_mem⟩

/-- C5, witness: on the sample document the last element of `allParams` (index 3,
the cookie parameter `session`) has `hasMore = false`. -/
theorem allParams_hasMore_witness :
    transform sampleEnv .nop sampleDoc [] = (.ok sampleContext, .nop) ∧
    sampleRecord ∈ sampleContext.operations ∧
    sampleRecord.operation.allParams[3]? = some 2 ∧
    (sampleRecord.operation.param 2).map (fun p => p.hasMore) =
      some (decide (3 + 1 < sampleRecord.operation.allParams.length)) :=
  ⟨sample_transform, sampleRecord_mem, rfl,
    allParams_hasMore sample_transform sampleRecord_mem 3 2 rfl⟩

/-- C6, counterexample. On the sample document the record of `get /pets/{id}`
has `pathParams = [id]` (reference 1), a list of length 1 whose single element
has `hasMore = true`, and `bodyParams = [body]` (reference 3), whose single
element has `hasMore = true` as well. -/
theorem locationParams_hasMore_counterexample :
    transform sampleEnv .nop sampleDoc [] = (.ok sampleContext, .nop) ∧
    sampleContext.operations[0]? = some sampleRecord ∧
    sampleRecord.operation.pathParams = [1] ∧
    (sampleRecord.operation.param 1).map (fun p => p.hasMore) = some true ∧
    sampleRecord.operation.bodyParams = some [3] ∧
    (sampleRecord.operation.param 3).map (fun p => p.hasMore) = some true :=
  ⟨rfl, rfl, rfl, rfl, rfl, rfl⟩

/-- C6, witness: on the sample document the only element of `pathParams` is not
the last element of `allParams`, and its `hasMore` is `true`. -/
theorem locationParams_hasMore_witness :
    transform sampleEnv .nop sampleDoc [] = (.ok sampleContext, .nop) ∧
    sampleRecord ∈ sampleContext.operations ∧
    1 ∈ sampleRecord.operation.pathParams ∧
    (sampleRecord.operation.param 1).map (fun p => p.hasMore) =
      some (decide (sampleRecord.operation.allParams.getLast? ≠ some 1)) :=
  ⟨sample_transform, sampleRecord_mem, by decide,
    locationParams_hasMore sample_transform sampleRecord_mem 1 (Or.inl (by decide))⟩

/-- C7, witness: on the sample document the second and last record has
`operation.hasMore = false`. -/
theorem operations_hasMore_witness :
    transform sampleEnv .nop sampleDoc [] = (.ok sampleContext, .nop) ∧
    sampleContext.operations[1]? = some sampleLastRecord ∧
    sampleLastRecord.operation.hasMore = decide (1 + 1 < sampleContext.operations.length) :=
  ⟨sample_transform, rfl, operations_hasMore sample_transform 1 sampleLastRecord rfl⟩

/-- C8, counterexample. On the sample document the schema `Pet` has the three
properties `id`, `tags` and `owner` and the title `Pet`; the model's `vars` has
four entries, the first of them for the schema root itself, named by its
title. -/
theorem model_vars_counterexample :
    transform sampleEnv .nop sampleDoc [] = (.ok sampleContext, .nop) ∧
    declaredSchemas (sampleEnv.deref sampleDoc) = [("Pet", samplePet)] ∧
    sampleContext.models[0]? = some sampleModel ∧
    (samplePet.properties.getD []).map (fun kv => kv.1) = ["id", "tags", "owner"] ∧
    sampleModel.model.vars.map (fun var => var.name) =
      [some "Pet", some "id", some "tags", some "owner"] :=
  ⟨rfl, rfl, rfl, rfl, rfl⟩

/-- C8, witness: the amended statement on the sample document, whose schema
`Pet` has the property keys `id`, `tags` and `owner`. -/
theorem model_vars_shallow_witness :
    transform sampleEnv .nop sampleDoc [] = (.ok sampleContext, .nop) ∧
    declaredSchemas (sampleEnv.deref sampleDoc) = [("Pet", samplePet)] ∧
    (∀ kv ∈ samplePet.properties.getD [], kv.1 ≠ "" ∧ '/' ∉ kv.1.data) ∧
    List.Forall₂
      (fun (named : String × Schema) (m : ModelContainer) =>
        m.model.name = named.1 ∧
        ((∀ kv ∈ named.2.properties.getD [], kv.1 ≠ "" ∧ '/' ∉ kv.1.data) →
          m.model.vars =
            (if truthyS (orElseS named.2.name named.2.title) then
                [mkVariable .nop
                  { schema := named.2, parent := Schema.empty, depth := 0, property := none }]
              else []) ++
            ((match named.2.items with
              | some sub =>
                if truthyS (orElseS sub.name sub.title) then
                  [mkVariable .nop
                    { schema := sub, parent := named.2, depth := 1, property := some "items" }]
                else []
              | none => []) ++
            ((match named.2.additionalProperties with
              | some sub =>
                if truthyS (orElseS sub.name sub.title) then
                  [mkVariable .nop
                    { schema := sub, parent := named.2, depth := 1,
                      property := some "additionalProperties" }]
                else []
              | none => []) ++
            (named.2.properties.getD []).map
              (fun kv => mkVariable .nop
                { schema := kv.2, parent := named.2, depth := 1,
                  property := some ("properties/" ++ kv.1) }))) ∧
          ∀ kv ∈ named.2.properties.getD [],
            (mkVariable .nop
              { schema := kv.2, parent := named.2, depth := 1,
                property := some ("properties/" ++ kv.1) }).name =
              if truthyS (orElseS kv.2.name kv.2.title) then orElseS kv.2.name kv.2.title
              else some kv.1))
      (declaredSchemas (sampleEnv.deref sampleDoc)) sampleContext.models :=
  ⟨sample_transform, rfl, by decide, model_vars_shallow sample_transform⟩

/-- C9, witness: the statement on the sample document. -/
theorem deep_nodes_yield_no_var_witness :
    transform sampleEnv .nop sampleDoc [] = (.ok sampleContext, .nop) ∧
    (List.Forall₂
      (fun (named : String × Schema) (m : ModelContainer) =>
        m.model.name = named.1 ∧
        ∀ var ∈ m.model.vars, ∃ v ∈ walkSchema named.2,
          v.depth ≤ 1 ∧ callback .nop v = .ok (some var))
      (declaredSchemas (sampleEnv.deref sampleDoc)) sampleContext.models ∧
    (∀ (v : Visit) (r : Option Variable), 2 ≤ v.depth → callback .nop v = .ok r →
      r = none) ∧
    (∀ (depth : Nat) (property : Option String) (parent schema : Schema)
      (vars : List Variable), 2 ≤ depth →
      collectVars .nop (walkAt depth property parent schema) = .ok vars → vars = [])) :=
  ⟨sample_transform, deep_nodes_yield_no_var sample_transform⟩

/-- C10, witness: the sample document transformed with `language: TypeScript`;
the query parameter `ids`, an array of integers, gets the type `Array<number>`. -/
theorem typescript_array_mapping_witness :
    Obj.get [("language", .str "TypeScript")] "language" = .str "TypeScript" ∧
    toLowerCase "TypeScript" = "typescript" ∧
    transform sampleEnv .nop sampleDoc [("language", .str "TypeScript")] =
      (.ok sampleContextTs, .typescript) ∧
    sampleContextTs.operations.map
        (fun c => c.operation.store.map (fun prm => (prm.paramName, prm.dataType))) =
      [[(some "limit", some "number"), (some "id", some "string"),
          (some "session", some "string"), (some "body", some "object")],
        [(some "id", some "string"), (some "ids", some "Array<number>")]] ∧
    sampleContextTs.models.map (fun m => m.model.vars.map (fun var => (var.name, var.type))) =
      [[(some "Pet", some "object"), (some "id", some "number"),
          (some "tags", some "Array<string>"), (some "owner", some "object")]] ∧
    (transform sampleEnv .nop sampleDoc [("language", .str "TypeScript")] =
      (buildContext sampleEnv .typescript sampleDoc [("language", .str "TypeScript")],
        .typescript) ∧
    (∀ (schema it : Schema) (required : Bool), schema.type = some "array" →
      schema.items = some it → truthyS it.type = true →
      typeMaps .typescript schema.type required schema =
        some ("Array<" ++ jsStr (typeMaps .typescript it.type false it) ++ ">")) ∧
    (∀ (required : Bool) (schema : Schema),
      typeMaps .typescript (some "integer") required schema = some "number") ∧
    (∀ required : Bool, typeMaps .typescript (some "array") required
      (Schema.arrayOf (Schema.ofType "integer")) = some "Array<number>") ∧
    (∀ required : Bool, typeMaps .typescript (some "array") required
      (Schema.arrayOf (Schema.arrayOf (Schema.ofType "integer"))) =
        some "Array<Array<number>>") ∧
    (∀ (ctx : Context) (c : OperationContainer),
      buildContext sampleEnv .typescript sampleDoc [("language", .str "TypeScript")] =
        .ok ctx → c ∈ ctx.operations →
      ∃ (p : String) (item : PathItem) (o : String) (op : Op),
        (p, item) ∈ (sampleEnv.deref sampleDoc).paths.getD [] ∧ (o, op) ∈ item ∧
        c.operation.path = p ∧ c.operation.httpMethod = o ∧
        ∀ (k : Nat) (q : Param), (op.parameters.getD [])[k]? = some q →
          ∃ sch prm, q.schema = some sch ∧ c.operation.param k = some prm ∧
            prm.dataType = typeMaps .typescript sch.type (truthyB q.required) sch) ∧
    (∀ ctx : Context,
      buildContext sampleEnv .typescript sampleDoc [("language", .str "TypeScript")] =
        .ok ctx →
      List.Forall₂
        (fun (named : String × Schema) (m : ModelContainer) =>
          ∀ var ∈ m.model.vars, ∃ v ∈ walkSchema named.2,
            var.type = typeMaps .typescript v.schema.type (truthyB var.required) v.schema)
        (declaredSchemas (sampleEnv.deref sampleDoc)) ctx.models)) :=
  ⟨rfl, by decide, rfl, rfl, rfl,
    typescript_array_mapping sampleEnv .nop sampleDoc [("language", .str "TypeScript")]
      "TypeScript" rfl (by decide)⟩

/-! ## Further claims on the sample documents -/

theorem sample_transform_overridden :
    transform sampleEnv .nop sampleDoc sampleOverrides =
      (.ok sampleContextOverridden, .nop) := rfl

theorem sample_store_transform :
    transform sampleEnv .nop sampleStoreDoc [] = (.ok sampleStoreContext, .nop) := rfl

theorem sampleListRecord_mem : sampleListRecord ∈ sampleStoreContext.operations :=
  List.getElem?_mem (rfl : sampleStoreContext.operations[0]? = some sampleListRecord)

/-- C11, witness: the second sample document transformed with `language: java`
(the statement is taken at the spelling `Java`, which lower-cases to it);
the optional parameter `limit` gets `integer?`, the required parameter `tenant`
gets `integer`, the optional property of `Thing` gets `string?` and its required
property `plain` gets `integer`. -/
theorem java_nullable_mapping_witness :
    Obj.get [("language", .str "Java")] "language" = .str "Java" ∧
    toLowerCase "Java" = "java" ∧
    transform sampleEnv .nop sampleStoreDoc [("language", .str "java")] =
      (.ok sampleStoreContextJava, .java) ∧
    sampleStoreContextJava.operations.map
        (fun c => c.operation.store.map
          (fun prm => (prm.paramName, prm.required, prm.dataType))) =
      [[(some "limit", none, some "integer?"), (some "tenant", some true, some "integer")],
        [], []] ∧
    sampleStoreContextJava.models.map
        (fun m => m.model.vars.map (fun var => (var.name, var.required, var.type))) =
      [[(some "a", some false, some "string?"), (some "plain", some true, some "integer")]] ∧
    (transform sampleEnv .nop sampleStoreDoc [("language", .str "Java")] =
      (buildContext sampleEnv .java sampleStoreDoc [("language", .str "Java")], .java) ∧
    (∀ (type : Option String) (schema : Schema), typeMaps .java type true schema = type) ∧
    (∀ (type : String) (schema : Schema),
      typeMaps .java (some type) false schema = some (type ++ "?")) ∧
    (∀ schema : Schema, typeMaps .java none false schema = some "undefined?") ∧
    typeMaps .java (Schema.ofType "integer").type (truthyB (some true))
      (Schema.ofType "integer") = some "integer" ∧
    (∀ (ctx : Context) (c : OperationContainer),
      buildContext sampleEnv .java sampleStoreDoc [("language", .str "Java")] = .ok ctx →
      c ∈ ctx.operations →
      ∃ (p : String) (item : PathItem) (o : String) (op : Op),
        (p, item) ∈ (sampleEnv.deref sampleStoreDoc).paths.getD [] ∧ (o, op) ∈ item ∧
        c.operation.path = p ∧ c.operation.httpMethod = o ∧
        ∀ (k : Nat) (q : Param), (op.parameters.getD [])[k]? = some q →
          ∃ sch prm, q.schema = some sch ∧ c.operation.param k = some prm ∧
            (q.required = some true → prm.dataType = sch.type) ∧
            (q.required ≠ some true → prm.dataType = some (jsStr sch.type ++ "?"))) ∧
    (∀ ctx : Context,
      buildContext sampleEnv .java sampleStoreDoc [("language", .str "Java")] = .ok ctx →
      List.Forall₂
        (fun (named : String × Schema) (m : ModelContainer) =>
          ∀ var ∈ m.model.vars, ∃ v ∈ walkSchema named.2,
            (var.required = some true → var.type = v.schema.type) ∧
            (var.required ≠ some true → var.type = some (jsStr v.schema.type ++ "?")))
        (declaredSchemas (sampleEnv.deref sampleStoreDoc)) ctx.models)) :=
  ⟨rfl, by decide, rfl, rfl, rfl,
    java_nullable_mapping sampleEnv .nop sampleStoreDoc [("language", .str "Java")] "Java"
      rfl (by decide)⟩

/-- C12, witness: the second sample document transformed with no options, in a
fresh module and after a call with `language: java`. The second run gives the
optional parameter `limit` the type `integer?` and the optional property of
`Thing` the type `string?`, where the fresh module gives `integer` and
`string`. -/
theorem typeMap_kept_when_language_unknown_witness :
    languageOf [] = .ok "" ∧ "" ∉ truthyRegistryKeys ∧
    (transform sampleEnv .nop sampleStoreDoc [("language", .str "java")]).2 = .java ∧
    transform sampleEnv .java sampleStoreDoc [] = (.ok sampleStoreContextAfterJava, .java) ∧
    transform sampleEnv .nop sampleStoreDoc [] = (.ok sampleStoreContext, .nop) ∧
    sampleStoreContextAfterJava.operations.map
        (fun c => c.operation.store.map (fun prm => (prm.paramName, prm.dataType))) =
      [[(some "limit", some "integer?"), (some "tenant", some "integer")], [], []] ∧
    sampleStoreContext.operations.map
        (fun c => c.operation.store.map (fun prm => (prm.paramName, prm.dataType))) =
      [[(some "limit", some "integer"), (some "tenant", some "integer")], [], []] ∧
    sampleStoreContextAfterJava.models.map
        (fun m => m.model.vars.map (fun var => (var.name, var.type))) =
      [[(some "a", some "string?"), (some "plain", some "integer")]] ∧
    sampleStoreContext.models.map
        (fun m => m.model.vars.map (fun var => (var.name, var.type))) =
      [[(some "a", some "string"), (some "plain", some "integer")]] ∧
    (transform sampleEnv .java sampleStoreDoc [] =
      (buildContext sampleEnv .java sampleStoreDoc [], .java) ∧
    (∀ (earlier : Document) (options : Obj) (before : TypeMapName) (l : String),
      options.get "language" = .str l → toLowerCase l = "java" →
      transform sampleEnv (transform sampleEnv before earlier options).2 sampleStoreDoc [] =
        (buildContext sampleEnv .java sampleStoreDoc [], .java)) ∧
    (∀ (type : Option String) (required : Bool) (schema : Schema),
      typeMaps .nop type required schema = type) ∧
    (∀ (type : String) (schema : Schema),
      typeMaps .java (some type) false schema = some (type ++ "?"))) :=
  ⟨rfl, by decide, rfl, rfl, rfl, rfl, rfl, rfl, rfl,
    typeMap_kept_when_language_unknown sampleEnv .java sampleStoreDoc [] "" rfl (by decide)⟩

/-- C13, counterexample. On the sample document the caller supplies `version`,
`packageName`, `licenseUrl`, `host` and `hasMore`; the context carries the
document's version, the fixed package name, `null`, the empty host and `true`
instead. -/
theorem caller_keys_counterexample :
    transform sampleEnv .nop sampleDoc sampleOverrides =
      (.ok sampleContextOverridden, .nop) ∧
    sampleOverrides.get "version" = .str "9.9.9" ∧
    sampleContextOverridden.obj.get "version" = .str "1.0.0" ∧
    sampleOverrides.get "packageName" = .str "my.pkg" ∧
    sampleContextOverridden.obj.get "packageName" = .str "IO.OpenAPI" ∧
    sampleOverrides.get "licenseUrl" = .str "https://example.org/licence" ∧
    sampleContextOverridden.obj.get "licenseUrl" = .null ∧
    sampleOverrides.get "host" = .str "api.example.org" ∧
    sampleContextOverridden.obj.get "host" = .str "" ∧
    sampleOverrides.get "hasMore" = .bool false ∧
    sampleContextOverridden.obj.get "hasMore" = .bool true ∧
    sampleContextOverridden.obj.get "version" ≠ sampleOverrides.get "version" :=
  ⟨rfl, rfl, rfl, rfl, rfl, rfl, rfl, rfl, rfl, rfl, rfl, fun h => by
    have h' : JVal.str "1.0.0" = JVal.str "9.9.9" := h
    injection h' with h'
    exact absurd h' (by decide)⟩

/-- C13, witness: on the sample document the caller's `modelPropertyNaming`
replaces the default `original`. -/
theorem caller_keys_kept_witness :
    transform sampleEnv .nop sampleDoc sampleOverrides =
      (.ok sampleContextOverridden, .nop) ∧
    (sampleOverrides.map Prod.fst).Nodup ∧
    sampleOverrides.has "modelPropertyNaming" = true ∧
    "modelPropertyNaming" ∉ assignedKeys ∧
    sampleContextOverridden.obj.get "modelPropertyNaming" =
      sampleOverrides.get "modelPropertyNaming" :=
  ⟨rfl, by decide, by decide, by decide,
    caller_keys_kept sample_transform_overridden (by decide) "modelPropertyNaming"
      (by decide) (by decide)⟩

/-- C14, counterexample. The sample document declares no license and the caller
supplies no option; the context has `licenseUrl = null`, not the default
`https://unlicense.org`. -/
theorem defaults_kept_counterexample :
    transform sampleEnv .nop sampleDoc [] = (.ok sampleContext, .nop) ∧
    getBase.get "licenseUrl" = .str "https://unlicense.org" ∧
    Obj.has [] "licenseUrl" = false ∧
    sampleContext.obj.get "licenseUrl" = .null ∧
    sampleContext.obj.get "licenseUrl" ≠ getBase.get "licenseUrl" :=
  ⟨rfl, rfl, rfl, rfl, fun h => by
    have h' : JVal.null = JVal.str "https://unlicense.org" := h
    cases h'⟩

/-- C14, witness: the amended statement on the sample document with no
options. -/
theorem defaults_kept_witness :
    transform sampleEnv .nop sampleDoc [] = (.ok sampleContext, .nop) ∧
    ((∀ k, getBase.has k = true → k ≠ "licenseUrl" → Obj.has [] k = false →
      sampleContext.obj.get k = getBase.get k) ∧
    ∃ info, sampleDoc.info = some info ∧
      sampleContext.obj.get "licenseUrl" =
        match info.license with
        | some license => JVal.ofStr license.url
        | none => .null) :=
  ⟨sample_transform, defaults_kept sample_transform⟩

/-- C15, witness: the second sample document with a validator that rejects it.
The context has the one message of level `Error` whose `elementId` is the last
frame of the validation context, and the same operations, models and security
entries as with a validator that accepts the document. -/
theorem validation_message_witness :
    transform sampleEnvInvalid .nop sampleStoreDoc [] =
      (.ok sampleStoreContextInvalid, .nop) ∧
    sampleStoreContextInvalid.messages.map (fun m => (m.level, m.elementId, m.message)) =
      [("Error", some "#/paths/~1pets/get", "expected responses")] ∧
    sampleStoreContext.messages.map (fun m => (m.level, m.elementId, m.message)) =
      [("Valid", some "None", "No validation errors detected")] ∧
    sampleStoreContextInvalid.operations.length = 3 ∧
    sampleStoreContextInvalid.models.length = 1 ∧
    ((∀ (ctx : Context) (typeMap' : TypeMapName),
      transform sampleEnvInvalid .nop sampleStoreDoc [] = (.ok ctx, typeMap') →
      ctx.messages =
        [mkMessage (sampleEnvInvalid.validator (sampleEnvInvalid.deref sampleStoreDoc)
          (Obj.get [] "lint"))]) ∧
    (mkMessage .valid).level = "Valid" ∧
    (∀ (context : List String) (message : String),
      (mkMessage (.invalid context message)).level = "Error" ∧
      (mkMessage (.invalid context message)).elementId = context.getLast? ∧
      (mkMessage (.invalid context message)).message = message) ∧
    (∀ validator : Document → JVal → Validation,
      (transform { sampleEnvInvalid with validator := validator } .nop sampleStoreDoc []).2 =
        (transform sampleEnvInvalid .nop sampleStoreDoc []).2 ∧
      (transform { sampleEnvInvalid with validator := validator } .nop sampleStoreDoc []).1.map
          (fun ctx => (ctx.obj, ctx.authMethods, ctx.operations, ctx.models)) =
        (transform sampleEnvInvalid .nop sampleStoreDoc []).1.map
          (fun ctx => (ctx.obj, ctx.authMethods, ctx.operations, ctx.models)))) :=
  ⟨rfl, rfl, rfl, rfl, rfl, validation_message sampleEnvInvalid .nop sampleStoreDoc []⟩

/-- C16, witness: in the second sample document `get /pets` has the tags `pets`
and `admin`, `post /pets` an empty list of tags and `get /pets/{id}` no tags;
the base names are `pets`, `Default` and `Default`. -/
theorem baseName_default_or_first_tag_witness :
    transform sampleEnv .nop sampleStoreDoc [] = (.ok sampleStoreContext, .nop) ∧
    sampleListRecord ∈ sampleStoreContext.operations ∧
    sampleStoreContext.operations.map
        (fun c => (c.operation.path, c.operation.httpMethod, c.operation.baseName)) =
      [("/pets", "get", "pets"), ("/pets", "post", "Default"),
        ("/pets/{id}", "get", "Default")] ∧
    (∃ (p : String) (item : PathItem) (o : String) (op : Op),
      (p, item) ∈ (sampleEnv.deref sampleStoreDoc).paths.getD [] ∧ (o, op) ∈ item ∧
      sampleListRecord.operation.path = p ∧ sampleListRecord.operation.httpMethod = o ∧
      (op.tags = none → sampleListRecord.operation.baseName = "Default") ∧
      (op.tags = some [] → sampleListRecord.operation.baseName = "Default") ∧
      (∀ tag rest, op.tags = some (tag :: rest) →
        sampleListRecord.operation.baseName = tag)) :=
  ⟨rfl, sampleListRecord_mem, rfl,
    baseName_default_or_first_tag sample_store_transform sampleListRecord_mem⟩

/-- C17, witness: the second sample document has eight path-item keys, of which
`summary`, `x-internal`, `parameters`, `description` and `$ref` are skipped; the
three records are `get /pets`, `post /pets` and `get /pets/{id}`, in this
order. -/
theorem operations_per_path_and_method_witness :
    transform sampleEnv .nop sampleStoreDoc [] = (.ok sampleStoreContext, .nop) ∧
    (sampleStoreDoc.paths.getD []).map
        (fun pathEntry => (pathEntry.1, pathEntry.2.map (fun kv => kv.1))) =
      [("/pets", ["summary", "get", "x-internal", "parameters", "post"]),
        ("/pets/{id}", ["description", "$ref", "get"])] ∧
    sampleStoreContext.operations.map (fun c => (c.operation.path, c.operation.httpMethod)) =
      [("/pets", "get"), ("/pets", "post"), ("/pets/{id}", "get")] ∧
    sampleStoreContext.operations.map (fun c => (c.operation.path, c.operation.httpMethod)) =
      ((sampleEnv.deref sampleStoreDoc).paths.getD []).flatMap (fun pathEntry =>
        (pathEntry.2.filter (fun kv =>
          !(kv.1 == "description" || kv.1 == "summary" || kv.1 == "parameters" ||
            kv.1 == "$ref" || startsWith kv.1 "x-"))).map
          (fun kv => (pathEntry.1, kv.1))) :=
  ⟨rfl, rfl, rfl, operations_per_path_and_method sample_store_transform⟩

/-- C18, witness: a string schema without name or title under the property key
`a/b` is named `a`; in the second sample document the schema `Thing` has the
property keys `a/b` and `plain`, and its model has the variables `a` and
`plain`. -/
theorem property_name_is_second_segment_witness :
    truthyS (orElseS (Schema.ofType "string").name (Schema.ofType "string").title) = false ∧
    entryName (Schema.ofType "string") (some ("properties/" ++ "a/b")) = some "a" ∧
    (sampleThing.properties.getD []).map (fun kv => kv.1) = ["a/b", "plain"] ∧
    transform sampleEnv .nop sampleStoreDoc [] = (.ok sampleStoreContext, .nop) ∧
    sampleStoreContext.models.map
        (fun m => (m.model.name, m.model.vars.map (fun var => var.name))) =
      [("Thing", [some "a", some "plain"])] ∧
    (('/' ∉ "a/b".data →
      entryName (Schema.ofType "string") (some ("properties/" ++ "a/b")) = some "a/b") ∧
    (∀ a b : String, '/' ∉ a.data → "a/b" = a ++ "/" ++ b →
      entryName (Schema.ofType "string") (some ("properties/" ++ "a/b")) = some a) ∧
    (∀ (named : Schema) (property : Option String), truthyS named.name = true →
      entryName named property = named.name) ∧
    (∀ (titled : Schema) (property : Option String), truthyS titled.name = false →
      truthyS titled.title = true → entryName titled property = titled.title)) :=
  ⟨rfl, rfl, rfl, rfl, rfl, property_name_is_second_segment (Schema.ofType "string") "a/b" rfl⟩

/-- C19, witness: `get /pets` of the second sample document declares the
responses `200` (a schema that was a reference to `Pet`), `404` (no content) and
`default` (a string schema); the entries are `response200` of type `Pet`,
`response404` without type and `responsedefault` of type `string`. -/
theorem responses_per_code_witness :
    transform sampleEnv .nop sampleStoreDoc [] = (.ok sampleStoreContext, .nop) ∧
    sampleListRecord ∈ sampleStoreContext.operations ∧
    sampleListRecord.operation.responses.map
        (fun entry => (entry.code, entry.nickname, entry.dataType)) =
      [("200", "response200", some "Pet"), ("404", "response404", none),
        ("default", "responsedefault", some "string")] ∧
    (∃ (p : String) (item : PathItem) (o : String) (op : Op),
      (p, item) ∈ (sampleEnv.deref sampleStoreDoc).paths.getD [] ∧ (o, op) ∈ item ∧
      sampleListRecord.operation.path = p ∧ sampleListRecord.operation.httpMethod = o ∧
      List.Forall₂
        (fun (declared : String × Response) (entry : ResponseEntry) =>
          entry.code = declared.1 ∧ entry.nickname = "response" ++ declared.1 ∧
          ∀ (first : String × MediaType) (others : List (String × MediaType))
            (schema : Schema),
            declared.2.content = some (first :: others) → first.2.schema = some schema →
            (∀ n : String, schema.xOldref = some ("#/components/schemas/" ++ n) →
              entry.dataType = some n) ∧
            (schema.xOldref = none → entry.dataType = schema.type))
        (op.responses.getD []) sampleListRecord.operation.responses) :=
  ⟨rfl, sampleListRecord_mem, rfl,
    responses_per_code sample_store_transform sampleListRecord_mem⟩

/-- C20, counterexample. The second sample document declares the schemes `basic`
(`http`), `oauth` (`oauth2`), `key` (`apiKey`) and `oidc` (`openIdConnect`);
`authMethods` has four entries, the last one for `oidc`, with none of the three
flags. -/
theorem authMethods_counterexample :
    transform sampleEnv .nop sampleStoreDoc [] = (.ok sampleStoreContext, .nop) ∧
    ((sampleStoreDoc.components.bind (fun components => components.securitySchemes)).getD
        []).map (fun declared => (declared.1, declared.2.type)) =
      [("basic", some "http"), ("oauth", some "oauth2"), ("key", some "apiKey"),
        ("oidc", some "openIdConnect")] ∧
    sampleStoreContext.authMethods.map (fun entries => entries.map
        (fun entry => (entry.name, entry.isBasic, entry.isOAuth, entry.isApiKey))) =
      some [("basic", true, false, false), ("oauth", false, true, false),
        ("key", false, false, true), ("oidc", false, false, false)] :=
  ⟨rfl, rfl, rfl⟩

/-- C20, witness: the amended statement on the second sample document. -/
theorem authMethods_per_scheme_witness :
    transform sampleEnv .nop sampleStoreDoc [] = (.ok sampleStoreContext, .nop) ∧
    ((∀ (components : Components) (schemes : List (String × SecurityScheme)),
      sampleStoreDoc.components = some components →
      components.securitySchemes = some schemes →
      ∃ entries, sampleStoreContext.authMethods = some entries ∧
        List.Forall₂
          (fun (declared : String × SecurityScheme) (entry : AuthMethod) =>
            entry.name = declared.1 ∧
            entry.isBasic = decide (declared.2.type = some "http") ∧
            entry.isOAuth = decide (declared.2.type = some "oauth2") ∧
            entry.isApiKey = decide (declared.2.type = some "apiKey"))
          schemes entries) ∧
    (∀ (s : String) (scheme : SecurityScheme), scheme.type ≠ some "http" →
      scheme.type ≠ some "oauth2" → scheme.type ≠ some "apiKey" →
      mkAuthMethod s scheme = .ok { name := s })) :=
  ⟨rfl, authMethods_per_scheme sample_store_transform⟩

theorem sample_upload_transform :
    transform sampleEnv .nop sampleUploadDoc [("language", .str "typescript")] =
      (.ok sampleUploadContext, .typescript) := rfl

theorem sampleUploadRecord_mem : sampleUploadRecord ∈ sampleUploadContext.operations :=
  List.getElem?_mem (rfl : sampleUploadContext.operations[0]? = some sampleUploadRecord)

/-- C21, witness: a document whose only path item has the keys `summary`,
`x-internal` and `parameters`, and the same document without `paths`; both
calls raise the TypeError of the reset of the last operation. -/
theorem no_operation_raises_witness :
    (∀ pathEntry ∈ (sampleEnv.deref sampleBareDoc).paths.getD [], ∀ kv ∈ pathEntry.2,
      isSkippedKey kv.1 = true) ∧
    (transform sampleEnv .nop sampleBareDoc []).1 =
      .error "TypeError: Cannot read property 'operation' of undefined" ∧
    (transform sampleEnv .nop { sampleBareDoc with paths := none } []).1 =
      .error "TypeError: Cannot read property 'operation' of undefined" ∧
    (transform sampleEnv .nop { sampleBareDoc with paths := some [] } []).1 =
      .error "TypeError: Cannot read property 'operation' of undefined" ∧
    ((∃ e, (transform sampleEnv .nop sampleBareDoc []).1 = .error e) ∧
    (∀ (mapping : TypeMapName) (sf : Bool),
      pathsLoop mapping sf ((sampleEnv.deref sampleBareDoc).paths.getD []) [] = .ok [] ∧
      operationsStage mapping sf (sampleEnv.deref sampleBareDoc) =
        .error "TypeError: Cannot read property 'operation' of undefined") ∧
    markLastOperation [] = .error "TypeError: Cannot read property 'operation' of undefined" ∧
    (∀ (lang : String) (obj obj' : Obj) (authMethods : Option (List AuthMethod)),
      languageOf [] = .ok lang → contextObj sampleEnv sampleBareDoc [] = .ok obj →
      authStage sampleBareDoc = .ok authMethods →
      serverStage sampleEnv (sampleEnv.deref sampleBareDoc)
        (if authMethods.isSome then Obj.set obj "hasAuthMethods" (.bool true) else obj) =
          .ok obj' →
      (transform sampleEnv .nop sampleBareDoc []).1 =
        .error "TypeError: Cannot read property 'operation' of undefined")) :=
  ⟨by decide, rfl, rfl, rfl, no_operation_raises sampleEnv .nop sampleBareDoc [] (by decide)⟩

/-- C22, witness: the upload document transformed with `language: typescript`.
The request body of `post /numbers` has an array of integers as the schema of
its first content type; the body parameter has `dataType = 'object'` and
`type = 'array'`, not the `Array<number>` of the mapping. The body of `put /raw`
has no content; its body parameter has `dataType = 'object'` and no `type`. -/
theorem bodyParam_dataType_object_witness :
    transform sampleEnv .nop sampleUploadDoc [("language", .str "typescript")] =
      (.ok sampleUploadContext, .typescript) ∧
    sampleUploadRecord ∈ sampleUploadContext.operations ∧
    sampleUploadContext.operations.map
        (fun c => (c.operation.path, c.operation.bodyParam,
          c.operation.store.map (fun prm => (prm.paramName, prm.dataType, prm.type)))) =
      [("/numbers", some 0, [(some "body", some "object", some "array")]),
        ("/raw", some 0, [(some "body", some "object", none)])] ∧
    typeMaps .typescript (some "array") false (Schema.arrayOf (Schema.ofType "integer")) =
      some "Array<number>" ∧
    (∃ (p : String) (item : PathItem) (o : String) (op : Op),
      (p, item) ∈ (sampleEnv.deref sampleUploadDoc).paths.getD [] ∧ (o, op) ∈ item ∧
      sampleUploadRecord.operation.path = p ∧ sampleUploadRecord.operation.httpMethod = o ∧
      ∀ rb, op.requestBody = some rb →
        ∃ (r : Nat) (prm : Parameter),
          sampleUploadRecord.operation.bodyParam = some r ∧
          sampleUploadRecord.operation.bodyParams = some [r] ∧
          sampleUploadRecord.operation.param r = some prm ∧
          prm.isBodyParam = true ∧ prm.paramName = some "body" ∧
          prm.dataType = some "object" ∧
          (rb.content = none → prm.type = none) ∧
          (∀ (first : String × MediaType) (others : List (String × MediaType)),
            rb.content = some (first :: others) →
            ∃ schema, first.2.schema = some schema ∧ prm.schema = some schema ∧
              (truthyS schema.type = true → prm.type = schema.type) ∧
              (truthyS schema.type = false → prm.type = none))) :=
  ⟨rfl, sampleUploadRecord_mem, rfl, rfl,
    bodyParam_dataType_object sample_upload_transform sampleUploadRecord_mem⟩

/-- C23, witness: `get /search` declares the parameter `filter` without
`schema`, and `transform` raises a TypeError, also when the validator rejects
the document; the request body of `post /load` has a first content type without
`schema`, and `transform` raises a TypeError as well. -/
theorem missing_schema_raises_witness :
    ("/search", [("get", sampleSearch)]) ∈
      (sampleEnv.deref sampleContentParamDoc).paths.getD [] ∧
    ("get", sampleSearch) ∈ [("get", sampleSearch)] ∧
    isSkippedKey "get" = false ∧
    ((∃ q ∈ sampleSearch.parameters.getD [], q.schema = none) ∨
      (∃ (rb : RequestBody) (first : String × MediaType) (others : List (String × MediaType)),
        sampleSearch.requestBody = some rb ∧ rb.content = some (first :: others) ∧
        first.2.schema = none)) ∧
    (transform sampleEnv .nop sampleContentParamDoc []).1 =
      .error "TypeError: Cannot read property 'type' of undefined" ∧
    (transform sampleEnvInvalid .nop sampleContentParamDoc []).1 =
      .error "TypeError: Cannot read property 'type' of undefined" ∧
    (transform sampleEnv .nop sampleContentBodyDoc []).1 =
      .error "TypeError: Cannot read property 'type' of undefined" ∧
    ((∃ e, (transform sampleEnv .nop sampleContentParamDoc []).1 = .error e) ∧
    (∀ validator : Document → JVal → Validation,
      ∃ e, (transform { sampleEnv with validator := validator } .nop sampleContentParamDoc
        []).1 = .error e) ∧
    (∀ (mapping : TypeMapName) (operation : Operation) (q : Param), q.schema = none →
      addParameter mapping operation q =
        .error "TypeError: Cannot read property 'type' of undefined") ∧
    (∀ (operation : Operation) (rb : RequestBody) (first : String × MediaType)
      (others : List (String × MediaType)),
      rb.content = some (first :: others) → first.2.schema = none →
      addBodyParam operation (some rb) =
        .error "TypeError: Cannot read property 'type' of undefined")) :=
  ⟨List.mem_cons_self _ _, List.mem_cons_self _ _, rfl,
    Or.inl ⟨{ name := some "filter", «in» := some "query" },
      List.mem_cons_of_mem _ (List.mem_cons_self _ _), rfl⟩,
    rfl, rfl, rfl,
    missing_schema_raises sampleEnv .nop sampleContentParamDoc [] "/search"
      [("get", sampleSearch)] "get" sampleSearch (List.mem_cons_self _ _)
      (List.mem_cons_self _ _) rfl
      (Or.inl ⟨{ name := some "filter", «in» := some "query" },
        List.mem_cons_of_mem _ (List.mem_cons_self _ _), rfl⟩)⟩

end Adaptor
